import Mathlib

/-!
# Progression rules of the Oden game server

A shallow embedding of the model package of the server
(`server/internal/model`: `mission.go`, `hero.go`, `team.go`, `gacha.go`,
`battle.go`, `item.go`), with the properties of the mission state machine, of
hero leveling, of teams, of summon banners and sessions, of items and of
stages proved over it. The pull resolver, which the server does not have, is
taken from the specification.

Conventions of the embedding:

* Go's `int` is the 64-bit two's complement integer; it is held as an `Int`
  and every arithmetic result is brought back into range by `wrapInt`.
* A pointer field (`*time.Time`, `*MissionTemplate`, `*HeroType`) is an
  `Option`, `nil` being `none`.
* A method with a pointer receiver that returns `bool` becomes a function
  returning the pair of the returned value and the receiver after the call.
* `time.Now()` is the argument `now` of the function that reads the clock;
  `NewMission`, whose expiry depends on a second reading, takes both.
* A Go `string` is a Unicode text, a slice a list, and a map the list of its
  entries, with distinct keys; `nil` slices and maps are `none` where the code
  tells them from empty ones.
-/

namespace Oden

/-! ## Machine integers and instants -/

/-- Two's complement reduction of an integer to the range of Go's 64-bit `int`. -/
def wrapInt (x : Int) : Int := (x + 2 ^ 63) % 2 ^ 64 - 2 ^ 63

/-- The values a Go `int` can hold. -/
def InIntRange (x : Int) : Prop := -2 ^ 63 ≤ x ∧ x < 2 ^ 63

instance (x : Int) : Decidable (InIntRange x) := by
  unfold InIntRange; infer_instance

/-- Go's `a + b` on `int`. -/
def addInt (a b : Int) : Int := wrapInt (a + b)

/-- Go's `a - b` on `int`. -/
def subInt (a b : Int) : Int := wrapInt (a - b)

/-- Go's `a / b` on `int` for a non-zero `b`: the quotient truncated toward zero. -/
def divInt (a b : Int) : Int := wrapInt (Int.tdiv a b)

/-- An instant (`time.Time`), counted in nanoseconds from Go's zero time. -/
abbrev Time := Int

/-! ## Missions (`model/mission.go`) -/

abbrev MissionType := String

abbrev MissionStatus := String

def MissionStatusInProgress : MissionStatus := "in_progress"

def MissionStatusCompleted : MissionStatus := "completed"

def MissionStatusClaimed : MissionStatus := "claimed"

abbrev MissionRequirementType := String

/-- The struct `MissionTemplate`; its field `Type` is `Type_` here. -/
structure MissionTemplate where
  ID : String
  Title : String
  Description : String
  Type_ : MissionType
  RequirementType : MissionRequirementType
  TargetValue : Int
  TargetID : String
  GoldReward : Int
  GemsReward : Int
  ExperienceReward : Int
  ItemRewards : List String
deriving DecidableEq, Repr

/-- The struct `Mission`. -/
structure Mission where
  ID : String
  UserID : String
  MissionTemplateID : String
  Status : MissionStatus
  CurrentValue : Int
  AssignedAt : Time
  CompletedAt : Option Time
  ClaimedAt : Option Time
  ExpiresAt : Option Time
  Template : Option MissionTemplate
deriving DecidableEq, Repr

/-- The method `Mission.UpdateProgress`, with the clock reading `now`. -/
def UpdateProgress (now : Time) (value : Int) (m : Mission) : Bool × Mission :=
  if m.Status ≠ MissionStatusInProgress then
    (false, m)
  else
    let m1 := { m with CurrentValue := addInt m.CurrentValue value }
    match m1.Template with
    | some t =>
      if m1.CurrentValue ≥ t.TargetValue then
        (true, { m1 with
          CurrentValue := t.TargetValue
          Status := MissionStatusCompleted
          CompletedAt := some now })
      else
        (false, m1)
    | none => (false, m1)

/-- The method `Mission.ClaimRewards`, with the clock reading `now`. -/
def ClaimRewards (now : Time) (m : Mission) : Bool × Mission :=
  if m.Status ≠ MissionStatusCompleted then
    (false, m)
  else
    (true, { m with Status := MissionStatusClaimed, ClaimedAt := some now })

/-- One call on a mission: `UpdateProgress(value)` or `ClaimRewards()`. -/
inductive MissionCall where
  | updateProgress (value : Int)
  | claimRewards
deriving DecidableEq, Repr

/-- The mission after one call made when the clock reads `now`. -/
def applyCall (now : Time) (c : MissionCall) (m : Mission) : Mission :=
  match c with
  | .updateProgress value => (UpdateProgress now value m).2
  | .claimRewards => (ClaimRewards now m).2

/-- The mission after a finite sequence of calls, each paired with the clock
reading at which it is made. -/
def runCalls : List (Time × MissionCall) → Mission → Mission
  | [], m => m
  | (now, c) :: rest, m => runCalls rest (applyCall now c m)

/-- The position of a status in the order in_progress < completed < claimed;
a string that is none of the three constants gets 3. -/
def statusRank (s : MissionStatus) : Nat :=
  if s = MissionStatusInProgress then 0
  else if s = MissionStatusCompleted then 1
  else if s = MissionStatusClaimed then 2
  else 3

/-- A template asking for 3 won battles. -/
def sampleTemplate : MissionTemplate :=
  { ID := "t1", Title := "Win battles", Description := "Win 3 battles",
    Type_ := "daily", RequirementType := "win_battles", TargetValue := 3,
    TargetID := "", GoldReward := 100, GemsReward := 5, ExperienceReward := 50,
    ItemRewards := [] }

/-- A mission with the given status and progress on `sampleTemplate`. -/
def sampleMission (status : MissionStatus) (current : Int) : Mission :=
  { ID := "m1", UserID := "u1", MissionTemplateID := "t1", Status := status,
    CurrentValue := current, AssignedAt := 1000, CompletedAt := none,
    ClaimedAt := none, ExpiresAt := some 5000, Template := some sampleTemplate }

/-! ## Floating point (`float64`)

`Hero.CalculateStats` scales the base stats in `float64`. A finite
`float64` is held exactly, as a dyadic rational; the arithmetic on them is
an argument of the functions that use it, so that what is proved of them
holds whatever the rounding. `ieee754` is that arithmetic rounded after
every operation to the nearest value of 53 significant bits, ties to even.
Every intermediate value of `CalculateStats` is zero or has a magnitude
between 2^-53 and 2^127, so the exponent range of `float64` is never left
and is not modelled. -/

/-- A finite `float64`: the dyadic rational `m * 2 ^ e`. -/
structure F64 where
  m : Int
  e : Int
deriving DecidableEq, Repr

/-- The arithmetic on `float64` that the embedded code uses. -/
structure Float64Arith where
  /-- The conversion `float64(i)` of an `int`. -/
  ofInt : Int → F64
  /-- The sum `x + y`. -/
  add : F64 → F64 → F64
  /-- The product `x * y`. -/
  mul : F64 → F64 → F64
  /-- The conversion `int(x)`. -/
  toInt : F64 → Int

/-- The constant `1.0`. -/
def f64One : F64 := ⟨1, 0⟩

/-- The constant `0.1` as a `float64`: 3602879701896397 / 2^55. -/
def f64Tenth : F64 := ⟨3602879701896397, -55⟩

/-- The number of binary digits of `a`, found by halving at most `fuel` times;
`bitLength a a` is the number of binary digits of `a`. -/
def bitLength : Nat → Nat → Nat
  | 0, _ => 0
  | fuel + 1, a => if a = 0 then 0 else bitLength fuel (a / 2) + 1

/-- Rounding of `m * 2 ^ e` to 53 significant bits, to nearest, ties to even. -/
def roundF64 (m e : Int) : F64 :=
  let a := m.natAbs
  if a < 2 ^ 53 then ⟨m, e⟩
  else
    let s := bitLength a a - 53
    let q := a / 2 ^ s
    let r := a % 2 ^ s
    let half := 2 ^ (s - 1)
    let q1 := if r > half ∨ (r = half ∧ q % 2 = 1) then q + 1 else q
    ⟨(if m < 0 then -(q1 : Int) else (q1 : Int)), e + s⟩

/-- The exact sum of two dyadic rationals, rounded. -/
def ieeeAdd (x y : F64) : F64 :=
  let e := min x.e y.e
  roundF64 (x.m * 2 ^ (x.e - e).toNat + y.m * 2 ^ (y.e - e).toNat) e

/-- The exact product of two dyadic rationals, rounded. -/
def ieeeMul (x y : F64) : F64 := roundF64 (x.m * y.m) (x.e + y.e)

/-- The conversion `int(x)`: the value truncated toward zero. Go leaves the
result open when the truncated value is no `int`; what is returned then is
the smallest `int`, as the conversion instruction of amd64 does. -/
def ieeeToInt (x : F64) : Int :=
  let v := if 0 ≤ x.e then x.m * 2 ^ x.e.toNat else Int.tdiv x.m (2 ^ (-x.e).toNat)
  if -2 ^ 63 ≤ v ∧ v < 2 ^ 63 then v else -2 ^ 63

/-- IEEE 754 binary64 arithmetic, each operation rounded on its own. -/
def ieee754 : Float64Arith :=
  { ofInt := fun i => roundF64 i 0, add := ieeeAdd, mul := ieeeMul, toInt := ieeeToInt }

/-- The value of a `float64`, as a rational number. -/
def F64.toRat (x : F64) : ℚ := (x.m : ℚ) * (2 : ℚ) ^ x.e

/-- The relative rounding error of `float64`, 2^-53, above one. -/
def roundUp : ℚ := 1 + 1 / 2 ^ 53

/-- The relative rounding error of `float64`, 2^-53, below one. -/
def roundDown : ℚ := 1 - 1 / 2 ^ 53

/-- The stat the specification asks for, in its words: the floor of
`base * (1 + 0.1 * (level - 1))` in exact arithmetic. -/
def exactScaledStat (base level : Int) : Int :=
  ⌊(base : ℚ) * (1 + (1 / 10) * ((level : ℚ) - 1))⌋

/-! ## Heroes (`model/hero.go`) -/

/-- The struct `Skill`. -/
structure Skill where
  ID : String
  Name : String
  Description : String
  DamageMultiplier : F64
  Cooldown : Int
  TargetsAll : Bool
deriving DecidableEq, Repr

/-- The struct `HeroType`. -/
structure HeroType where
  ID : String
  Name : String
  Rarity : String
  BaseHP : Int
  BaseATK : Int
  Description : String
  ImageURL : String
  Skills : List Skill
deriving DecidableEq, Repr

/-- The struct `Hero`. -/
structure Hero where
  ID : String
  UserID : String
  HeroTypeID : String
  Level : Int
  Experience : Int
  CreatedAt : Time
  HeroType : Option HeroType
  HP : Int
  ATK : Int
  Skills : List Skill
deriving DecidableEq, Repr

/-- The value `1.0 + float64(level-1)*0.1` that `CalculateStats` names
`levelFactor`. -/
def levelFactor (fl : Float64Arith) (level : Int) : F64 :=
  fl.add f64One (fl.mul (fl.ofInt (subInt level 1)) f64Tenth)

/-- The value `int(float64(base) * levelFactor)` that `CalculateStats` stores
for a base stat. -/
def scaledStat (fl : Float64Arith) (base level : Int) : Int :=
  fl.toInt (fl.mul (fl.ofInt base) (levelFactor fl level))

/-- The method `Hero.CalculateStats`. -/
def CalculateStats (fl : Float64Arith) (h : Hero) : Hero :=
  match h.HeroType with
  | none => h
  | some ht =>
    { h with
      HP := scaledStat fl ht.BaseHP h.Level
      ATK := scaledStat fl ht.BaseATK h.Level }

/-- The method `Hero.AddExperience`. -/
def AddExperience (fl : Float64Arith) (amount : Int) (h : Hero) : Bool × Hero :=
  let oldLevel := h.Level
  let h1 := { h with Experience := addInt h.Experience amount }
  let h2 := { h1 with Level := addInt 1 (divInt h1.Experience 100) }
  if h2.Level ≠ oldLevel then
    (true, CalculateStats fl h2)
  else
    (false, h2)

/-- The struct `HeroWithDetails`. -/
structure HeroWithDetails where
  ID : String
  HeroTypeID : String
  Name : String
  Level : Int
  Experience : Int
  HP : Int
  ATK : Int
  Skills : List Skill
deriving DecidableEq, Repr

/-- The method `Hero.ToHeroWithDetails`: the value returned, and the receiver
after the call (the call may store the recomputed stats on it). -/
def ToHeroWithDetails (fl : Float64Arith) (h : Hero) : HeroWithDetails × Hero :=
  match h.HeroType with
  | none =>
    ({ ID := h.ID, HeroTypeID := h.HeroTypeID, Name := "", Level := h.Level,
       Experience := h.Experience, HP := 0, ATK := 0, Skills := [] }, h)
  | some ht =>
    let h1 := if h.HP = 0 ∨ h.ATK = 0 then CalculateStats fl h else h
    ({ ID := h1.ID, HeroTypeID := h1.HeroTypeID, Name := ht.Name, Level := h1.Level,
       Experience := h1.Experience, HP := h1.HP, ATK := h1.ATK, Skills := h1.Skills }, h1)

/-- A hero type with base stats 100 and 20. -/
def sampleHeroType : HeroType :=
  { ID := "ht1", Name := "Knight", Rarity := "rare", BaseHP := 100, BaseATK := 20,
    Description := "", ImageURL := "", Skills := [] }

/-- A hero of `sampleHeroType` with the given level, experience and stored stats. -/
def sampleHero (level experience hp atk : Int) : Hero :=
  { ID := "h1", UserID := "u1", HeroTypeID := "ht1", Level := level,
    Experience := experience, CreatedAt := 1000, HeroType := some sampleHeroType,
    HP := hp, ATK := atk, Skills := [] }

/-! ## Teams (`model/team.go`)

A Go map is held as the list of its entries in the order a `range` loop
visits them; the keys of the list are distinct. A `nil` map is `none`. Every
reading of the clock during one call is the one instant `now`. -/

/-- The struct `Team`. -/
structure Team where
  ID : String
  UserID : String
  Position1 : String
  Position2 : String
  Position3 : String
  Position4 : String
  Position5 : String
  CreatedAt : Time
  UpdatedAt : Time
  Heroes : Option (List (Int × Option Hero))
deriving DecidableEq, Repr

/-- The method `Team.GetPositionHeroID`. -/
def GetPositionHeroID (position : Int) (t : Team) : String :=
  if position = 1 then t.Position1
  else if position = 2 then t.Position2
  else if position = 3 then t.Position3
  else if position = 4 then t.Position4
  else if position = 5 then t.Position5
  else ""

/-- The method `Team.SetPositionHeroID`, with the clock reading `now`. -/
def SetPositionHeroID (now : Time) (position : Int) (heroID : String) (t : Team) : Team :=
  let t1 :=
    if position = 1 then { t with Position1 := heroID }
    else if position = 2 then { t with Position2 := heroID }
    else if position = 3 then { t with Position3 := heroID }
    else if position = 4 then { t with Position4 := heroID }
    else if position = 5 then { t with Position5 := heroID }
    else t
  { t1 with UpdatedAt := now }

/-- The `switch posStr` of `Team.SetAllPositions`: the position a key of the
map names, `none` where the loop takes `continue`. -/
def positionOfKey (posStr : String) : Option Int :=
  if posStr = "1" then some 1
  else if posStr = "2" then some 2
  else if posStr = "3" then some 3
  else if posStr = "4" then some 4
  else if posStr = "5" then some 5
  else none

/-- The decimal digit that names a position, the key of the position in the
maps of `SetAllPositions` and of `TeamResponse`. -/
def digitKey (p : Int) : String := String.singleton (Nat.digitChar p.toNat)

/-- The body of the loop of `Team.SetAllPositions` for one entry of the map. -/
def setPositionFromEntry (now : Time) (t : Team) (entry : String × String) : Team :=
  match positionOfKey entry.1 with
  | none => t
  | some pos =>
    if entry.2 ≠ "" ∧ entry.2 ≠ "null" then SetPositionHeroID now pos entry.2 t else t

/-- The method `Team.SetAllPositions`, with the clock reading `now`. -/
def SetAllPositions (now : Time) (positions : List (String × String)) (t : Team) : Team :=
  let t0 := { t with Position1 := "", Position2 := "", Position3 := "",
                     Position4 := "", Position5 := "" }
  positions.foldl (setPositionFromEntry now) t0

/-- No hero id that is not empty stands at two of the positions 1..5. -/
def DistinctHeroes (t : Team) : Prop :=
  ∀ p ∈ [1, 2, 3, 4, 5], ∀ q ∈ [1, 2, 3, 4, 5], p ≠ q →
    GetPositionHeroID p t ≠ "" → GetPositionHeroID p t ≠ GetPositionHeroID q t

instance (t : Team) : Decidable (DistinctHeroes t) := by
  unfold DistinctHeroes; infer_instance

/-- A team with the given hero ids at its five positions. -/
def sampleTeam (p1 p2 p3 p4 p5 : String) : Team :=
  { ID := "team1", UserID := "u1", Position1 := p1, Position2 := p2, Position3 := p3,
    Position4 := p4, Position5 := p5, CreatedAt := 1000, UpdatedAt := 1000,
    Heroes := some [] }

/-- The function `NewTeam`, with the clock reading `now`: the positions are
empty and `Heroes` is an empty map, not `nil`. -/
def NewTeam (now : Time) (id userID : String) : Team :=
  { ID := id, UserID := userID, Position1 := "", Position2 := "", Position3 := "",
    Position4 := "", Position5 := "", CreatedAt := now, UpdatedAt := now,
    Heroes := some [] }

/-- The method `Team.GetAllPositions`: the map it builds, as the list of its
entries in the order the method stores them. -/
def GetAllPositions (t : Team) : List (Int × String) :=
  let positions : List (Int × String) := []
  let positions := if t.Position1 ≠ "" then positions ++ [(1, t.Position1)] else positions
  let positions := if t.Position2 ≠ "" then positions ++ [(2, t.Position2)] else positions
  let positions := if t.Position3 ≠ "" then positions ++ [(3, t.Position3)] else positions
  let positions := if t.Position4 ≠ "" then positions ++ [(4, t.Position4)] else positions
  let positions := if t.Position5 ≠ "" then positions ++ [(5, t.Position5)] else positions
  positions

/-- The method `Team.CountHeroes`; the counter stays within 0..5, where
`count++` is the mathematical successor. -/
def CountHeroes (t : Team) : Int :=
  let count : Int := 0
  let count := if t.Position1 ≠ "" then count + 1 else count
  let count := if t.Position2 ≠ "" then count + 1 else count
  let count := if t.Position3 ≠ "" then count + 1 else count
  let count := if t.Position4 ≠ "" then count + 1 else count
  let count := if t.Position5 ≠ "" then count + 1 else count
  count

/-- The method `Team.GetHeroIDs`; the `nil` slice it returns for a team with
no hero is the empty list. -/
def GetHeroIDs (t : Team) : List String :=
  let ids : List String := []
  let ids := if t.Position1 ≠ "" then ids ++ [t.Position1] else ids
  let ids := if t.Position2 ≠ "" then ids ++ [t.Position2] else ids
  let ids := if t.Position3 ≠ "" then ids ++ [t.Position3] else ids
  let ids := if t.Position4 ≠ "" then ids ++ [t.Position4] else ids
  let ids := if t.Position5 ≠ "" then ids ++ [t.Position5] else ids
  ids

/-- The struct `HeroPosition`. -/
structure HeroPosition where
  HeroID : String
  HeroTypeID : String
  Name : String
  Level : Int
deriving DecidableEq, Repr

/-- The struct `TeamResponse`; the map `Positions` is the list of its entries
in the order they were first stored. -/
structure TeamResponse where
  TeamID : String
  Positions : List (String × HeroPosition)
deriving DecidableEq, Repr

/-- The conversion `rune(x)` of an `int` to the 32-bit type `rune`. -/
def wrapRune (x : Int) : Int := (x + 2 ^ 31) % 2 ^ 32 - 2 ^ 31

/-- The conversion `string(r)` of a rune: the text of the one code point `r`,
and of the replacement character U+FFFD when `r` is no valid code point. -/
def runeString (r : Int) : String :=
  if (0 ≤ r ∧ r < 55296) ∨ (57344 ≤ r ∧ r ≤ 1114111) then
    String.singleton (Char.ofNat r.toNat)
  else String.singleton (Char.ofNat 65533)

/-- The key `string(rune('0'+pos))` under which `Team.ToTeamResponse` stores a
position. -/
def positionKey (pos : Int) : String := runeString (wrapRune (addInt 48 pos))

/-- The Go statement `m[k] = v` on the map `Positions`: over the entry of the
same key when there is one, as a new entry otherwise. -/
def storePosition (m : List (String × HeroPosition)) (k : String) (v : HeroPosition) :
    List (String × HeroPosition) :=
  if m.any (fun e => decide (e.1 = k)) = true then
    m.map (fun e => if e.1 = k then (k, v) else e)
  else m ++ [(k, v)]

/-- The body of the loop of `Team.ToTeamResponse` over `t.Heroes`, for one
entry of the map. -/
def storeLoadedHero (m : List (String × HeroPosition)) (entry : Int × Option Hero) :
    List (String × HeroPosition) :=
  match entry.2 with
  | none => m
  | some hero =>
    match hero.HeroType with
    | none => m
    | some heroType =>
      storePosition m (positionKey entry.1)
        { HeroID := hero.ID, HeroTypeID := hero.HeroTypeID, Name := heroType.Name,
          Level := hero.Level }

/-- The body of the loop of `Team.ToTeamResponse` over the map that
`GetAllPositions` returns, for one entry of the map. -/
def storeHeroID (m : List (String × HeroPosition)) (entry : Int × String) :
    List (String × HeroPosition) :=
  storePosition m (positionKey entry.1)
    { HeroID := entry.2, HeroTypeID := "", Name := "", Level := 0 }

/-- The method `Team.ToTeamResponse`. -/
def ToTeamResponse (t : Team) : TeamResponse :=
  let positions : List (String × HeroPosition) :=
    match t.Heroes with
    | some heroes => heroes.foldl storeLoadedHero []
    | none => (GetAllPositions t).foldl storeHeroID []
  { TeamID := t.ID, Positions := positions }

/-! ## Summon banners and sessions (`model/gacha.go`) -/

/-- A `time.Duration`, in nanoseconds. -/
abbrev Duration := Int

/-- The constant `time.Hour`. -/
def Hour : Duration := 3600000000000

/-- The method `Time.Truncate` of the standard library: the instant rounded
down to a multiple of `d` since the zero time; the instant itself when
`d <= 0`. -/
def Truncate (d : Duration) (t : Time) : Time :=
  if d ≤ 0 then t else t - t % d

abbrev BannerType := String

abbrev SummonCostType := String

/-- The struct `Banner`; its field `Type` is `Type_` here. -/
structure Banner where
  ID : String
  Name : String
  Description : String
  Type_ : BannerType
  ImageURL : String
  StartTime : Time
  EndTime : Option Time
  StandardHeroRate : F64
  FeaturedHeroRate : F64
  GuaranteeThreshold : Int
  SingleSummonCost : Int
  TenSummonCost : Int
  CostType : SummonCostType
  FeaturedHeroes : List String
  FeaturedItems : List String
  HeroPool : List String
  ItemPool : List String
  HasDailyFreeSummon : Bool
deriving DecidableEq, Repr

/-- The method `Banner.IsActive`, with the clock reading `now`. -/
def IsActive (now : Time) (b : Banner) : Bool :=
  if now < b.StartTime then false
  else
    match b.EndTime with
    | some endTime => if now > endTime then false else true
    | none => true

/-- The struct `SummonResult`. -/
structure SummonResult where
  ID : String
  UserID : String
  BannerID : String
  Timestamp : Time
  ResultType : String
  ResultID : String
  Rarity : String
  IsFeatured : Bool
  IsPityBreak : Bool
  PullNumber : Int
deriving DecidableEq, Repr

/-- The struct `SummonSession`. -/
structure SummonSession where
  ID : String
  UserID : String
  BannerID : String
  PullCount : Int
  CreatedAt : Time
  UpdatedAt : Time
  LastLegendaryAt : Int
  HasGuarantee : Bool
  LastFreeSummon : Option Time
deriving DecidableEq, Repr

/-- The function `NewSummonSession`, with the clock reading `now`. -/
def NewSummonSession (now : Time) (id userID bannerID : String) : SummonSession :=
  { ID := id, UserID := userID, BannerID := bannerID, PullCount := 0,
    CreatedAt := now, UpdatedAt := now, LastLegendaryAt := 0, HasGuarantee := false,
    LastFreeSummon := none }

/-- The method `SummonSession.CanClaimFreeSummon`, with the clock reading `now`. -/
def CanClaimFreeSummon (now : Time) (s : SummonSession) : Bool :=
  match s.LastFreeSummon with
  | none => true
  | some last =>
    let lastFreeDay := Truncate (24 * Hour) last
    let today := Truncate (24 * Hour) now
    decide (today > lastFreeDay)

/-- The method `SummonSession.UpdateFreeSummon`, with the clock reading `now`. -/
def UpdateFreeSummon (now : Time) (s : SummonSession) : SummonSession :=
  { s with LastFreeSummon := some now, UpdatedAt := now }

/-- The method `SummonSession.IncrementPullCount`, with the clock reading `now`. -/
def IncrementPullCount (now : Time) (s : SummonSession) : SummonSession :=
  { s with PullCount := addInt s.PullCount 1, UpdatedAt := now }

/-- A run of calls of `IncrementPullCount`, one at each instant of the list. -/
def runIncrements (calls : List Time) (s : SummonSession) : SummonSession :=
  calls.foldl (fun session now => IncrementPullCount now session) s

/-- The struct `HeroBasicInfo`. -/
structure HeroBasicInfo where
  ID : String
  Name : String
  Rarity : String
  ImageURL : String
deriving DecidableEq, Repr

/-- The struct `SummonRateInfo`. -/
structure SummonRateInfo where
  BannerID : String
  LegendaryRate : F64
  FeaturedHeroRate : F64
  GuaranteeThreshold : Int
  CurrentPity : Int
  HasGuaranteeActive : Bool
  FeaturedHeroes : List HeroBasicInfo
deriving DecidableEq, Repr

/-- The pity counter as `Banner.ToSummonRateInfo` computes it from a session. -/
def currentPity (session : SummonSession) : Int :=
  if session.LastLegendaryAt > 0 then subInt session.PullCount session.LastLegendaryAt
  else session.PullCount

/-- The method `Banner.ToSummonRateInfo`; `session` is `none` for a `nil`
session, and the hero types of `featuredHeroes` are the pointers' targets. -/
def ToSummonRateInfo (fl : Float64Arith) (b : Banner) (session : Option SummonSession)
    (featuredHeroes : List HeroType) : SummonRateInfo :=
  let heroInfos := featuredHeroes.map fun hero =>
    ({ ID := hero.ID, Name := hero.Name, Rarity := hero.Rarity,
       ImageURL := hero.ImageURL } : HeroBasicInfo)
  let pityAndGuarantee : Int × Bool :=
    match session with
    | some s => (currentPity s, s.HasGuarantee)
    | none => (0, false)
  { BannerID := b.ID
    LegendaryRate := fl.add b.StandardHeroRate b.FeaturedHeroRate
    FeaturedHeroRate := b.FeaturedHeroRate
    GuaranteeThreshold := b.GuaranteeThreshold
    CurrentPity := pityAndGuarantee.1
    HasGuaranteeActive := pityAndGuarantee.2
    FeaturedHeroes := heroInfos }

/-- A banner open from instant 1000, to `endTime` when there is one, with
rates 1/32 and 1/64 and a guarantee threshold of 10. -/
def sampleBanner (endTime : Option Time) : Banner :=
  { ID := "b1", Name := "Standard", Description := "", Type_ := "standard",
    ImageURL := "", StartTime := 1000, EndTime := endTime,
    StandardHeroRate := ⟨1, -5⟩, FeaturedHeroRate := ⟨1, -6⟩, GuaranteeThreshold := 10,
    SingleSummonCost := 100, TenSummonCost := 900, CostType := "gem",
    FeaturedHeroes := ["ht1"], FeaturedItems := [], HeroPool := [], ItemPool := [],
    HasDailyFreeSummon := true }

/-- A session with the given counters on `sampleBanner`. -/
def sampleSession (pullCount lastLegendaryAt : Int) (hasGuarantee : Bool)
    (lastFree : Option Time) : SummonSession :=
  { ID := "s1", UserID := "u1", BannerID := "b1", PullCount := pullCount,
    CreatedAt := 1000, UpdatedAt := 1000, LastLegendaryAt := lastLegendaryAt,
    HasGuarantee := hasGuarantee, LastFreeSummon := lastFree }

/-! ## JSON (`encoding/json`) for `Rewards`

`SetRewardsJSON` and `ParseRewardsJSON` hand the rewards to `json.Marshal`
and `json.Unmarshal` of the standard library. What those two do for the
type `Rewards` is written out here, on texts held as lists of characters. A
Go `string` is a Unicode text; one holding bytes that are no UTF-8 is not
modelled. The decoder accepts the documents a field-by-field decoder for
`Rewards` accepts, with these left out, on which it fails where
`json.Unmarshal` goes on: a key that names no field (skipped there), a key
that differs from the field's name by case (matched there), an escape
`\u` of a surrogate, and `null` for a number or for an element. -/

/-- The struct `Rewards`: `Experience` is a map and `Items` a slice, `none`
when `nil`. -/
structure Rewards where
  Gold : Int
  Experience : Option (List (String × Int))
  Items : Option (List String)
deriving DecidableEq, Repr

/-- The double quote. -/
def chQuote : Char := Char.ofNat 34

/-- The backslash. -/
def chBackslash : Char := Char.ofNat 92

/-- The opening brace. -/
def chLBrace : Char := Char.ofNat 123

/-- The closing brace. -/
def chRBrace : Char := Char.ofNat 125

/-- The opening bracket. -/
def chLBracket : Char := Char.ofNat 91

/-- The closing bracket. -/
def chRBracket : Char := Char.ofNat 93

/-- The comma. -/
def chComma : Char := Char.ofNat 44

/-- The colon. -/
def chColon : Char := Char.ofNat 58

/-- The minus sign. -/
def chMinus : Char := Char.ofNat 45

/-- The hexadecimal digit of a value below 16, in lower case. -/
def hexDigit (n : Nat) : Char :=
  if n < 10 then Char.ofNat (48 + n) else Char.ofNat (87 + n)

/-- The four hexadecimal digits of a value below 65536. -/
def hex4 (n : Nat) : List Char :=
  [hexDigit (n / 4096 % 16), hexDigit (n / 256 % 16), hexDigit (n / 16 % 16), hexDigit (n % 16)]

/-- What the encoder writes for one character of a string: the quote and the
backslash after a backslash; backspace, form feed, line feed, carriage return
and tab as `\b`, `\f`, `\n`, `\r`, `\t`; the other control characters, the
characters `<`, `>`, `&` and the separators U+2028 and U+2029 as `\u` and
four hexadecimal digits; every other character as it is. -/
def escapeChar (c : Char) : List Char :=
  if c = chQuote ∨ c = chBackslash then [chBackslash, c]
  else if c = Char.ofNat 8 then [chBackslash, 'b']
  else if c = Char.ofNat 12 then [chBackslash, 'f']
  else if c = Char.ofNat 10 then [chBackslash, 'n']
  else if c = Char.ofNat 13 then [chBackslash, 'r']
  else if c = Char.ofNat 9 then [chBackslash, 't']
  else if c.toNat < 32 ∨ c = Char.ofNat 60 ∨ c = Char.ofNat 62 ∨ c = Char.ofNat 38 ∨
      c = Char.ofNat 8232 ∨ c = Char.ofNat 8233 then
    chBackslash :: 'u' :: hex4 c.toNat
  else [c]

/-- The characters of a string between its quotes, as the encoder writes them. -/
def escapeChars : List Char → List Char
  | [] => []
  | c :: cs => escapeChar c ++ escapeChars cs

/-- A string as the encoder writes it. -/
def encodeString (s : String) : List Char :=
  chQuote :: (escapeChars s.data ++ [chQuote])

/-- The decimal digits of a number, with `fuel` at least the number of digits. -/
def natDigits : Nat → Nat → List Char
  | 0, _ => []
  | fuel + 1, n =>
    if n < 10 then [Char.ofNat (48 + n)]
    else natDigits fuel (n / 10) ++ [Char.ofNat (48 + n % 10)]

/-- An `int` as the encoder writes it: in decimal, after a minus sign when negative. -/
def encodeInt (i : Int) : List Char :=
  if i < 0 then chMinus :: natDigits (i.natAbs + 1) i.natAbs
  else natDigits (i.natAbs + 1) i.natAbs

/-- The order of two keys, character by character, a key coming before the
keys it starts. -/
def keyLe : List Char → List Char → Bool
  | [], _ => true
  | _ :: _, [] => false
  | a :: as, b :: bs => if a.toNat < b.toNat then true else if b.toNat < a.toNat then false
                        else keyLe as bs

/-- One entry of a map as the encoder writes it: the key, a colon, the value. -/
def encodeEntry (e : String × Int) : List Char :=
  encodeString e.1 ++ chColon :: encodeInt e.2

/-- The entries of a map as the encoder writes them, after the first. -/
def encodeEntriesTail : List (String × Int) → List Char
  | [] => []
  | e :: es => chComma :: encodeEntry e ++ encodeEntriesTail es

/-- The entries of a map in the order the encoder writes them. -/
def sortedEntries (m : List (String × Int)) : List (String × Int) :=
  List.insertionSort (fun a b : String × Int => keyLe a.1.data b.1.data = true) m

/-- A map as the encoder writes it: `null` when `nil`, else the entries in
the order of their keys, between braces. -/
def encodeMap : Option (List (String × Int)) → List Char
  | none => ['n', 'u', 'l', 'l']
  | some m =>
    match sortedEntries m with
    | [] => [chLBrace, chRBrace]
    | e :: es => chLBrace :: encodeEntry e ++ (encodeEntriesTail es ++ [chRBrace])

/-- The strings of a slice as the encoder writes them, after the first. -/
def encodeItemsTail : List String → List Char
  | [] => []
  | s :: ss => chComma :: encodeString s ++ encodeItemsTail ss

/-- A slice of strings as the encoder writes it: `null` when `nil`, else the
strings in order, between brackets. -/
def encodeItems : Option (List String) → List Char
  | none => ['n', 'u', 'l', 'l']
  | some [] => [chLBracket, chRBracket]
  | some (s :: ss) => chLBracket :: encodeString s ++ (encodeItemsTail ss ++ [chRBracket])

/-- What `json.Marshal` writes for a `Rewards`: the three fields under their
tags, in the order of the struct. -/
def jsonMarshalRewards (r : Rewards) : String :=
  String.mk (chLBrace :: (encodeString "gold" ++ chColon :: encodeInt r.Gold) ++
    (chComma :: (encodeString "experience" ++ chColon :: encodeMap r.Experience) ++
      (chComma :: (encodeString "items" ++ chColon :: encodeItems r.Items) ++ [chRBrace])))

/-- White space between the tokens of a document is skipped. -/
def skipWs : List Char → List Char
  | [] => []
  | c :: cs =>
    if c = ' ' ∨ c = Char.ofNat 9 ∨ c = Char.ofNat 10 ∨ c = Char.ofNat 13 then skipWs cs
    else c :: cs

/-- The value of a hexadecimal digit. -/
def hexValue (c : Char) : Option Nat :=
  if 48 ≤ c.toNat ∧ c.toNat ≤ 57 then some (c.toNat - 48)
  else if 97 ≤ c.toNat ∧ c.toNat ≤ 102 then some (c.toNat - 87)
  else if 65 ≤ c.toNat ∧ c.toNat ≤ 70 then some (c.toNat - 55)
  else none

/-- Where the decoder stands inside a string: between escapes, after a
backslash, or inside the hexadecimal digits of a `\u` escape, with the number
of digits still to come and the value of those read. -/
inductive UnquoteState where
  | plain
  | escaped
  | hex (left code : Nat)
deriving DecidableEq, Repr

/-- The decoder inside a string: the characters read up to the closing quote,
and the text after it. A control character, an unknown escape, a surrogate
and the end of the text before the closing quote are errors. -/
def unquoteFrom : UnquoteState → List Char → List Char → Option (List Char × List Char)
  | _, _, [] => none
  | UnquoteState.plain, acc, c :: cs =>
    if c = chQuote then some (acc, cs)
    else if c = chBackslash then unquoteFrom UnquoteState.escaped acc cs
    else if c.toNat < 32 then none
    else unquoteFrom UnquoteState.plain (acc ++ [c]) cs
  | UnquoteState.escaped, acc, c :: cs =>
    if c = chQuote ∨ c = chBackslash ∨ c = '/' then
      unquoteFrom UnquoteState.plain (acc ++ [c]) cs
    else if c = 'b' then unquoteFrom UnquoteState.plain (acc ++ [Char.ofNat 8]) cs
    else if c = 'f' then unquoteFrom UnquoteState.plain (acc ++ [Char.ofNat 12]) cs
    else if c = 'n' then unquoteFrom UnquoteState.plain (acc ++ [Char.ofNat 10]) cs
    else if c = 'r' then unquoteFrom UnquoteState.plain (acc ++ [Char.ofNat 13]) cs
    else if c = 't' then unquoteFrom UnquoteState.plain (acc ++ [Char.ofNat 9]) cs
    else if c = 'u' then unquoteFrom (UnquoteState.hex 4 0) acc cs
    else none
  | UnquoteState.hex left code, acc, c :: cs =>
    match hexValue c with
    | none => none
    | some v =>
      if left ≤ 1 then
        if 55296 ≤ code * 16 + v ∧ code * 16 + v ≤ 57343 then none
        else unquoteFrom UnquoteState.plain (acc ++ [Char.ofNat (code * 16 + v)]) cs
      else unquoteFrom (UnquoteState.hex (left - 1) (code * 16 + v)) acc cs

/-- The decoder on a string: the string and the text after it. -/
def parseString (text : List Char) : Option (String × List Char) :=
  match text with
  | [] => none
  | c :: cs =>
    if c = chQuote then
      match unquoteFrom UnquoteState.plain [] cs with
      | none => none
      | some (chars, rest) => some (String.mk chars, rest)
    else none

/-- A decimal digit. -/
def isDigit (c : Char) : Bool := decide (48 ≤ c.toNat ∧ c.toNat ≤ 57)

/-- The digits at the head of a text, read as a number after `acc`, and the
text after them. -/
def scanDigits : Nat → List Char → Nat × List Char
  | acc, [] => (acc, [])
  | acc, c :: cs =>
    if isDigit c = true then scanDigits (acc * 10 + (c.toNat - 48)) cs else (acc, c :: cs)

/-- A text that goes on as a number does after its integer part: with a
digit after a leading zero, a fraction or an exponent. -/
def numberGoesOn : List Char → Bool
  | [] => false
  | c :: _ => decide (c = '.' ∨ c = 'e' ∨ c = 'E')

/-- A text that starts with a digit. -/
def startsWithDigit : List Char → Bool
  | [] => false
  | c :: _ => isDigit c

/-- The decoder on a number for an `int` field: an optional minus sign and
the digits; a leading zero before a digit, a fraction, an exponent and a
value out of the range of `int` are errors. -/
def parseInt (text : List Char) : Option (Int × List Char) :=
  match text with
  | [] => none
  | c :: cs =>
    let body := if c = chMinus then cs else c :: cs
    match body with
    | [] => none
    | d :: ds =>
      if isDigit d = false then none
      else if d = '0' ∧ startsWithDigit ds = true then none
      else
        let scanned := scanDigits 0 (d :: ds)
        if numberGoesOn scanned.2 = true then none
        else
          let v : Int := if c = chMinus then -(scanned.1 : Int) else (scanned.1 : Int)
          if -2 ^ 63 ≤ v ∧ v < 2 ^ 63 then some (v, scanned.2) else none

/-- Storing an entry in a map: over the entry of the same key when there is
one, as a new entry otherwise. -/
def mapInsert (m : List (String × Int)) (k : String) (v : Int) : List (String × Int) :=
  if m.any (fun e => decide (e.1 = k)) = true then
    m.map (fun e => if e.1 = k then (k, v) else e)
  else m ++ [(k, v)]

/-- The decoder on the entries of a map, after the opening brace, when the
map is not empty: the map with the entries stored, and the text after the
closing brace. -/
def parseEntries : Nat → List (String × Int) → List Char →
    Option (List (String × Int) × List Char)
  | 0, _, _ => none
  | fuel + 1, acc, text =>
    match parseString (skipWs text) with
    | none => none
    | some (k, t1) =>
      match skipWs t1 with
      | [] => none
      | c :: t2 =>
        if c = chColon then
          match parseInt (skipWs t2) with
          | none => none
          | some (v, t3) =>
            match skipWs t3 with
            | [] => none
            | d :: t4 =>
              if d = chComma then parseEntries fuel (mapInsert acc k v) t4
              else if d = chRBrace then some (mapInsert acc k v, t4)
              else none
        else none

/-- The text after the literal `null`, when the text starts with it. -/
def afterNull (text : List Char) : Option (List Char) :=
  match text with
  | a :: b :: c :: d :: rest => if a = 'n' ∧ b = 'u' ∧ c = 'l' ∧ d = 'l' then some rest else none
  | _ => none

/-- The decoder on the value of a map field that holds `current`: `null`
makes the map `nil`; an object is stored entry by entry into the map, made
first when it is `nil`. -/
def parseMapValue (current : Option (List (String × Int))) (text : List Char) :
    Option (Option (List (String × Int)) × List Char) :=
  match text with
  | [] => none
  | c :: cs =>
    if c = chLBrace then
      match skipWs cs with
      | [] => none
      | d :: ds =>
        if d = chRBrace then some (some (current.getD []), ds)
        else
          match parseEntries (d :: ds).length (current.getD []) (d :: ds) with
          | none => none
          | some (m, rest) => some (some m, rest)
    else
      match afterNull (c :: cs) with
      | none => none
      | some rest => some (none, rest)

/-- The decoder on the elements of an array of strings, after the opening
bracket, when the array is not empty. -/
def parseElements : Nat → List String → List Char → Option (List String × List Char)
  | 0, _, _ => none
  | fuel + 1, acc, text =>
    match parseString (skipWs text) with
    | none => none
    | some (s, t1) =>
      match skipWs t1 with
      | [] => none
      | d :: t2 =>
        if d = chComma then parseElements fuel (acc ++ [s]) t2
        else if d = chRBracket then some (acc ++ [s], t2)
        else none

/-- The decoder on the value of a slice field: `null` makes the slice `nil`;
an array replaces it, an empty array by an empty slice that is not `nil`. -/
def parseItemsValue (text : List Char) : Option (Option (List String) × List Char) :=
  match text with
  | [] => none
  | c :: cs =>
    if c = chLBracket then
      match skipWs cs with
      | [] => none
      | d :: ds =>
        if d = chRBracket then some (some [], ds)
        else
          match parseElements (d :: ds).length [] (d :: ds) with
          | none => none
          | some (l, rest) => some (some l, rest)
    else
      match afterNull (c :: cs) with
      | none => none
      | some rest => some (none, rest)

/-- The decoder on the value of one field of `Rewards`, named by its key. -/
def parseField (r : Rewards) (key : String) (text : List Char) :
    Option (Rewards × List Char) :=
  if key = "gold" then
    match parseInt text with
    | none => none
    | some (v, rest) => some ({ r with Gold := v }, rest)
  else if key = "experience" then
    match parseMapValue r.Experience text with
    | none => none
    | some (m, rest) => some ({ r with Experience := m }, rest)
  else if key = "items" then
    match parseItemsValue text with
    | none => none
    | some (l, rest) => some ({ r with Items := l }, rest)
  else none

/-- The decoder on the members of the object, after the opening brace, when
the object is not empty. -/
def parseMembers : Nat → Rewards → List Char → Option (Rewards × List Char)
  | 0, _, _ => none
  | fuel + 1, r, text =>
    match parseString (skipWs text) with
    | none => none
    | some (k, t1) =>
      match skipWs t1 with
      | [] => none
      | c :: t2 =>
        if c = chColon then
          match parseField r k (skipWs t2) with
          | none => none
          | some (r1, t3) =>
            match skipWs t3 with
            | [] => none
            | d :: t4 =>
              if d = chComma then parseMembers fuel r1 t4
              else if d = chRBrace then some (r1, t4)
              else none
        else none

/-- What `json.Unmarshal` stores into a fresh `Rewards` from a document, `none`
when it returns an error: the document is one object, with nothing but white
space after it. -/
def jsonUnmarshalRewards (s : String) : Option Rewards :=
  match skipWs s.data with
  | [] => none
  | c :: cs =>
    if c = chLBrace then
      match skipWs cs with
      | [] => none
      | d :: ds =>
        if d = chRBrace then
          (if skipWs ds = [] then
            some { Gold := 0, Experience := none, Items := none } else none)
        else
          match parseMembers (d :: ds).length
              { Gold := 0, Experience := none, Items := none } (d :: ds) with
          | none => none
          | some (r, rest) => if skipWs rest = [] then some r else none
    else none

/-- A text on which a number ends: the end of the text, or a character that
is no digit and starts no fraction and no exponent. -/
def numberEnds (rest : List Char) : Prop :=
  match rest with
  | [] => True
  | c :: _ => isDigit c = false ∧ ¬ (c = '.' ∨ c = 'e' ∨ c = 'E')

/-! ## Battle results (`model/battle.go`) -/

/-- The struct `BattleAction`. -/
structure BattleAction where
  Actor : String
  Target : String
  SkillUsed : String
  DamageDealt : Int
  TargetHPRemaining : Int
deriving DecidableEq, Repr

/-- The struct `BattleTurn`. -/
structure BattleTurn where
  Turn : Int
  Actions : List BattleAction
deriving DecidableEq, Repr

/-- The struct `BattleResult`. -/
structure BattleResult where
  ID : String
  UserID : String
  TeamID : String
  StageID : String
  Result : String
  RewardsJSON : String
  Rewards : Option Rewards
  CreatedAt : Time
  BattleLog : List BattleTurn
deriving DecidableEq, Repr

/-- A Go `error` that is not `nil`, with its message. -/
abbrev GoError := String

/-- The method `BattleResult.SetRewardsJSON`: the error returned, `none` for
`nil`, and the receiver after the call. `json.Marshal` returns no error for
a `Rewards`. -/
def SetRewardsJSON (br : BattleResult) : Option GoError × BattleResult :=
  match br.Rewards with
  | none => (none, { br with RewardsJSON := "\x7b\x7d" })
  | some r => (none, { br with RewardsJSON := jsonMarshalRewards r })

/-- The method `BattleResult.ParseRewardsJSON`: the error returned, `none` for
`nil`, and the receiver after the call. -/
def ParseRewardsJSON (br : BattleResult) : Option GoError × BattleResult :=
  if br.RewardsJSON = "" then
    (none, { br with Rewards := some { Gold := 0, Experience := some [], Items := some [] } })
  else
    match jsonUnmarshalRewards br.RewardsJSON with
    | none => (some "json: cannot unmarshal", br)
    | some rewards => (none, { br with Rewards := some rewards })

/-- The experience a rewards map gives a hero, `none` when it has no entry
for the hero; a `nil` map has no entry. -/
def experienceOf (m : Option (List (String × Int))) (heroID : String) : Option Int :=
  (m.getD []).lookup heroID

/-- A battle result with the given rewards, not stored yet. -/
def sampleBattleResult (rewards : Option Rewards) : BattleResult :=
  { ID := "br1", UserID := "u1", TeamID := "team1", StageID := "st1", Result := "victory",
    RewardsJSON := "", Rewards := rewards, CreatedAt := 1000, BattleLog := [] }

/-- Rewards with 150 gold, experience for two heroes and two items, one with
characters the encoder escapes. -/
def sampleRewards : Rewards :=
  { Gold := 150, Experience := some [("h2", 30), ("h1", -5)],
    Items := some ["sword", "a<b"] }

/-! ## Items (`model/item.go`) -/

/-- The string type `ItemType`. -/
abbrev ItemType := String

/-- The constant `ItemTypeEquipment`. -/
def ItemTypeEquipment : ItemType := "equipment"

/-- The constant `ItemTypeConsumable`. -/
def ItemTypeConsumable : ItemType := "consumable"

/-- The constant `ItemTypeMaterial`. -/
def ItemTypeMaterial : ItemType := "material"

/-- The string type `ItemRarity`. -/
abbrev ItemRarity := String

/-- The string type `EquipmentSlot`. -/
abbrev EquipmentSlot := String

/-- The struct `ItemTemplate`; the field `Type` is `Type_` here. -/
structure ItemTemplate where
  ID : String
  Name : String
  Description : String
  Type_ : ItemType
  Rarity : ItemRarity
  ImageURL : String
  Slot : EquipmentSlot
  ATKBonus : Int
  HPBonus : Int
  Effect : String
  EffectValue : Int
  UsedForCrafting : Option (List String)
deriving DecidableEq, Repr

/-- The struct `Item`. -/
structure Item where
  ID : String
  UserID : String
  ItemTemplateID : String
  Quantity : Int
  AcquiredAt : Time
  EquippedToHeroID : String
  Template : Option ItemTemplate
deriving DecidableEq, Repr

/-- The struct `CustomError`. -/
structure CustomError where
  Message : String
  Code : String
deriving DecidableEq, Repr

/-- The variable `ErrNotEquipment`. -/
def ErrNotEquipment : CustomError :=
  { Message := "item is not equipment", Code := "invalid_item_type" }

/-- The method `Item.IsEquipment`. -/
def IsEquipment (i : Item) : Bool :=
  match i.Template with
  | some template => decide (template.Type_ = ItemTypeEquipment)
  | none => false

/-- The method `Item.EquipToHero`: the error returned, `none` for `nil`, and
the item after the call. -/
def EquipToHero (heroID : String) (i : Item) : Option CustomError × Item :=
  if !IsEquipment i then (some ErrNotEquipment, i)
  else (none, { i with EquippedToHeroID := heroID })

/-- A sword, an equipment template. -/
def sampleSwordTemplate : ItemTemplate :=
  { ID := "tpl1", Name := "Sword", Description := "", Type_ := ItemTypeEquipment,
    Rarity := "rare", ImageURL := "", Slot := "weapon", ATKBonus := 5, HPBonus := 0,
    Effect := "", EffectValue := 0, UsedForCrafting := none }

/-- An item of the given template, equipped to the given hero. -/
def sampleItem (template : Option ItemTemplate) (equippedTo : String) : Item :=
  { ID := "item1", UserID := "u1", ItemTemplateID := "tpl1", Quantity := 1,
    AcquiredAt := 1000, EquippedToHeroID := equippedTo, Template := template }

/-! ## Mission creation and expiry (`model/mission.go`)

`NewMission` reads the clock twice: once for `AssignedAt` and once more, in
the `switch`, for the expiry. The two readings are the arguments `now` and
`expiryNow`; the second is not earlier than the first. -/

/-- The constant `MissionTypeDaily`. -/
def MissionTypeDaily : MissionType := "daily"

/-- The constant `MissionTypeWeekly`. -/
def MissionTypeWeekly : MissionType := "weekly"

/-- The constant `MissionTypeStory`. -/
def MissionTypeStory : MissionType := "story"

/-- The constant `MissionTypeAchievement`. -/
def MissionTypeAchievement : MissionType := "achievement"

/-- The function `NewMission`, with the clock reading `now` for `AssignedAt`
and the clock reading `expiryNow` of the `switch`. -/
def NewMission (now expiryNow : Time) (id userID missionTemplateID : String)
    (template : Option MissionTemplate) : Mission :=
  let mission : Mission :=
    { ID := id, UserID := userID, MissionTemplateID := missionTemplateID,
      Status := MissionStatusInProgress, CurrentValue := 0, AssignedAt := now,
      CompletedAt := none, ClaimedAt := none, ExpiresAt := none, Template := template }
  match template with
  | some t =>
    if t.Type_ = MissionTypeDaily then
      { mission with ExpiresAt := some (Truncate (24 * Hour) (expiryNow + 24 * Hour)) }
    else if t.Type_ = MissionTypeWeekly then
      { mission with ExpiresAt := some (Truncate (24 * Hour) (expiryNow + 7 * 24 * Hour)) }
    else mission
  | none => mission

/-- The method `Mission.IsExpired`, with the clock reading `now`. -/
def IsExpired (now : Time) (m : Mission) : Bool :=
  match m.ExpiresAt with
  | none => false
  | some expiresAt => decide (now > expiresAt)

/-- An instant is a UTC midnight: a whole number of 24-hour days since the
zero time. -/
def IsMidnight (t : Time) : Prop := t % (24 * Hour) = 0

instance (t : Time) : Decidable (IsMidnight t) := by
  unfold IsMidnight; infer_instance

/-- The instant `e` is the first UTC midnight strictly after the instant `t`. -/
def IsFirstMidnightAfter (t e : Time) : Prop :=
  IsMidnight e ∧ t < e ∧ ∀ e2 : Time, IsMidnight e2 → t < e2 → e ≤ e2

/-- The invariant of a mission on the template `t`: in_progress with neither
`CompletedAt` nor `ClaimedAt` set; or completed, at the target value, with
`CompletedAt` set; or claimed, at the target value, with `CompletedAt` and
`ClaimedAt` set. -/
def MissionInvariant (t : MissionTemplate) (m : Mission) : Prop :=
  m.Template = some t ∧
  ((m.Status = MissionStatusInProgress ∧ m.CompletedAt = none ∧ m.ClaimedAt = none) ∨
   (m.Status = MissionStatusCompleted ∧ m.CurrentValue = t.TargetValue ∧
     m.CompletedAt ≠ none) ∨
   (m.Status = MissionStatusClaimed ∧ m.CurrentValue = t.TargetValue ∧
     m.CompletedAt ≠ none ∧ m.ClaimedAt ≠ none))

instance (t : MissionTemplate) (m : Mission) : Decidable (MissionInvariant t m) := by
  unfold MissionInvariant; infer_instance

/-- A template of the given mission type asking for 3 won battles. -/
def sampleTemplateOfType (missionType : MissionType) : MissionTemplate :=
  { sampleTemplate with Type_ := missionType }

/-! ## Stages (`model/battle.go`) -/

/-- The struct `Enemy`. -/
structure Enemy where
  ID : String
  TypeID : String
  Name : String
  HP : Int
  ATK : Int
  Description : String
  CurrentHP : Int
deriving DecidableEq, Repr

/-- The struct `Stage`; the slice `Enemies` of pointers is `none` when `nil`. -/
structure Stage where
  ID : String
  Name : String
  Description : String
  Enemy1 : String
  Enemy2 : String
  Enemy3 : String
  Enemy4 : String
  Enemy5 : String
  GoldReward : Int
  ExpReward : Int
  Enemies : Option (List (Option Enemy))
deriving DecidableEq, Repr

/-- The method `Stage.GetEnemyIDs`: the slice it returns (the `nil` slice
being the empty list) and the stage after the call, to which the method
assigns nothing. -/
def GetEnemyIDs (s : Stage) : List String × Stage :=
  let ids : List String := []
  let ids := if s.Enemy1 ≠ "" then ids ++ [s.Enemy1] else ids
  let ids := if s.Enemy2 ≠ "" then ids ++ [s.Enemy2] else ids
  let ids := if s.Enemy3 ≠ "" then ids ++ [s.Enemy3] else ids
  let ids := if s.Enemy4 ≠ "" then ids ++ [s.Enemy4] else ids
  let ids := if s.Enemy5 ≠ "" then ids ++ [s.Enemy5] else ids
  (ids, s)

/-- A stage with the given enemy ids in its five slots. -/
def sampleStage (e1 e2 e3 e4 e5 : String) : Stage :=
  { ID := "stage1", Name := "Forest", Description := "", Enemy1 := e1, Enemy2 := e2,
    Enemy3 := e3, Enemy4 := e4, Enemy5 := e5, GoldReward := 10, ExpReward := 20,
    Enemies := none }

/-! ## The rarity and pity resolver (spec, section 4.1)

The model package holds the records a pull reads and writes (`Banner`,
`SummonSession`, `SummonResult`) and no function that resolves a pull. The
resolver is therefore taken from the specification, over the records and the
methods of the source. Its randomness is an argument: what the two random
choices of one pull come out as. -/

/-- The top rarity, which `SummonResult.Rarity` writes "legendary". -/
def RarityLegendary : String := "legendary"

/-- Modelled from the spec: the randomness source of `resolvePull` (4.1), which
the server does not have, as the outcome of the two random choices of one
pull: `Rarity` is the tier the uniform sample falls in on the cumulative rate
table (step 2), `Featured` the outcome of the weighted choice between a
featured and a standard entity (step 3). -/
structure PullDraw where
  Rarity : String
  Featured : Bool
deriving DecidableEq, Repr

/-- Modelled from the spec: the `(rarity, isFeatured, isPityBreak)` part of what
the contract of `resolvePull` (4.1) returns; the server has no such record. -/
structure PullResolution where
  Rarity : String
  IsFeatured : Bool
  IsPityBreak : Bool
deriving DecidableEq, Repr

/-- Modelled from the spec: the error kind of `resolvePull` (4.1), which the
server does not have. -/
inductive ResolveError where
  | InvalidBanner
deriving DecidableEq, Repr

/-- Modelled from the spec: the check of 4.1 that the rate table sums to at
most 1, which the server does not have, on the two rates a `Banner` carries;
the sum is the exact one. -/
def ratesValid (b : Banner) : Bool :=
  let x := b.StandardHeroRate
  let y := b.FeaturedHeroRate
  let e := min (min x.e y.e) 0
  decide (x.m * 2 ^ (x.e - e).toNat + y.m * 2 ^ (y.e - e).toNat ≤ 2 ^ (0 - e).toNat)

/-- Modelled from the spec: steps 1 and 2 of `resolvePull` (4.1), which the
server does not have: with `p` the pity counter of the session, the pull is
forced to the top rarity when `p + 1 >= guaranteeThreshold`. The pity counter
is computed as `Banner.ToSummonRateInfo` computes it. -/
def pullForced (b : Banner) (s : SummonSession) : Bool :=
  decide (currentPity s + 1 ≥ b.GuaranteeThreshold)

/-- Modelled from the spec: the rarity of step 2 of `resolvePull` (4.1), which
the server does not have: the top rarity when the pull is forced, the sampled
rarity otherwise. -/
def pullRarity (b : Banner) (s : SummonSession) (d : PullDraw) : String :=
  if pullForced b s = true then RarityLegendary else d.Rarity

/-- Modelled from the spec: step 3 of `resolvePull` (4.1), which the server
does not have: a top-rarity result is featured when the session has the
guarantee; otherwise the weighted choice decides. -/
def pullFeatured (b : Banner) (s : SummonSession) (d : PullDraw) : Bool :=
  if pullRarity b s d = RarityLegendary ∧ s.HasGuarantee = true then true else d.Featured

/-- Modelled from the spec: the session `resolvePull` (4.1) leaves, which the
server does not have: the pull count is incremented (step 4, by
`SummonSession.IncrementPullCount`), a top-rarity hit is recorded at the new
pull count (step 4), and the guarantee is cleared when the top-rarity result
is featured and left as it is otherwise (step 3). -/
def pullSession (now : Time) (b : Banner) (s : SummonSession) (d : PullDraw) :
    SummonSession :=
  let s1 := IncrementPullCount now s
  let s2 :=
    if pullRarity b s d = RarityLegendary then { s1 with LastLegendaryAt := s1.PullCount }
    else s1
  { s2 with
    HasGuarantee :=
      if pullRarity b s d = RarityLegendary ∧ pullFeatured b s d = true then false
      else s.HasGuarantee }

/-- Modelled from the spec: `resolvePull(banner, session, rng)` of 4.1, which
the server does not have. It fails with `InvalidBanner` when the rates do not
sum to at most 1 or the banner is not active at the call, and returns
`(rarity, isFeatured, isPityBreak, newSessionState)` otherwise, `isPityBreak`
being true exactly when the pull was forced. The choice of the entity
(step 5) is no part of the result. -/
def resolvePull (now : Time) (b : Banner) (s : SummonSession) (d : PullDraw) :
    Except ResolveError (PullResolution × SummonSession) :=
  if ratesValid b = false ∨ IsActive now b = false then
    Except.error ResolveError.InvalidBanner
  else
    Except.ok
      ({ Rarity := pullRarity b s d, IsFeatured := pullFeatured b s d,
         IsPityBreak := pullForced b s },
       pullSession now b s d)

/-- Modelled from the spec: a sequence of pulls on one session (4.2: each pull
sees the session the pull before it left), each with its clock reading and
its draws. A pull that fails yields no result and leaves the session as it
was (section 7). The results come in the order of the pulls. -/
def resolvePulls (b : Banner) :
    List (Time × PullDraw) → SummonSession → List PullResolution × SummonSession
  | [], s => ([], s)
  | (now, d) :: rest, s =>
    match resolvePull now b s d with
    | Except.error _ => resolvePulls b rest s
    | Except.ok (r, s1) => ((r :: (resolvePulls b rest s1).1), (resolvePulls b rest s1).2)

/-- A sequence of `n` pulls at instant 2000 whose sampled rarity is "rare". -/
def rarePulls (n : Nat) : List (Time × PullDraw) :=
  List.replicate n (2000, { Rarity := "rare", Featured := false })

/-! ## Theorems: machine integers -/

/-- The reduction leaves a value of the range as it is. -/
theorem wrapInt_of_inRange (x : Int) (h : InIntRange x) : wrapInt x = x := by
  unfold InIntRange at h
  unfold wrapInt
  omega

/-- The reduction always lands in the range. -/
theorem wrapInt_inRange (x : Int) : InIntRange (wrapInt x) := by
  unfold InIntRange wrapInt
  omega

/-- Go's sum is the mathematical sum when that sum does not overflow. -/
theorem addInt_of_inRange (a b : Int) (h : InIntRange (a + b)) : addInt a b = a + b :=
  wrapInt_of_inRange _ h

/-- The truncated quotient by 100 of a value of the range is well inside the range. -/
theorem tdiv_hundred_bounds (e : Int) (h : InIntRange e) :
    -2 ^ 62 ≤ Int.tdiv e 100 ∧ Int.tdiv e 100 < 2 ^ 62 := by
  unfold InIntRange at h
  rcases le_or_lt 0 e with h0 | h0
  · rw [Int.tdiv_eq_ediv h0 (by decide)]; omega
  · have hq : Int.tdiv e 100 = -((-e) / 100) := by
      rw [← Int.tdiv_eq_ediv (by omega) (by decide), Int.neg_tdiv, neg_neg]
    rw [hq]; omega

/-- Go's `1 + e / 100` is one plus the truncated quotient: it cannot overflow. -/
theorem addInt_one_divInt (e : Int) (h : InIntRange e) :
    addInt 1 (divInt e 100) = 1 + Int.tdiv e 100 := by
  have hb := tdiv_hundred_bounds e h
  have h1 : divInt e 100 = Int.tdiv e 100 := by
    apply wrapInt_of_inRange
    unfold InIntRange; omega
  rw [h1]
  apply addInt_of_inRange
  unfold InIntRange; omega

/-! ## Theorems: missions -/

/-- C1: on a mission whose status is in_progress or claimed, ClaimRewards
returns false and the mission after the call is the mission before it, so
no field changes. -/
theorem claimRewards_noop (now : Time) (m : Mission)
    (h : m.Status = MissionStatusInProgress ∨ m.Status = MissionStatusClaimed) :
    ClaimRewards now m = (false, m) := by
  have hne : m.Status ≠ MissionStatusCompleted := by
    rcases h with h | h <;> rw [h] <;> decide
  simp [ClaimRewards, hne]

theorem claimRewards_noop_witness :
    ((sampleMission MissionStatusInProgress 1).Status = MissionStatusInProgress ∨
      (sampleMission MissionStatusInProgress 1).Status = MissionStatusClaimed) ∧
    ClaimRewards 2000 (sampleMission MissionStatusInProgress 1) =
      (false, sampleMission MissionStatusInProgress 1) :=
  ⟨Or.inl rfl, claimRewards_noop 2000 _ (Or.inl rfl)⟩

/-- C2: on a mission whose status is completed or claimed, UpdateProgress
returns false for every value and the mission after the call is the mission
before it; in particular CurrentValue is not incremented. -/
theorem updateProgress_noop (now : Time) (value : Int) (m : Mission)
    (h : m.Status = MissionStatusCompleted ∨ m.Status = MissionStatusClaimed) :
    UpdateProgress now value m = (false, m) := by
  have hne : m.Status ≠ MissionStatusInProgress := by
    rcases h with h | h <;> rw [h] <;> decide
  simp [UpdateProgress, hne]

theorem updateProgress_noop_witness :
    ((sampleMission MissionStatusCompleted 3).Status = MissionStatusCompleted ∨
      (sampleMission MissionStatusCompleted 3).Status = MissionStatusClaimed) ∧
    UpdateProgress 2000 7 (sampleMission MissionStatusCompleted 3) =
      (false, sampleMission MissionStatusCompleted 3) :=
  ⟨Or.inl rfl, updateProgress_noop 2000 7 _ (Or.inl rfl)⟩

/-- C3: on a completed mission ClaimRewards returns true, the status becomes
claimed, ClaimedAt is the clock reading of the call, and CurrentValue,
CompletedAt, ExpiresAt and Template (as every other field) keep their
values. -/
theorem claimRewards_completed (now : Time) (m : Mission)
    (h : m.Status = MissionStatusCompleted) :
    (ClaimRewards now m).1 = true ∧
    (ClaimRewards now m).2 =
      { m with Status := MissionStatusClaimed, ClaimedAt := some now } ∧
    (ClaimRewards now m).2.Status = MissionStatusClaimed ∧
    (ClaimRewards now m).2.ClaimedAt = some now ∧
    (ClaimRewards now m).2.CurrentValue = m.CurrentValue ∧
    (ClaimRewards now m).2.CompletedAt = m.CompletedAt ∧
    (ClaimRewards now m).2.ExpiresAt = m.ExpiresAt ∧
    (ClaimRewards now m).2.Template = m.Template := by
  simp [ClaimRewards, h]

theorem claimRewards_completed_witness :
    (sampleMission MissionStatusCompleted 3).Status = MissionStatusCompleted ∧
    (ClaimRewards 2000 (sampleMission MissionStatusCompleted 3)).1 = true ∧
    (ClaimRewards 2000 (sampleMission MissionStatusCompleted 3)).2.Status =
      MissionStatusClaimed ∧
    (ClaimRewards 2000 (sampleMission MissionStatusCompleted 3)).2.ClaimedAt =
      some 2000 :=
  ⟨rfl, (claimRewards_completed 2000 _ rfl).1, (claimRewards_completed 2000 _ rfl).2.2.1,
    (claimRewards_completed 2000 _ rfl).2.2.2.1⟩

/-- C4: on an in_progress mission with a template, when the sum
CurrentValue + value (Go's `int` addition) reaches the template's
TargetValue, UpdateProgress returns true, CurrentValue is exactly
TargetValue, the status is completed and CompletedAt is set to the clock
reading of the call; no other field changes. -/
theorem updateProgress_completes (now : Time) (value : Int) (m : Mission)
    (t : MissionTemplate)
    (hs : m.Status = MissionStatusInProgress) (ht : m.Template = some t)
    (hv : addInt m.CurrentValue value ≥ t.TargetValue) :
    (UpdateProgress now value m).1 = true ∧
    (UpdateProgress now value m).2.CurrentValue = t.TargetValue ∧
    (UpdateProgress now value m).2.Status = MissionStatusCompleted ∧
    (UpdateProgress now value m).2.CompletedAt = some now ∧
    (UpdateProgress now value m).2 =
      { m with CurrentValue := t.TargetValue, Status := MissionStatusCompleted,
               CompletedAt := some now } := by
  simp [UpdateProgress, hs, ht, hv]

theorem updateProgress_completes_witness :
    (sampleMission MissionStatusInProgress 2).Status = MissionStatusInProgress ∧
    (sampleMission MissionStatusInProgress 2).Template = some sampleTemplate ∧
    addInt (sampleMission MissionStatusInProgress 2).CurrentValue 5 ≥
      sampleTemplate.TargetValue ∧
    (UpdateProgress 2000 5 (sampleMission MissionStatusInProgress 2)).1 = true ∧
    (UpdateProgress 2000 5 (sampleMission MissionStatusInProgress 2)).2.CurrentValue = 3 ∧
    (UpdateProgress 2000 5 (sampleMission MissionStatusInProgress 2)).2.Status =
      MissionStatusCompleted ∧
    (UpdateProgress 2000 5 (sampleMission MissionStatusInProgress 2)).2.CompletedAt =
      some 2000 :=
  have h := updateProgress_completes 2000 5 (sampleMission MissionStatusInProgress 2)
    sampleTemplate rfl rfl (by decide)
  ⟨rfl, rfl, by decide, h.1, h.2.1, h.2.2.1, h.2.2.2.1⟩

/-- C5: on an in_progress mission with a template, when the sum
CurrentValue + value (Go's `int` addition) stays below the template's
TargetValue, UpdateProgress returns false, CurrentValue becomes that sum
(the mathematical sum when it does not overflow), and the status stays
in_progress with CompletedAt and ClaimedAt, as every other field,
unchanged. -/
theorem updateProgress_partial (now : Time) (value : Int) (m : Mission)
    (t : MissionTemplate)
    (hs : m.Status = MissionStatusInProgress) (ht : m.Template = some t)
    (hv : addInt m.CurrentValue value < t.TargetValue) :
    (UpdateProgress now value m).1 = false ∧
    (UpdateProgress now value m).2.CurrentValue = addInt m.CurrentValue value ∧
    (InIntRange (m.CurrentValue + value) →
      (UpdateProgress now value m).2.CurrentValue = m.CurrentValue + value) ∧
    (UpdateProgress now value m).2.Status = MissionStatusInProgress ∧
    (UpdateProgress now value m).2.CompletedAt = m.CompletedAt ∧
    (UpdateProgress now value m).2.ClaimedAt = m.ClaimedAt ∧
    (UpdateProgress now value m).2 =
      { m with CurrentValue := addInt m.CurrentValue value } := by
  have hv2 : ¬ t.TargetValue ≤ addInt m.CurrentValue value := not_le.mpr hv
  have hres : UpdateProgress now value m =
      (false, { m with CurrentValue := addInt m.CurrentValue value }) := by
    simp [UpdateProgress, hs, ht, hv2]
  rw [hres]
  refine ⟨rfl, rfl, ?_, hs, rfl, rfl, rfl⟩
  intro hr
  exact addInt_of_inRange _ _ hr

theorem updateProgress_partial_witness :
    (sampleMission MissionStatusInProgress 0).Status = MissionStatusInProgress ∧
    (sampleMission MissionStatusInProgress 0).Template = some sampleTemplate ∧
    addInt (sampleMission MissionStatusInProgress 0).CurrentValue 2 <
      sampleTemplate.TargetValue ∧
    (UpdateProgress 2000 2 (sampleMission MissionStatusInProgress 0)).1 = false ∧
    (UpdateProgress 2000 2 (sampleMission MissionStatusInProgress 0)).2.CurrentValue =
      addInt 0 2 ∧
    (UpdateProgress 2000 2 (sampleMission MissionStatusInProgress 0)).2.Status =
      MissionStatusInProgress :=
  have h := updateProgress_partial 2000 2 (sampleMission MissionStatusInProgress 0)
    sampleTemplate rfl rfl (by decide)
  ⟨rfl, rfl, by decide, h.1, h.2.1, h.2.2.2.1⟩

/-- UpdateProgress keeps the status or moves it from in_progress to completed. -/
theorem updateProgress_status (now : Time) (value : Int) (m : Mission) :
    (UpdateProgress now value m).2.Status = m.Status ∨
    (m.Status = MissionStatusInProgress ∧
      (UpdateProgress now value m).2.Status = MissionStatusCompleted) := by
  unfold UpdateProgress
  by_cases hs : m.Status = MissionStatusInProgress
  · cases ht : m.Template with
    | none => simp [hs, ht]
    | some t =>
      by_cases hv : t.TargetValue ≤ addInt m.CurrentValue value
      · right; simp [hs, ht, hv]
      · left; simp [hs, ht, hv]
  · left; simp [hs]

/-- ClaimRewards keeps the status or moves it from completed to claimed. -/
theorem claimRewards_status (now : Time) (m : Mission) :
    (ClaimRewards now m).2.Status = m.Status ∨
    (m.Status = MissionStatusCompleted ∧
      (ClaimRewards now m).2.Status = MissionStatusClaimed) := by
  unfold ClaimRewards
  by_cases hs : m.Status = MissionStatusCompleted
  · right; simp [hs]
  · left; simp [hs]

/-- One call never lowers the rank of the status. -/
theorem applyCall_rank_le (now : Time) (c : MissionCall) (m : Mission) :
    statusRank m.Status ≤ statusRank (applyCall now c m).Status := by
  cases c with
  | updateProgress value =>
    rcases updateProgress_status now value m with h | ⟨h1, h2⟩
    · simp [applyCall, h]
    · simp only [applyCall, h1, h2]; decide
  | claimRewards =>
    rcases claimRewards_status now m with h | ⟨h1, h2⟩
    · simp [applyCall, h]
    · simp only [applyCall, h1, h2]; decide

/-- A sequence of calls never lowers the rank of the status. -/
theorem runCalls_rank_le (cs : List (Time × MissionCall)) (m : Mission) :
    statusRank m.Status ≤ statusRank (runCalls cs m).Status := by
  induction cs generalizing m with
  | nil => exact Nat.le_refl _
  | cons head rest ih =>
    obtain ⟨now, c⟩ := head
    exact Nat.le_trans (applyCall_rank_le now c m) (ih (applyCall now c m))

/-- Running a concatenation is running the second part on the result of the first. -/
theorem runCalls_append (cs1 cs2 : List (Time × MissionCall)) (m : Mission) :
    runCalls (cs1 ++ cs2) m = runCalls cs2 (runCalls cs1 m) := by
  induction cs1 generalizing m with
  | nil => rfl
  | cons head rest ih =>
    obtain ⟨now, c⟩ := head
    simp [runCalls, ih]

/-- C6: mission status is one-directional. With the statuses ordered
in_progress < completed < claimed, every single call either keeps the
status, or is an UpdateProgress taking in_progress to completed, or is a
ClaimRewards taking completed to claimed; along every finite sequence of
calls the status after any prefix is at most the status after the whole
sequence; and no single call takes in_progress to claimed. -/
theorem mission_status_one_directional (m : Mission) :
    (∀ (now : Time) (c : MissionCall),
      (applyCall now c m).Status = m.Status ∨
      (m.Status = MissionStatusInProgress ∧
        (applyCall now c m).Status = MissionStatusCompleted ∧
        ∃ value, c = MissionCall.updateProgress value) ∨
      (m.Status = MissionStatusCompleted ∧
        (applyCall now c m).Status = MissionStatusClaimed ∧
        c = MissionCall.claimRewards)) ∧
    (∀ cs1 cs2 : List (Time × MissionCall),
      statusRank (runCalls cs1 m).Status ≤
        statusRank (runCalls (cs1 ++ cs2) m).Status) ∧
    (∀ (now : Time) (c : MissionCall),
      m.Status = MissionStatusInProgress →
        (applyCall now c m).Status ≠ MissionStatusClaimed) := by
  refine ⟨?_, ?_, ?_⟩
  · intro now c
    cases c with
    | updateProgress value =>
      rcases updateProgress_status now value m with h | ⟨h1, h2⟩
      · exact Or.inl h
      · exact Or.inr (Or.inl ⟨h1, h2, value, rfl⟩)
    | claimRewards =>
      rcases claimRewards_status now m with h | ⟨h1, h2⟩
      · exact Or.inl h
      · exact Or.inr (Or.inr ⟨h1, h2, rfl⟩)
  · intro cs1 cs2
    rw [runCalls_append]
    exact runCalls_rank_le cs2 (runCalls cs1 m)
  · intro now c hs
    cases c with
    | updateProgress value =>
      rcases updateProgress_status now value m with h | ⟨_, h2⟩
      · simp only [applyCall, h, hs]; decide
      · simp only [applyCall, h2]; decide
    | claimRewards =>
      rcases claimRewards_status now m with h | ⟨h1, _⟩
      · simp only [applyCall, h, hs]; decide
      · rw [hs] at h1; exact absurd h1 (by decide)

/-! ## Theorems: heroes -/

set_option maxRecDepth 4000

/-- CalculateStats touches neither Level nor Experience. -/
theorem calculateStats_level_experience (fl : Float64Arith) (h : Hero) :
    (CalculateStats fl h).Level = h.Level ∧
    (CalculateStats fl h).Experience = h.Experience := by
  unfold CalculateStats
  cases h.HeroType <;> simp

/-- With a hero type, CalculateStats stores the scaled base stats. -/
theorem calculateStats_stats (fl : Float64Arith) (h : Hero) (ht : HeroType)
    (hty : h.HeroType = some ht) :
    (CalculateStats fl h).HP = scaledStat fl ht.BaseHP h.Level ∧
    (CalculateStats fl h).ATK = scaledStat fl ht.BaseATK h.Level := by
  simp [CalculateStats, hty]

/-- The experience and the level AddExperience leaves on the hero. -/
theorem addExperience_fields (fl : Float64Arith) (amount : Int) (h : Hero) :
    (AddExperience fl amount h).2.Experience = addInt h.Experience amount ∧
    (AddExperience fl amount h).2.Level =
      addInt 1 (divInt (addInt h.Experience amount) 100) := by
  unfold AddExperience
  by_cases hl : addInt 1 (divInt (addInt h.Experience amount) 100) = h.Level
  · simp [hl]
  · simp [hl, calculateStats_level_experience]

/-- AddExperience returns true exactly when the level it leaves differs from
the level it found. -/
theorem addExperience_returns_iff_changed (fl : Float64Arith) (amount : Int) (h : Hero) :
    (AddExperience fl amount h).1 = true ↔ (AddExperience fl amount h).2.Level ≠ h.Level := by
  unfold AddExperience
  by_cases hl : addInt 1 (divInt (addInt h.Experience amount) 100) = h.Level
  · simp [hl]
  · simp [hl, calculateStats_level_experience]

/-- C7, as stated, fails: a level 1 hero with 0 experience given -50
experience has Experience -50 and Level 1, while 1 + floor(-50 / 100) is 0. -/
theorem addExperience_floor_counterexample :
    (AddExperience ieee754 (-50) (sampleHero 1 0 100 20)).2.Experience = 0 + (-50) ∧
    (AddExperience ieee754 (-50) (sampleHero 1 0 100 20)).2.Level = 1 ∧
    1 + Int.fdiv (AddExperience ieee754 (-50) (sampleHero 1 0 100 20)).2.Experience 100 = 0 ∧
    (AddExperience ieee754 (-50) (sampleHero 1 0 100 20)).2.Level ≠
      1 + Int.fdiv (AddExperience ieee754 (-50) (sampleHero 1 0 100 20)).2.Experience 100 := by
  decide

/-- C7, amended: after AddExperience(amount) the hero's Experience is the old
experience plus amount (Go's `int` addition) and its Level is 1 plus
Experience / 100 with the quotient truncated toward zero, as Go divides;
whenever that Experience is not negative this is 1 + floor(Experience / 100). -/
theorem addExperience_level (fl : Float64Arith) (amount : Int) (h : Hero) :
    (AddExperience fl amount h).2.Experience = addInt h.Experience amount ∧
    (AddExperience fl amount h).2.Level =
      1 + Int.tdiv (AddExperience fl amount h).2.Experience 100 ∧
    (0 ≤ (AddExperience fl amount h).2.Experience →
      (AddExperience fl amount h).2.Level =
        1 + Int.fdiv (AddExperience fl amount h).2.Experience 100) := by
  obtain ⟨he, hl⟩ := addExperience_fields fl amount h
  have hr : InIntRange (addInt h.Experience amount) := wrapInt_inRange _
  rw [he, hl, addInt_one_divInt _ hr]
  refine ⟨rfl, rfl, ?_⟩
  intro h0
  rw [Int.tdiv_eq_ediv h0 (by decide), Int.fdiv_eq_ediv _ (by decide)]

/-- C8: what the code does where the claim breaks. A level 3 hero with 200
experience given -150 experience is left with 50 experience at level 1, and
AddExperience returns true although the level went down, not up. -/
theorem addExperience_level_drop_returns_true :
    (AddExperience ieee754 (-150) (sampleHero 3 200 120 24)).1 = true ∧
    (AddExperience ieee754 (-150) (sampleHero 3 200 120 24)).2.Experience = 50 ∧
    (AddExperience ieee754 (-150) (sampleHero 3 200 120 24)).2.Level = 1 ∧
    ¬ ((AddExperience ieee754 (-150) (sampleHero 3 200 120 24)).2.Level >
        (sampleHero 3 200 120 24).Level) := by
  decide

/-- C9, as stated, fails: a level 1 hero whose stored HP and ATK are 0 (the
stats are not kept in the database) given 10 experience stays at level 1 and
keeps HP 0 and ATK 0, while CalculateStats derives 100 and 20 for it. -/
theorem addExperience_stale_counterexample :
    (AddExperience ieee754 10 (sampleHero 1 0 0 0)).2.Experience = 10 ∧
    (AddExperience ieee754 10 (sampleHero 1 0 0 0)).2.Level = 1 ∧
    (AddExperience ieee754 10 (sampleHero 1 0 0 0)).2.HP = 0 ∧
    (AddExperience ieee754 10 (sampleHero 1 0 0 0)).2.ATK = 0 ∧
    (CalculateStats ieee754 (AddExperience ieee754 10 (sampleHero 1 0 0 0)).2).HP = 100 ∧
    (CalculateStats ieee754 (AddExperience ieee754 10 (sampleHero 1 0 0 0)).2).ATK = 20 ∧
    (AddExperience ieee754 10 (sampleHero 1 0 0 0)).2.HP ≠
      (CalculateStats ieee754 (AddExperience ieee754 10 (sampleHero 1 0 0 0)).2).HP := by
  decide

/-- C9, amended: for a hero with a hero type, after AddExperience(amount) the
HP and ATK are the values CalculateStats derives from the base stats and the
new Level when the call changed the Level, and are the HP and ATK stored
before the call when it did not. -/
theorem addExperience_stats (fl : Float64Arith) (amount : Int) (h : Hero) (ht : HeroType)
    (hty : h.HeroType = some ht) :
    ((AddExperience fl amount h).2.Level ≠ h.Level →
      (AddExperience fl amount h).2.HP =
        scaledStat fl ht.BaseHP (AddExperience fl amount h).2.Level ∧
      (AddExperience fl amount h).2.ATK =
        scaledStat fl ht.BaseATK (AddExperience fl amount h).2.Level) ∧
    ((AddExperience fl amount h).2.Level = h.Level →
      (AddExperience fl amount h).2.HP = h.HP ∧
      (AddExperience fl amount h).2.ATK = h.ATK) := by
  unfold AddExperience
  by_cases hl : addInt 1 (divInt (addInt h.Experience amount) 100) = h.Level
  · simp [hl]
  · simp [hl, CalculateStats, hty]

theorem addExperience_stats_witness :
    (sampleHero 1 0 0 0).HeroType = some sampleHeroType ∧
    (AddExperience ieee754 100 (sampleHero 1 0 0 0)).2.Level = 2 ∧
    (AddExperience ieee754 100 (sampleHero 1 0 0 0)).2.HP =
      scaledStat ieee754 100 (AddExperience ieee754 100 (sampleHero 1 0 0 0)).2.Level ∧
    (AddExperience ieee754 100 (sampleHero 1 0 0 0)).2.HP = 110 ∧
    (AddExperience ieee754 100 (sampleHero 1 0 0 0)).2.ATK = 22 :=
  have h := (addExperience_stats ieee754 100 (sampleHero 1 0 0 0) sampleHeroType rfl).1
    (by decide)
  ⟨rfl, by decide, h.1, by decide, by decide⟩

/-- C10, as stated, fails: a level 3 hero that still carries the stats of
level 1 (HP 100, ATK 20) is reported with HP 100 and ATK 20, while the values
derived from its base stats and level are 120 and 24. -/
theorem toHeroWithDetails_stale_counterexample :
    (ToHeroWithDetails ieee754 (sampleHero 3 200 100 20)).1.HP = 100 ∧
    (ToHeroWithDetails ieee754 (sampleHero 3 200 100 20)).1.ATK = 20 ∧
    (ToHeroWithDetails ieee754 (sampleHero 3 200 100 20)).1.Level = 3 ∧
    scaledStat ieee754 sampleHeroType.BaseHP 3 = 120 ∧
    scaledStat ieee754 sampleHeroType.BaseATK 3 = 24 ∧
    (ToHeroWithDetails ieee754 (sampleHero 3 200 100 20)).1.HP ≠
      (CalculateStats ieee754 (sampleHero 3 200 100 20)).HP := by
  decide

/-- C10, amended: for a hero with a hero type, ToHeroWithDetails returns the
HP and ATK derived from the base stats and the current Level when the stored
HP or the stored ATK is 0, and returns the stored HP and ATK as they are when
both are non-zero. -/
theorem toHeroWithDetails_stats (fl : Float64Arith) (h : Hero) (ht : HeroType)
    (hty : h.HeroType = some ht) :
    (h.HP = 0 ∨ h.ATK = 0 →
      (ToHeroWithDetails fl h).1.HP = scaledStat fl ht.BaseHP h.Level ∧
      (ToHeroWithDetails fl h).1.ATK = scaledStat fl ht.BaseATK h.Level) ∧
    (h.HP ≠ 0 ∧ h.ATK ≠ 0 →
      (ToHeroWithDetails fl h).1.HP = h.HP ∧
      (ToHeroWithDetails fl h).1.ATK = h.ATK) := by
  constructor
  · intro hz
    simp [ToHeroWithDetails, hty, hz, CalculateStats]
  · rintro ⟨h1, h2⟩
    simp [ToHeroWithDetails, hty, h1, h2]

theorem toHeroWithDetails_stats_witness :
    (sampleHero 2 100 0 0).HeroType = some sampleHeroType ∧
    (ToHeroWithDetails ieee754 (sampleHero 2 100 0 0)).1.HP =
      scaledStat ieee754 100 2 ∧
    (ToHeroWithDetails ieee754 (sampleHero 2 100 0 0)).1.HP = 110 ∧
    (ToHeroWithDetails ieee754 (sampleHero 2 100 0 0)).1.ATK = 22 :=
  have h := (toHeroWithDetails_stats ieee754 (sampleHero 2 100 0 0) sampleHeroType rfl).1
    (Or.inl rfl)
  ⟨rfl, h.1, by decide, by decide⟩

/-- C11: CalculateStats is idempotent, a second call leaving the hero (so its
HP and ATK) as the first left it; the HP and ATK it stores are the same for
any two heroes whose hero types have the same BaseHP and BaseATK and whose
Level is the same, whatever HP, ATK and Experience they carried; and with a
nil HeroType the hero is unchanged. -/
theorem calculateStats_idempotent (fl : Float64Arith) (h : Hero) :
    CalculateStats fl (CalculateStats fl h) = CalculateStats fl h ∧
    (CalculateStats fl (CalculateStats fl h)).HP = (CalculateStats fl h).HP ∧
    (CalculateStats fl (CalculateStats fl h)).ATK = (CalculateStats fl h).ATK ∧
    (∀ (h2 : Hero) (ht ht2 : HeroType),
      h.HeroType = some ht → h2.HeroType = some ht2 →
      ht.BaseHP = ht2.BaseHP → ht.BaseATK = ht2.BaseATK → h.Level = h2.Level →
      (CalculateStats fl h).HP = (CalculateStats fl h2).HP ∧
      (CalculateStats fl h).ATK = (CalculateStats fl h2).ATK) ∧
    (h.HeroType = none → CalculateStats fl h = h) := by
  have hidem : CalculateStats fl (CalculateStats fl h) = CalculateStats fl h := by
    unfold CalculateStats
    cases hty : h.HeroType with
    | none => simp [hty]
    | some ht => simp
  refine ⟨hidem, by rw [hidem], by rw [hidem], ?_, ?_⟩
  · intro h2 ht ht2 hty hty2 hhp hatk hlvl
    simp [CalculateStats, hty, hty2, hhp, hatk, hlvl]
  · intro hty
    simp [CalculateStats, hty]

/-! ## Theorems: summon banners and sessions -/

/-- C14, as stated, fails: a banner open from instant 1000 to instant 5000 is
active at the instant 5000 itself, which the half-open window excludes. -/
theorem isActive_endTime_counterexample :
    IsActive 5000 (sampleBanner (some 5000)) = true ∧
    ¬ ((sampleBanner (some 5000)).StartTime ≤ 5000 ∧
        ((sampleBanner (some 5000)).EndTime = none ∨
          ∃ e, (sampleBanner (some 5000)).EndTime = some e ∧ 5000 < e)) := by
  refine ⟨by decide, ?_⟩
  rintro ⟨_, h | ⟨e, he, hlt⟩⟩
  · exact absurd h (by decide)
  · have h2 : (some (5000 : Int)) = some e := he
    have h3 : (5000 : Int) = e := Option.some.inj h2
    rw [← h3] at hlt
    exact absurd hlt (by decide)

/-- C14, amended: IsActive evaluated at now is true exactly when
StartTime <= now and EndTime is absent or now <= EndTime; the window is
closed, the banner being still active at the instant now == EndTime. -/
theorem isActive_iff (now : Time) (b : Banner) :
    IsActive now b = true ↔
      b.StartTime ≤ now ∧ (b.EndTime = none ∨ ∃ e, b.EndTime = some e ∧ now ≤ e) := by
  unfold IsActive
  by_cases hs : now < b.StartTime
  · have hs2 : ¬ b.StartTime ≤ now := not_le.mpr hs
    simp [hs, hs2]
  · cases he : b.EndTime with
    | none => simp [hs, not_lt.mp hs]
    | some e =>
      by_cases hgt : now > e
      · simp [hs, hgt, not_lt.mp hs]
      · simp [hs, hgt, not_lt.mp hs, not_lt.mp hgt]

/-- C15: for a banner with no EndTime, IsActive evaluated at now is true
exactly when now is not before StartTime; in particular it is true at the
instant now == StartTime. -/
theorem isActive_perpetual (now : Time) (b : Banner) (hend : b.EndTime = none) :
    (IsActive now b = true ↔ ¬ now < b.StartTime) ∧
    IsActive b.StartTime b = true := by
  simp [IsActive, hend]

theorem isActive_perpetual_witness :
    (sampleBanner none).EndTime = none ∧
    (IsActive 999 (sampleBanner none) = true ↔ ¬ (999 : Int) < (sampleBanner none).StartTime) ∧
    IsActive 999 (sampleBanner none) = false ∧
    IsActive 1000 (sampleBanner none) = true :=
  ⟨rfl, (isActive_perpetual 999 (sampleBanner none) rfl).1, by decide,
    (isActive_perpetual 1000 (sampleBanner none) rfl).2⟩

/-- Truncation to 24 hours gives the start of the day: 24 hours times the
number of whole days since the zero time. -/
theorem truncate_day (t : Time) : Truncate (24 * Hour) t = 24 * Hour * (t / (24 * Hour)) := by
  have hd : (24 : Int) * Hour = 86400000000000 := by decide
  rw [hd]
  unfold Truncate
  rw [if_neg (by decide)]
  have h : ∀ x : Int, x - x % 86400000000000 = 86400000000000 * (x / 86400000000000) := by
    intro x; omega
  exact h t

/-- The start of the day of `a` is earlier than the start of the day of `b`
exactly when the day number of `a` is smaller than the day number of `b`. -/
theorem truncate_day_lt_iff (a b : Time) :
    Truncate (24 * Hour) a < Truncate (24 * Hour) b ↔ a / (24 * Hour) < b / (24 * Hour) := by
  rw [truncate_day, truncate_day]
  have hd : (24 : Int) * Hour = 86400000000000 := by decide
  rw [hd]
  have h : ∀ x y : Int,
      86400000000000 * (x / 86400000000000) < 86400000000000 * (y / 86400000000000) ↔
        x / 86400000000000 < y / 86400000000000 := by
    intro x y; omega
  exact h a b

/-- C16: CanClaimFreeSummon evaluated at now is true exactly when
LastFreeSummon is nil or the day of LastFreeSummon, the instant truncated to
a multiple of 24 hours, is strictly earlier than the day of now; that is,
when the number of whole 24-hour days since the zero time is smaller for
LastFreeSummon than for now. -/
theorem canClaimFreeSummon_iff (now : Time) (s : SummonSession) :
    (CanClaimFreeSummon now s = true ↔
      s.LastFreeSummon = none ∨
      ∃ last, s.LastFreeSummon = some last ∧
        Truncate (24 * Hour) last < Truncate (24 * Hour) now) ∧
    (CanClaimFreeSummon now s = true ↔
      s.LastFreeSummon = none ∨
      ∃ last, s.LastFreeSummon = some last ∧ last / (24 * Hour) < now / (24 * Hour)) := by
  have h1 : CanClaimFreeSummon now s = true ↔
      s.LastFreeSummon = none ∨
      ∃ last, s.LastFreeSummon = some last ∧
        Truncate (24 * Hour) last < Truncate (24 * Hour) now := by
    unfold CanClaimFreeSummon
    cases hl : s.LastFreeSummon with
    | none => simp
    | some last => simp
  refine ⟨h1, ?_⟩
  rw [h1]
  constructor
  · rintro (h | ⟨last, hl, hlt⟩)
    · exact Or.inl h
    · exact Or.inr ⟨last, hl, (truncate_day_lt_iff last now).mp hlt⟩
  · rintro (h | ⟨last, hl, hlt⟩)
    · exact Or.inl h
    · exact Or.inr ⟨last, hl, (truncate_day_lt_iff last now).mpr hlt⟩

/-- C17: for a non-nil session ToSummonRateInfo reports CurrentPity =
PullCount - LastLegendaryAt (Go's `int` subtraction, the mathematical
difference when it does not overflow) when LastLegendaryAt > 0, CurrentPity =
PullCount when LastLegendaryAt == 0, and HasGuaranteeActive =
session.HasGuarantee; for a nil session it reports CurrentPity = 0 and
HasGuaranteeActive = false. -/
theorem toSummonRateInfo_pity (fl : Float64Arith) (b : Banner)
    (featuredHeroes : List HeroType) :
    (∀ s : SummonSession, s.LastLegendaryAt > 0 →
      (ToSummonRateInfo fl b (some s) featuredHeroes).CurrentPity =
        subInt s.PullCount s.LastLegendaryAt) ∧
    (∀ s : SummonSession, s.LastLegendaryAt > 0 →
      InIntRange (s.PullCount - s.LastLegendaryAt) →
      (ToSummonRateInfo fl b (some s) featuredHeroes).CurrentPity =
        s.PullCount - s.LastLegendaryAt) ∧
    (∀ s : SummonSession, s.LastLegendaryAt = 0 →
      (ToSummonRateInfo fl b (some s) featuredHeroes).CurrentPity = s.PullCount) ∧
    (∀ s : SummonSession,
      (ToSummonRateInfo fl b (some s) featuredHeroes).HasGuaranteeActive = s.HasGuarantee) ∧
    (ToSummonRateInfo fl b none featuredHeroes).CurrentPity = 0 ∧
    (ToSummonRateInfo fl b none featuredHeroes).HasGuaranteeActive = false := by
  refine ⟨?_, ?_, ?_, ?_, rfl, rfl⟩
  · intro s hs
    simp [ToSummonRateInfo, currentPity, hs]
  · intro s hs hr
    simp [ToSummonRateInfo, currentPity, hs, subInt, wrapInt_of_inRange _ hr]
  · intro s hs
    simp [ToSummonRateInfo, currentPity, hs]
  · intro s
    simp [ToSummonRateInfo]

/-! ## Theorems: teams -/

/-- What GetPositionHeroID reads after SetPositionHeroID: the hero id just
set at the position set, when that is one of 1..5, and the earlier value
anywhere else. -/
theorem getPosition_setPosition (now : Time) (p q : Int) (heroID : String) (t : Team) :
    GetPositionHeroID q (SetPositionHeroID now p heroID t) =
      if q = p ∧ q ∈ [1, 2, 3, 4, 5] then heroID else GetPositionHeroID q t := by
  unfold GetPositionHeroID SetPositionHeroID
  by_cases h1 : p = 1
  · subst h1; by_cases hq : q = 1 <;> simp [hq]
  by_cases h2 : p = 2
  · subst h2; by_cases hq : q = 2 <;> simp [hq]
  by_cases h3 : p = 3
  · subst h3; by_cases hq : q = 3 <;> simp [hq]
  by_cases h4 : p = 4
  · subst h4; by_cases hq : q = 4 <;> simp [hq]
  by_cases h5 : p = 5
  · subst h5; by_cases hq : q = 5 <;> simp [hq]
  have hne : ¬ (q = p ∧ q ∈ [1, 2, 3, 4, 5]) := by
    rintro ⟨hqp, hmem⟩
    subst hqp
    simp at hmem
    rcases hmem with h | h | h | h | h <;> contradiction
  simp only [h1, h2, h3, h4, h5, if_false]
  rw [if_neg hne]

/-- One round of the loop of SetAllPositions leaves a position as it was, or
stores there the hero id of an entry whose key names the position and whose
hero id is neither empty nor "null". -/
theorem getPosition_setPositionFromEntry (now : Time) (i : Int) (t : Team)
    (entry : String × String) :
    GetPositionHeroID i (setPositionFromEntry now t entry) = GetPositionHeroID i t ∨
    (positionOfKey entry.1 = some i ∧ entry.2 ≠ "" ∧ entry.2 ≠ "null" ∧
      GetPositionHeroID i (setPositionFromEntry now t entry) = entry.2) := by
  unfold setPositionFromEntry
  cases hk : positionOfKey entry.1 with
  | none => left; rfl
  | some pos =>
    by_cases hv : entry.2 ≠ "" ∧ entry.2 ≠ "null"
    · dsimp only
      rw [if_pos hv, getPosition_setPosition]
      by_cases hi : i = pos ∧ i ∈ [1, 2, 3, 4, 5]
      · right
        rw [if_pos hi]
        exact ⟨by rw [hi.1], hv.1, hv.2, rfl⟩
      · left
        rw [if_neg hi]
    · left
      dsimp only
      rw [if_neg hv]

/-- After the loop of SetAllPositions a position holds what it held before
the loop, or the hero id of an entry of the map whose key names the position
and whose hero id is neither empty nor "null". -/
theorem getPosition_foldl (now : Time) (i : Int) (positions : List (String × String))
    (t : Team) :
    GetPositionHeroID i (positions.foldl (setPositionFromEntry now) t) =
      GetPositionHeroID i t ∨
    ∃ entry ∈ positions, positionOfKey entry.1 = some i ∧ entry.2 ≠ "" ∧
      entry.2 ≠ "null" ∧
      GetPositionHeroID i (positions.foldl (setPositionFromEntry now) t) = entry.2 := by
  induction positions generalizing t with
  | nil => left; rfl
  | cons head rest ih =>
    simp only [List.foldl_cons]
    rcases ih (setPositionFromEntry now t head) with h | ⟨entry, hmem, hk, h1, h2, hval⟩
    · rcases getPosition_setPositionFromEntry now i t head with h0 | ⟨hk, h1, h2, hval⟩
      · left; rw [h, h0]
      · right
        exact ⟨head, List.mem_cons_self _ _, hk, h1, h2, by rw [h, hval]⟩
    · right
      exact ⟨entry, List.mem_cons_of_mem _ hmem, hk, h1, h2, hval⟩

/-- SetAllPositions starts from five empty positions. -/
theorem getPosition_cleared (i : Int) (t : Team) :
    GetPositionHeroID i { t with Position1 := "", Position2 := "", Position3 := "",
                                 Position4 := "", Position5 := "" } = "" := by
  unfold GetPositionHeroID
  split_ifs <;> rfl

/-- C13, as stated, fails: on a team holding hero "h1" at position 1 only,
SetPositionHeroID(2, "h1") leaves "h1" at positions 1 and 2, and so does
SetAllPositions on the map {"1": "h1", "2": "h1"}. -/
theorem team_duplicate_counterexample :
    DistinctHeroes (sampleTeam "h1" "" "" "" "") ∧
    (SetPositionHeroID 2000 2 "h1" (sampleTeam "h1" "" "" "" "")).Position1 = "h1" ∧
    (SetPositionHeroID 2000 2 "h1" (sampleTeam "h1" "" "" "" "")).Position2 = "h1" ∧
    ¬ DistinctHeroes (SetPositionHeroID 2000 2 "h1" (sampleTeam "h1" "" "" "" "")) ∧
    (SetAllPositions 2000 [("1", "h1"), ("2", "h1")]
      (sampleTeam "h1" "" "" "" "")).Position1 = "h1" ∧
    (SetAllPositions 2000 [("1", "h1"), ("2", "h1")]
      (sampleTeam "h1" "" "" "" "")).Position2 = "h1" ∧
    ¬ DistinctHeroes (SetAllPositions 2000 [("1", "h1"), ("2", "h1")]
      (sampleTeam "h1" "" "" "" "")) := by
  decide

/-- C13, amended: on a team where no hero stands at two positions,
SetPositionHeroID(p, h) keeps it so whenever h is empty or stands at no
position other than p; and SetAllPositions(m) leaves no hero at two
positions whenever m gives no hero id, other than the empty string and
"null", under two different keys among "1".."5". -/
theorem team_distinct_heroes (now : Time) (t : Team) (hd : DistinctHeroes t) :
    (∀ (p : Int) (heroID : String),
      (heroID = "" ∨ ∀ q ∈ [1, 2, 3, 4, 5], q ≠ p → GetPositionHeroID q t ≠ heroID) →
      DistinctHeroes (SetPositionHeroID now p heroID t)) ∧
    (∀ positions : List (String × String),
      (∀ e1 ∈ positions, ∀ e2 ∈ positions, e1.1 ≠ e2.1 →
        positionOfKey e1.1 ≠ none → positionOfKey e2.1 ≠ none →
        e1.2 ≠ "" → e1.2 ≠ "null" → e1.2 ≠ e2.2) →
      DistinctHeroes (SetAllPositions now positions t)) := by
  constructor
  · intro p heroID hfree a ha b hb hab hne
    rw [getPosition_setPosition] at hne ⊢
    rw [getPosition_setPosition]
    by_cases hap : a = p ∧ a ∈ [1, 2, 3, 4, 5]
    · rw [if_pos hap] at hne ⊢
      have hbp : ¬ (b = p ∧ b ∈ [1, 2, 3, 4, 5]) := by
        rintro ⟨hbp, _⟩
        exact hab (by rw [hap.1, hbp])
      rw [if_neg hbp]
      rcases hfree with h0 | hq
      · exact absurd h0 hne
      · have hbne : b ≠ p := fun hbe => hab (by rw [hap.1, hbe])
        exact fun heq => hq b hb hbne heq.symm
    · rw [if_neg hap] at hne ⊢
      by_cases hbp : b = p ∧ b ∈ [1, 2, 3, 4, 5]
      · rw [if_pos hbp]
        rcases hfree with h0 | hq
        · rw [h0]; exact hne
        · have hane : a ≠ p := fun hae => hab (by rw [hae, hbp.1])
          exact hq a ha hane
      · rw [if_neg hbp]
        exact hd a ha b hb hab hne
  · intro positions hdist a _ b _ hab hne
    unfold SetAllPositions at hne ⊢
    intro heq
    rcases getPosition_foldl now a positions _ with h | ⟨ea, hma, hka, ha1, ha2, hva⟩
    · rw [h, getPosition_cleared] at hne
      exact hne rfl
    · rcases getPosition_foldl now b positions
        { t with Position1 := "", Position2 := "", Position3 := "",
                 Position4 := "", Position5 := "" } with h | ⟨eb, hmb, hkb, _, _, hvb⟩
      · rw [heq, h, getPosition_cleared] at hne
        exact hne rfl
      · have hkeys : ea.1 ≠ eb.1 := by
          intro hk
          rw [hk, hkb] at hka
          exact hab (Option.some.inj hka).symm
        have hvals : ea.2 = eb.2 := by rw [← hva, ← hvb, heq]
        exact hdist ea hma eb hmb hkeys (by rw [hka]; simp) (by rw [hkb]; simp)
          ha1 ha2 hvals

theorem team_distinct_heroes_witness :
    DistinctHeroes (sampleTeam "h1" "h2" "" "" "") ∧
    DistinctHeroes (SetPositionHeroID 2000 3 "h3" (sampleTeam "h1" "h2" "" "" "")) ∧
    DistinctHeroes (SetAllPositions 2000 [("2", "h1"), ("1", "h2"), ("9", "h1"), ("3", "null")]
      (sampleTeam "h1" "h2" "" "" "")) :=
  ⟨by decide,
    (team_distinct_heroes 2000 (sampleTeam "h1" "h2" "" "" "") (by decide)).1 3 "h3"
      (Or.inr (by decide)),
    (team_distinct_heroes 2000 (sampleTeam "h1" "h2" "" "" "") (by decide)).2
      [("2", "h1"), ("1", "h2"), ("9", "h1"), ("3", "null")] (by decide)⟩

/-! ## Theorems: the rarity and pity resolver -/

/-- On a banner with valid rates that is active at the call, resolvePull
succeeds, with the result and the session its steps build. -/
theorem resolvePull_of_valid (now : Time) (b : Banner) (s : SummonSession) (d : PullDraw)
    (hvalid : ratesValid b = true) (hactive : IsActive now b = true) :
    resolvePull now b s d =
      Except.ok
        ({ Rarity := pullRarity b s d, IsFeatured := pullFeatured b s d,
           IsPityBreak := pullForced b s },
         pullSession now b s d) := by
  unfold resolvePull
  rw [if_neg (by simp [hvalid, hactive])]

/-- A pull that succeeds was made on a banner with valid rates, active at the
call, and returns what the steps build. -/
theorem resolvePull_ok (now : Time) (b : Banner) (s s1 : SummonSession) (d : PullDraw)
    (r : PullResolution) (h : resolvePull now b s d = Except.ok (r, s1)) :
    ratesValid b = true ∧ IsActive now b = true ∧
    r = { Rarity := pullRarity b s d, IsFeatured := pullFeatured b s d,
          IsPityBreak := pullForced b s } ∧
    s1 = pullSession now b s d := by
  by_cases hv : ratesValid b = false ∨ IsActive now b = false
  · unfold resolvePull at h
    rw [if_pos hv] at h
    exact absurd h (by simp)
  · have hv2 : ratesValid b = true ∧ IsActive now b = true := by
      simp at hv; exact hv
    rw [resolvePull_of_valid now b s d hv2.1 hv2.2] at h
    have h1 := (Prod.mk.inj (Except.ok.inj h)).1
    have h2 := (Prod.mk.inj (Except.ok.inj h)).2
    exact ⟨hv2.1, hv2.2, h1.symm, h2.symm⟩

/-- The session a pull leaves has one pull more, as Go adds. -/
theorem pullSession_pullCount (now : Time) (b : Banner) (s : SummonSession) (d : PullDraw) :
    (pullSession now b s d).PullCount = addInt s.PullCount 1 := by
  unfold pullSession IncrementPullCount
  split_ifs <;> rfl

/-- A pull without a top-rarity result leaves HasGuarantee as it was. -/
theorem pullSession_guarantee_kept (now : Time) (b : Banner) (s : SummonSession)
    (d : PullDraw) (hr : pullRarity b s d ≠ RarityLegendary) :
    (pullSession now b s d).HasGuarantee = s.HasGuarantee := by
  simp [pullSession, hr]

/-- A top-rarity result on a session that has the guarantee is featured, and
the guarantee is cleared. -/
theorem pull_guarantee_used (now : Time) (b : Banner) (s : SummonSession) (d : PullDraw)
    (hr : pullRarity b s d = RarityLegendary) (hg : s.HasGuarantee = true) :
    pullFeatured b s d = true ∧ (pullSession now b s d).HasGuarantee = false := by
  have hf : pullFeatured b s d = true := by simp [pullFeatured, hr, hg]
  exact ⟨hf, by simp [pullSession, hr, hf]⟩

/-- One step of a sequence of pulls: either the pull fails and the sequence
goes on from the same session, or it succeeds and the sequence goes on from
the session it left, its result coming first. -/
theorem resolvePulls_cons (b : Banner) (now : Time) (d : PullDraw)
    (rest : List (Time × PullDraw)) (s : SummonSession) :
    ((ratesValid b = false ∨ IsActive now b = false) ∧
      resolvePulls b ((now, d) :: rest) s = resolvePulls b rest s) ∨
    ((ratesValid b = true ∧ IsActive now b = true) ∧
      resolvePulls b ((now, d) :: rest) s =
        (({ Rarity := pullRarity b s d, IsFeatured := pullFeatured b s d,
            IsPityBreak := pullForced b s } : PullResolution) ::
            (resolvePulls b rest (pullSession now b s d)).1,
          (resolvePulls b rest (pullSession now b s d)).2)) := by
  by_cases hv : ratesValid b = false ∨ IsActive now b = false
  · left
    refine ⟨hv, ?_⟩
    simp only [resolvePulls, resolvePull, if_pos hv]
  · right
    have hv2 : ratesValid b = true ∧ IsActive now b = true := by
      simp at hv; exact hv
    refine ⟨hv2, ?_⟩
    simp only [resolvePulls, resolvePull_of_valid now b s d hv2.1 hv2.2]

/-- Over a sequence of pulls the pull count stays non-negative and grows by
at most the number of pulls, as long as it cannot overflow. -/
theorem resolvePulls_pullCount (b : Banner) (pulls : List (Time × PullDraw))
    (s : SummonSession) (h0 : 0 ≤ s.PullCount)
    (hroom : s.PullCount + pulls.length < 2 ^ 63) :
    0 ≤ (resolvePulls b pulls s).2.PullCount ∧
    (resolvePulls b pulls s).2.PullCount ≤ s.PullCount + pulls.length := by
  induction pulls generalizing s with
  | nil => simp [resolvePulls, h0]
  | cons head rest ih =>
    obtain ⟨now, d⟩ := head
    simp only [List.length_cons, Nat.cast_add, Nat.cast_one] at hroom ⊢
    rcases resolvePulls_cons b now d rest s with ⟨_, h⟩ | ⟨_, h⟩
    · rw [h]
      have := ih s h0 (by omega)
      omega
    · rw [h]
      have hpc : (pullSession now b s d).PullCount = s.PullCount + 1 := by
        rw [pullSession_pullCount]
        apply addInt_of_inRange
        unfold InIntRange; omega
      have := ih (pullSession now b s d) (by omega) (by omega)
      simp only at this ⊢
      omega

/-- Over a sequence of pulls none of which gives a top-rarity result, a
session that has the guarantee keeps it. -/
theorem resolvePulls_guarantee_kept (b : Banner) (pulls : List (Time × PullDraw))
    (s : SummonSession) (hg : s.HasGuarantee = true)
    (hnone : ∀ r ∈ (resolvePulls b pulls s).1, r.Rarity ≠ RarityLegendary) :
    (resolvePulls b pulls s).2.HasGuarantee = true := by
  induction pulls generalizing s with
  | nil => simpa [resolvePulls] using hg
  | cons head rest ih =>
    obtain ⟨now, d⟩ := head
    rcases resolvePulls_cons b now d rest s with ⟨_, h⟩ | ⟨_, h⟩
    · rw [h] at hnone ⊢
      exact ih s hg hnone
    · rw [h] at hnone ⊢
      have hr : pullRarity b s d ≠ RarityLegendary :=
        hnone _ (List.mem_cons_self _ _)
      have hg1 : (pullSession now b s d).HasGuarantee = true := by
        rw [pullSession_guarantee_kept now b s d hr]; exact hg
      exact ih (pullSession now b s d) hg1
        (fun r hr => hnone r (List.mem_cons_of_mem _ hr))

/-- C19: pity forcing. On one session, after any sequence of pulls, when the
pity counter has come to within one pull of the banner's GuaranteeThreshold,
and so whenever it has reached it, the next pull on a valid, active banner
succeeds, yields the top (legendary) rarity with IsPityBreak = true, and the
pity counter is 0 right after it. The session starts with a non-negative
pull count that the pulls cannot overflow. -/
theorem pity_forces_top_rarity (b : Banner) (s0 : SummonSession)
    (pulls : List (Time × PullDraw)) (now : Time) (d : PullDraw)
    (hcount : 0 ≤ s0.PullCount) (hroom : s0.PullCount + pulls.length + 1 < 2 ^ 63)
    (hvalid : ratesValid b = true) (hactive : IsActive now b = true)
    (hpity : b.GuaranteeThreshold ≤ currentPity (resolvePulls b pulls s0).2 + 1) :
    ∃ r s1, resolvePull now b (resolvePulls b pulls s0).2 d = Except.ok (r, s1) ∧
      r.Rarity = RarityLegendary ∧ r.IsPityBreak = true ∧ currentPity s1 = 0 := by
  obtain ⟨h0, hle⟩ := resolvePulls_pullCount b pulls s0 hcount (by omega)
  have hforced : pullForced b (resolvePulls b pulls s0).2 = true := by
    simp [pullForced, hpity]
  have hrar : pullRarity b (resolvePulls b pulls s0).2 d = RarityLegendary := by
    simp [pullRarity, hforced]
  refine ⟨_, _, resolvePull_of_valid now b _ d hvalid hactive, hrar, hforced, ?_⟩
  have hpc : addInt (resolvePulls b pulls s0).2.PullCount 1 =
      (resolvePulls b pulls s0).2.PullCount + 1 := by
    apply addInt_of_inRange
    unfold InIntRange; omega
  have hpos : (0 : Int) < (resolvePulls b pulls s0).2.PullCount + 1 := by omega
  simp [currentPity, pullSession, hrar, IncrementPullCount, hpc, hpos, subInt, wrapInt]

theorem pity_forces_top_rarity_witness :
    (sampleBanner none).GuaranteeThreshold = 10 ∧
    currentPity (resolvePulls (sampleBanner none) (rarePulls 9)
      (NewSummonSession 1000 "s1" "u1" "b1")).2 = 9 ∧
    ∃ r s1, resolvePull 3000 (sampleBanner none)
        (resolvePulls (sampleBanner none) (rarePulls 9)
          (NewSummonSession 1000 "s1" "u1" "b1")).2
        { Rarity := "rare", Featured := false } = Except.ok (r, s1) ∧
      r.Rarity = RarityLegendary ∧ r.IsPityBreak = true ∧ currentPity s1 = 0 :=
  ⟨rfl, by decide,
    pity_forces_top_rarity (sampleBanner none) (NewSummonSession 1000 "s1" "u1" "b1")
      (rarePulls 9) 3000 { Rarity := "rare", Featured := false }
      (by decide) (by decide) (by decide) (by decide) (by decide)⟩

/-- C20: guarantee consumption. On a session with HasGuarantee = true, after
any sequence of pulls none of which gave the top rarity, a pull that yields
the top rarity has IsFeatured = true and leaves HasGuarantee = false; and on
a valid, active banner the pull does yield a result. -/
theorem guarantee_consumed (b : Banner) (s0 : SummonSession)
    (pulls : List (Time × PullDraw)) (now : Time) (d : PullDraw)
    (hg : s0.HasGuarantee = true)
    (hnone : ∀ r ∈ (resolvePulls b pulls s0).1, r.Rarity ≠ RarityLegendary) :
    (∀ r s1, resolvePull now b (resolvePulls b pulls s0).2 d = Except.ok (r, s1) →
      r.Rarity = RarityLegendary → r.IsFeatured = true ∧ s1.HasGuarantee = false) ∧
    (ratesValid b = true → IsActive now b = true →
      ∃ r s1, resolvePull now b (resolvePulls b pulls s0).2 d = Except.ok (r, s1)) := by
  have hkept := resolvePulls_guarantee_kept b pulls s0 hg hnone
  constructor
  · intro r s1 hok hr
    obtain ⟨_, _, hreq, hseq⟩ := resolvePull_ok now b _ s1 d r hok
    rw [hreq] at hr ⊢
    rw [hseq]
    exact pull_guarantee_used now b _ d hr hkept
  · intro hvalid hactive
    exact ⟨_, _, resolvePull_of_valid now b _ d hvalid hactive⟩

theorem guarantee_consumed_witness :
    (sampleSession 0 0 true none).HasGuarantee = true ∧
    (resolvePulls (sampleBanner none) (rarePulls 1) (sampleSession 0 0 true none)).1 =
      [{ Rarity := "rare", IsFeatured := false, IsPityBreak := false }] ∧
    resolvePull 2001 (sampleBanner none)
        (resolvePulls (sampleBanner none) (rarePulls 1) (sampleSession 0 0 true none)).2
        { Rarity := "legendary", Featured := false } =
      Except.ok
        ({ Rarity := "legendary", IsFeatured := true, IsPityBreak := false },
         { sampleSession 2 2 false none with UpdatedAt := 2001 }) ∧
    ({ Rarity := "legendary", IsFeatured := true, IsPityBreak := false } :
        PullResolution).IsFeatured = true ∧
    ({ sampleSession 2 2 false none with UpdatedAt := 2001 } : SummonSession).HasGuarantee =
      false :=
  have h := (guarantee_consumed (sampleBanner none) (sampleSession 0 0 true none)
    (rarePulls 1) 2001 { Rarity := "legendary", Featured := false } rfl (by decide)).1
    { Rarity := "legendary", IsFeatured := true, IsPityBreak := false }
    { sampleSession 2 2 false none with UpdatedAt := 2001 } (by rfl) (by rfl)
  ⟨rfl, by decide, by rfl, h.1, h.2⟩

/-! ## Theorems: the float64 arithmetic of CalculateStats -/

/-- Zero has no binary digit. -/
theorem bitLength_zero (fuel : Nat) : bitLength fuel 0 = 0 := by
  cases fuel <;> simp [bitLength]

/-- With enough fuel, `bitLength` is the number of binary digits: a number that
is not zero lies between 2^(digits - 1) and 2^digits. -/
theorem bitLength_spec (fuel a : Nat) (hlt : a < 2 ^ fuel) (ha : a ≠ 0) :
    1 ≤ bitLength fuel a ∧ 2 ^ (bitLength fuel a - 1) ≤ a ∧ a < 2 ^ bitLength fuel a := by
  induction fuel generalizing a with
  | zero => simp at hlt; exact absurd hlt ha
  | succ n ih =>
    simp only [bitLength, ha, if_false]
    by_cases h2 : a / 2 = 0
    · have h1 : a = 1 := by omega
      subst h1
      simp [bitLength_zero]
    · have hlt2 : a / 2 < 2 ^ n := by
        rw [pow_succ] at hlt; omega
      obtain ⟨hpos, hlo, hhi⟩ := ih (a / 2) hlt2 h2
      refine ⟨by omega, ?_, ?_⟩
      · simp only [Nat.add_sub_cancel]
        have : 2 ^ (bitLength n (a / 2)) = 2 ^ (bitLength n (a / 2) - 1) * 2 := by
          rw [← pow_succ]; congr 1; omega
        omega
      · rw [pow_succ]; omega

/-- The rounding of a natural number of at least 54 bits to 53 bits: the
shift is at least one, and the rounded value is within half a unit of the
last kept place, which is at most 2^-53 of the number. -/
theorem round_nat (a : Nat) (ha : 2 ^ 53 ≤ a) :
    1 ≤ bitLength a a - 53 ∧
    2 ^ (bitLength a a - 53 - 1) * 2 ^ 53 ≤ a ∧
    (if a % 2 ^ (bitLength a a - 53) > 2 ^ (bitLength a a - 53 - 1) ∨
        (a % 2 ^ (bitLength a a - 53) = 2 ^ (bitLength a a - 53 - 1) ∧
          a / 2 ^ (bitLength a a - 53) % 2 = 1)
      then a / 2 ^ (bitLength a a - 53) + 1 else a / 2 ^ (bitLength a a - 53)) *
        2 ^ (bitLength a a - 53) ≤ a + 2 ^ (bitLength a a - 53 - 1) ∧
    a ≤ (if a % 2 ^ (bitLength a a - 53) > 2 ^ (bitLength a a - 53 - 1) ∨
        (a % 2 ^ (bitLength a a - 53) = 2 ^ (bitLength a a - 53 - 1) ∧
          a / 2 ^ (bitLength a a - 53) % 2 = 1)
      then a / 2 ^ (bitLength a a - 53) + 1 else a / 2 ^ (bitLength a a - 53)) *
        2 ^ (bitLength a a - 53) + 2 ^ (bitLength a a - 53 - 1) := by
  have hne : a ≠ 0 := by
    have : 0 < 2 ^ 53 := by positivity
    omega
  obtain ⟨_, hlo, hhi⟩ := bitLength_spec a a (Nat.lt_two_pow a) hne
  have hL : 53 < bitLength a a := by
    have h1 : 2 ^ 53 < 2 ^ bitLength a a := lt_of_le_of_lt ha hhi
    exact (Nat.pow_lt_pow_iff_right (by decide)).mp h1
  generalize bitLength a a = L at *
  obtain ⟨s, rfl⟩ : ∃ s, L = s + 54 := ⟨L - 54, by omega⟩
  have hs : s + 54 - 53 = s + 1 := by omega
  have hs1 : s + 1 - 1 = s := by omega
  have hs2 : s + 54 - 1 = s + 53 := by omega
  rw [hs, hs1]
  rw [hs2] at hlo
  have hpow : 2 ^ (s + 1) = 2 * 2 ^ s := by rw [pow_succ]; ring
  have hpow53 : 2 ^ (s + 53) = 2 ^ s * 2 ^ 53 := by rw [pow_add]
  have hdm := Nat.div_add_mod a (2 ^ (s + 1))
  have hmod : a % 2 ^ (s + 1) < 2 ^ (s + 1) := Nat.mod_lt _ (by positivity)
  refine ⟨by omega, by omega, ?_, ?_⟩
  · split_ifs with hc
    · rw [Nat.add_mul, Nat.mul_comm (a / 2 ^ (s + 1))]
      rcases hc with hc | ⟨hc, _⟩ <;> omega
    · rw [Nat.mul_comm (a / 2 ^ (s + 1))]
      omega
  · split_ifs with hc
    · rw [Nat.add_mul, Nat.mul_comm (a / 2 ^ (s + 1))]
      omega
    · rw [Nat.mul_comm (a / 2 ^ (s + 1))]
      have : a % 2 ^ (s + 1) ≤ 2 ^ s := by
        by_contra hgt
        exact hc (Or.inl (by omega))
      omega

/-- Rounding a non-negative value changes it by at most 2^-53 of itself, and
leaves it non-negative. -/
theorem roundF64_bounds (m e : Int) (hm : 0 ≤ m) :
    0 ≤ (roundF64 m e).m ∧
    ((2 : ℚ) ^ 53 - 1) * ((m : ℚ) * (2 : ℚ) ^ e) ≤ (2 : ℚ) ^ 53 * (roundF64 m e).toRat ∧
    (2 : ℚ) ^ 53 * (roundF64 m e).toRat ≤ ((2 : ℚ) ^ 53 + 1) * ((m : ℚ) * (2 : ℚ) ^ e) := by
  obtain ⟨a, rfl⟩ := Int.eq_ofNat_of_zero_le hm
  have hpe : (0 : ℚ) < (2 : ℚ) ^ e := by positivity
  by_cases h : a < 2 ^ 53
  · have hr : roundF64 (a : Int) e = ⟨(a : Int), e⟩ := by
      simp only [roundF64, Int.natAbs_ofNat, h, if_true]
    rw [hr]
    have hx : (0 : ℚ) ≤ ((a : Int) : ℚ) * (2 : ℚ) ^ e := by positivity
    refine ⟨hm, ?_, ?_⟩ <;> simp only [F64.toRat] <;> nlinarith
  · obtain ⟨hs, hH, hup, hlo⟩ := round_nat a (not_lt.mp h)
    have hneg : ¬ ((a : Int) < 0) := by omega
    have hr : roundF64 (a : Int) e =
        ⟨(((if a % 2 ^ (bitLength a a - 53) > 2 ^ (bitLength a a - 53 - 1) ∨
            (a % 2 ^ (bitLength a a - 53) = 2 ^ (bitLength a a - 53 - 1) ∧
              a / 2 ^ (bitLength a a - 53) % 2 = 1)
          then a / 2 ^ (bitLength a a - 53) + 1 else a / 2 ^ (bitLength a a - 53) : Nat)) : Int),
          e + ((bitLength a a - 53 : Nat) : Int)⟩ := by
      simp only [roundF64, Int.natAbs_ofNat, h, hneg, if_false]
    rw [hr]
    generalize (if a % 2 ^ (bitLength a a - 53) > 2 ^ (bitLength a a - 53 - 1) ∨
            (a % 2 ^ (bitLength a a - 53) = 2 ^ (bitLength a a - 53 - 1) ∧
              a / 2 ^ (bitLength a a - 53) % 2 = 1)
          then a / 2 ^ (bitLength a a - 53) + 1 else a / 2 ^ (bitLength a a - 53) : Nat) = q1 at *
    generalize bitLength a a - 53 = s at *
    have hval : (⟨(q1 : Int), e + (s : Int)⟩ : F64).toRat =
        ((q1 * 2 ^ s : Nat) : ℚ) * (2 : ℚ) ^ e := by
      simp only [F64.toRat]
      rw [zpow_add₀ (by norm_num : (2 : ℚ) ≠ 0), zpow_natCast]
      push_cast
      ring
    rw [hval]
    have hupQ : ((q1 * 2 ^ s : Nat) : ℚ) ≤ (a : ℚ) + ((2 ^ (s - 1) : Nat) : ℚ) := by
      exact_mod_cast hup
    have hloQ : (a : ℚ) ≤ ((q1 * 2 ^ s : Nat) : ℚ) + ((2 ^ (s - 1) : Nat) : ℚ) := by
      exact_mod_cast hlo
    have hHQ : ((2 ^ (s - 1) : Nat) : ℚ) * (2 : ℚ) ^ 53 ≤ (a : ℚ) := by
      exact_mod_cast hH
    generalize ((q1 * 2 ^ s : Nat) : ℚ) = P at *
    generalize ((2 ^ (s - 1) : Nat) : ℚ) = H at *
    have hcast : (((a : Int)) : ℚ) = (a : ℚ) := by norm_cast
    rw [hcast]
    refine ⟨by positivity, ?_, ?_⟩
    · have : ((2 : ℚ) ^ 53 - 1) * (a : ℚ) ≤ (2 : ℚ) ^ 53 * P := by nlinarith
      calc ((2 : ℚ) ^ 53 - 1) * ((a : ℚ) * (2 : ℚ) ^ e)
          = (((2 : ℚ) ^ 53 - 1) * (a : ℚ)) * (2 : ℚ) ^ e := by ring
        _ ≤ ((2 : ℚ) ^ 53 * P) * (2 : ℚ) ^ e := by
            exact mul_le_mul_of_nonneg_right this hpe.le
        _ = (2 : ℚ) ^ 53 * (P * (2 : ℚ) ^ e) := by ring
    · have : (2 : ℚ) ^ 53 * P ≤ ((2 : ℚ) ^ 53 + 1) * (a : ℚ) := by nlinarith
      calc (2 : ℚ) ^ 53 * (P * (2 : ℚ) ^ e)
          = ((2 : ℚ) ^ 53 * P) * (2 : ℚ) ^ e := by ring
        _ ≤ (((2 : ℚ) ^ 53 + 1) * (a : ℚ)) * (2 : ℚ) ^ e := by
            exact mul_le_mul_of_nonneg_right this hpe.le
        _ = ((2 : ℚ) ^ 53 + 1) * ((a : ℚ) * (2 : ℚ) ^ e) := by ring

/-- Rounding a non-negative value keeps it between `roundDown` and `roundUp`
times itself. -/
theorem roundF64_rel (m e : Int) (hm : 0 ≤ m) :
    0 ≤ (roundF64 m e).m ∧
    roundDown * ((m : ℚ) * (2 : ℚ) ^ e) ≤ (roundF64 m e).toRat ∧
    (roundF64 m e).toRat ≤ roundUp * ((m : ℚ) * (2 : ℚ) ^ e) := by
  obtain ⟨h0, h1, h2⟩ := roundF64_bounds m e hm
  refine ⟨h0, ?_, ?_⟩
  · unfold roundDown
    have h53 : (0 : ℚ) < 2 ^ 53 := by positivity
    rw [show (1 : ℚ) - 1 / 2 ^ 53 = (2 ^ 53 - 1) / 2 ^ 53 by field_simp]
    rw [div_mul_eq_mul_div, div_le_iff₀ h53]
    linarith
  · unfold roundUp
    have h53 : (0 : ℚ) < 2 ^ 53 := by positivity
    rw [show (1 : ℚ) + 1 / 2 ^ 53 = (2 ^ 53 + 1) / 2 ^ 53 by field_simp]
    rw [div_mul_eq_mul_div, le_div_iff₀ h53]
    linarith

/-- The value of a `float64` with a non-negative significand is non-negative. -/
theorem toRat_nonneg (x : F64) (hx : 0 ≤ x.m) : 0 ≤ x.toRat := by
  unfold F64.toRat
  have : (0 : ℚ) ≤ (x.m : ℚ) := by exact_mod_cast hx
  positivity

/-- The conversion of a non-negative `int`. -/
theorem ieeeOfInt_rel (i : Int) (hi : 0 ≤ i) :
    0 ≤ (ieee754.ofInt i).m ∧
    roundDown * (i : ℚ) ≤ (ieee754.ofInt i).toRat ∧
    (ieee754.ofInt i).toRat ≤ roundUp * (i : ℚ) := by
  have h := roundF64_rel i 0 hi
  simpa [ieee754] using h

/-- The product of two non-negative values. -/
theorem ieeeMul_rel (x y : F64) (hx : 0 ≤ x.m) (hy : 0 ≤ y.m) :
    0 ≤ (ieeeMul x y).m ∧
    roundDown * (x.toRat * y.toRat) ≤ (ieeeMul x y).toRat ∧
    (ieeeMul x y).toRat ≤ roundUp * (x.toRat * y.toRat) := by
  have h := roundF64_rel (x.m * y.m) (x.e + y.e) (mul_nonneg hx hy)
  have hv : (((x.m * y.m : Int)) : ℚ) * (2 : ℚ) ^ (x.e + y.e) = x.toRat * y.toRat := by
    unfold F64.toRat
    rw [zpow_add₀ (by norm_num : (2 : ℚ) ≠ 0)]
    push_cast
    ring
  rw [hv] at h
  exact h

/-- The sum of two non-negative values. -/
theorem ieeeAdd_rel (x y : F64) (hx : 0 ≤ x.m) (hy : 0 ≤ y.m) :
    0 ≤ (ieeeAdd x y).m ∧
    roundDown * (x.toRat + y.toRat) ≤ (ieeeAdd x y).toRat ∧
    (ieeeAdd x y).toRat ≤ roundUp * (x.toRat + y.toRat) := by
  have hxe : 0 ≤ x.e - min x.e y.e := by have := min_le_left x.e y.e; omega
  have hye : 0 ≤ y.e - min x.e y.e := by have := min_le_right x.e y.e; omega
  have hnum : 0 ≤ x.m * 2 ^ (x.e - min x.e y.e).toNat + y.m * 2 ^ (y.e - min x.e y.e).toNat := by
    positivity
  have h := roundF64_rel _ (min x.e y.e) hnum
  have hv : (((x.m * 2 ^ (x.e - min x.e y.e).toNat +
      y.m * 2 ^ (y.e - min x.e y.e).toNat : Int)) : ℚ) * (2 : ℚ) ^ (min x.e y.e) =
      x.toRat + y.toRat := by
    unfold F64.toRat
    have h2 : (2 : ℚ) ≠ 0 := by norm_num
    have hx2 : (2 : ℚ) ^ x.e = (2 : ℚ) ^ (x.e - min x.e y.e).toNat * (2 : ℚ) ^ (min x.e y.e) := by
      rw [← zpow_natCast, ← zpow_add₀ h2, Int.toNat_of_nonneg hxe]
      congr 1; ring
    have hy2 : (2 : ℚ) ^ y.e = (2 : ℚ) ^ (y.e - min x.e y.e).toNat * (2 : ℚ) ^ (min x.e y.e) := by
      rw [← zpow_natCast, ← zpow_add₀ h2, Int.toNat_of_nonneg hye]
      congr 1; ring
    rw [hx2, hy2]
    push_cast
    ring
  rw [hv] at h
  exact h

/-- Five roundings in a row: the computed product stays within `roundDown ^ 5`
and `roundUp ^ 6` of the exact one. -/
theorem scaled_chain (K B Fk X1 X2 Fb Y c : ℚ) (hK : 0 ≤ K) (hB : 0 ≤ B)
    (hc1 : 1 / 10 ≤ c) (hc2 : c ≤ roundUp / 10)
    (h1 : roundDown * K ≤ Fk ∧ Fk ≤ roundUp * K)
    (h2 : roundDown * (Fk * c) ≤ X1 ∧ X1 ≤ roundUp * (Fk * c))
    (h3 : roundDown * (1 + X1) ≤ X2 ∧ X2 ≤ roundUp * (1 + X1))
    (h4 : roundDown * B ≤ Fb ∧ Fb ≤ roundUp * B)
    (h5 : roundDown * (Fb * X2) ≤ Y ∧ Y ≤ roundUp * (Fb * X2)) :
    roundDown ^ 5 * (B * (1 + K / 10)) ≤ Y ∧ Y ≤ roundUp ^ 6 * (B * (1 + K / 10)) := by
  have ha1 : (1 : ℚ) ≤ roundUp := by unfold roundUp; norm_num
  have ha0 : (0 : ℚ) ≤ roundUp := by linarith
  have hb0 : (0 : ℚ) ≤ roundDown := by unfold roundDown; norm_num
  have hb1 : roundDown ≤ 1 := by unfold roundDown; norm_num
  have hc0 : (0 : ℚ) ≤ c := by linarith
  have hFk0 : 0 ≤ Fk := le_trans (mul_nonneg hb0 hK) h1.1
  have hX10 : 0 ≤ X1 := le_trans (mul_nonneg hb0 (mul_nonneg hFk0 hc0)) h2.1
  have hX20 : 0 ≤ X2 := le_trans (mul_nonneg hb0 (by linarith)) h3.1
  have hFb0 : 0 ≤ Fb := le_trans (mul_nonneg hb0 hB) h4.1
  constructor
  · -- lower bounds
    have l2 : roundDown ^ 2 * (K / 10) ≤ X1 := by
      have : roundDown * K * (1 / 10) ≤ Fk * c :=
        mul_le_mul h1.1 hc1 (by norm_num) hFk0
      calc roundDown ^ 2 * (K / 10) = roundDown * (roundDown * K * (1 / 10)) := by ring
        _ ≤ roundDown * (Fk * c) := mul_le_mul_of_nonneg_left this hb0
        _ ≤ X1 := h2.1
    have hsq : roundDown ^ 2 ≤ 1 := by
      calc roundDown ^ 2 = roundDown * roundDown := by ring
        _ ≤ 1 * 1 := mul_le_mul hb1 hb1 hb0 (by norm_num)
        _ = 1 := by ring
    have l3 : roundDown ^ 3 * (1 + K / 10) ≤ X2 := by
      have : roundDown ^ 2 * (1 + K / 10) ≤ 1 + X1 := by
        have : roundDown ^ 2 * (1 + K / 10) = roundDown ^ 2 + roundDown ^ 2 * (K / 10) := by ring
        linarith
      calc roundDown ^ 3 * (1 + K / 10) = roundDown * (roundDown ^ 2 * (1 + K / 10)) := by ring
        _ ≤ roundDown * (1 + X1) := mul_le_mul_of_nonneg_left this hb0
        _ ≤ X2 := h3.1
    have l5 : roundDown ^ 4 * (B * (1 + K / 10)) ≤ Fb * X2 := by
      have hA0 : 0 ≤ roundDown ^ 3 * (1 + K / 10) := by positivity
      have : roundDown * B * (roundDown ^ 3 * (1 + K / 10)) ≤ Fb * X2 :=
        mul_le_mul h4.1 l3 hA0 hFb0
      calc roundDown ^ 4 * (B * (1 + K / 10))
          = roundDown * B * (roundDown ^ 3 * (1 + K / 10)) := by ring
        _ ≤ Fb * X2 := this
    calc roundDown ^ 5 * (B * (1 + K / 10))
        = roundDown * (roundDown ^ 4 * (B * (1 + K / 10))) := by ring
      _ ≤ roundDown * (Fb * X2) := mul_le_mul_of_nonneg_left l5 hb0
      _ ≤ Y := h5.1
  · -- upper bounds
    have u2 : X1 ≤ roundUp ^ 3 * (K / 10) := by
      have : Fk * c ≤ roundUp * K * (roundUp / 10) :=
        mul_le_mul h1.2 hc2 hc0 (mul_nonneg ha0 hK)
      calc X1 ≤ roundUp * (Fk * c) := h2.2
        _ ≤ roundUp * (roundUp * K * (roundUp / 10)) := mul_le_mul_of_nonneg_left this ha0
        _ = roundUp ^ 3 * (K / 10) := by ring
    have hcube : 1 ≤ roundUp ^ 3 := one_le_pow₀ ha1
    have u3 : X2 ≤ roundUp ^ 4 * (1 + K / 10) := by
      have : 1 + X1 ≤ roundUp ^ 3 * (1 + K / 10) := by
        have : roundUp ^ 3 * (1 + K / 10) = roundUp ^ 3 + roundUp ^ 3 * (K / 10) := by ring
        linarith
      calc X2 ≤ roundUp * (1 + X1) := h3.2
        _ ≤ roundUp * (roundUp ^ 3 * (1 + K / 10)) := mul_le_mul_of_nonneg_left this ha0
        _ = roundUp ^ 4 * (1 + K / 10) := by ring
    have u5 : Fb * X2 ≤ roundUp ^ 5 * (B * (1 + K / 10)) := by
      have : Fb * X2 ≤ roundUp * B * (roundUp ^ 4 * (1 + K / 10)) :=
        mul_le_mul h4.2 u3 hX20 (mul_nonneg ha0 hB)
      calc Fb * X2 ≤ roundUp * B * (roundUp ^ 4 * (1 + K / 10)) := this
        _ = roundUp ^ 5 * (B * (1 + K / 10)) := by ring
    calc Y ≤ roundUp * (Fb * X2) := h5.2
      _ ≤ roundUp * (roundUp ^ 5 * (B * (1 + K / 10))) := mul_le_mul_of_nonneg_left u5 ha0
      _ = roundUp ^ 6 * (B * (1 + K / 10)) := by ring

/-- The conversion to `int` of a non-negative value below 2^63 is its floor. -/
theorem ieeeToInt_floor (x : F64) (hx : 0 ≤ x.m) (hlt : x.toRat < 2 ^ 63) :
    ((ieeeToInt x : Int) : ℚ) ≤ x.toRat ∧ x.toRat < ((ieeeToInt x : Int) : ℚ) + 1 := by
  have key : ∀ v : Int, 0 ≤ v → (v : ℚ) ≤ x.toRat → x.toRat < (v : ℚ) + 1 →
      (if -2 ^ 63 ≤ v ∧ v < 2 ^ 63 then v else -2 ^ 63) = v := by
    intro v hv0 hle _
    have hv : (v : ℚ) < 2 ^ 63 := lt_of_le_of_lt hle hlt
    have hv2 : v < 2 ^ 63 := by exact_mod_cast hv
    rw [if_pos ⟨by omega, hv2⟩]
  unfold ieeeToInt
  by_cases he : 0 ≤ x.e
  · simp only [he, if_true]
    have hval : ((x.m * 2 ^ x.e.toNat : Int) : ℚ) = x.toRat := by
      unfold F64.toRat
      push_cast
      rw [← zpow_natCast, Int.toNat_of_nonneg he]
    have h0 : 0 ≤ x.m * 2 ^ x.e.toNat := by positivity
    rw [key _ h0 (le_of_eq hval) (by rw [hval]; linarith)]
    rw [hval]
    exact ⟨le_refl _, by linarith⟩
  · simp only [he, if_false]
    have hn : ((-x.e).toNat : Int) = -x.e := Int.toNat_of_nonneg (by omega)
    have hpow0 : (0 : Int) < 2 ^ (-x.e).toNat := by positivity
    rw [Int.tdiv_eq_ediv hx (le_of_lt hpow0)]
    have hval : x.toRat = (x.m : ℚ) / ((2 ^ (-x.e).toNat : Int) : ℚ) := by
      unfold F64.toRat
      push_cast
      rw [← zpow_natCast, hn, zpow_neg, div_inv_eq_mul]
    have hpowQ : (0 : ℚ) < ((2 ^ (-x.e).toNat : Int) : ℚ) := by exact_mod_cast hpow0
    have hlo : ((x.m / 2 ^ (-x.e).toNat : Int) : ℚ) ≤ x.toRat := by
      rw [hval, le_div_iff₀ hpowQ]
      have := Int.ediv_mul_le x.m (ne_of_gt hpow0)
      exact_mod_cast this
    have hhi : x.toRat < ((x.m / 2 ^ (-x.e).toNat : Int) : ℚ) + 1 := by
      rw [hval, div_lt_iff₀ hpowQ]
      have := Int.lt_ediv_add_one_mul_self x.m hpow0
      exact_mod_cast this
    have h0 : 0 ≤ x.m / 2 ^ (-x.e).toNat := Int.ediv_nonneg hx (le_of_lt hpow0)
    rw [key _ h0 hlo hhi]
    exact ⟨hlo, hhi⟩

/-- The stat `CalculateStats` computes in IEEE 754 arithmetic, against the
exact one: for a level of at least 1 and a non-negative base stat with
base * (level + 9) at most 2^50, the computed stat is the floor of
base * (level + 9) / 10 or one less, and it is that floor whenever
base * (level + 9) is no multiple of 10. -/
theorem scaledStat_ieee_near (base level : Int) (hb : 0 ≤ base) (hl : 1 ≤ level)
    (hlr : level < 2 ^ 63) (hN : base * (level + 9) ≤ 2 ^ 50) :
    base * (level + 9) / 10 - 1 ≤ scaledStat ieee754 base level ∧
    scaledStat ieee754 base level ≤ base * (level + 9) / 10 ∧
    (base * (level + 9) % 10 ≠ 0 →
      scaledStat ieee754 base level = base * (level + 9) / 10) := by
  have hsub : subInt level 1 = level - 1 := by
    apply wrapInt_of_inRange
    unfold InIntRange; omega
  have hk0 : 0 ≤ level - 1 := by omega
  -- the five rounded operations
  obtain ⟨hfk0, hfk⟩ := ieeeOfInt_rel (level - 1) hk0
  obtain ⟨hx10, hx1⟩ := ieeeMul_rel (ieee754.ofInt (level - 1)) f64Tenth hfk0 (by decide)
  obtain ⟨hx20, hx2⟩ := ieeeAdd_rel f64One
    (ieeeMul (ieee754.ofInt (level - 1)) f64Tenth) (by decide) hx10
  obtain ⟨hfb0, hfb⟩ := ieeeOfInt_rel base hb
  obtain ⟨hy0, hy⟩ := ieeeMul_rel (ieee754.ofInt base)
    (ieeeAdd f64One (ieeeMul (ieee754.ofInt (level - 1)) f64Tenth)) hfb0 hx20
  have hone : f64One.toRat = 1 := by
    unfold F64.toRat f64One; norm_num
  have hc1 : (1 : ℚ) / 10 ≤ f64Tenth.toRat := by
    unfold F64.toRat f64Tenth; norm_num
  have hc2 : f64Tenth.toRat ≤ roundUp / 10 := by
    unfold F64.toRat f64Tenth roundUp; norm_num
  rw [hone] at hx2
  have hK : (0 : ℚ) ≤ ((level - 1 : Int) : ℚ) := by exact_mod_cast hk0
  have hB : (0 : ℚ) ≤ (base : ℚ) := by exact_mod_cast hb
  obtain ⟨hlow, hupp⟩ := scaled_chain _ _ _ _ _ _ _ _ hK hB hc1 hc2 hfk hx1 hx2 hfb hy
  have hstat : scaledStat ieee754 base level =
      ieeeToInt (ieeeMul (ieee754.ofInt base)
        (ieeeAdd f64One (ieeeMul (ieee754.ofInt (level - 1)) f64Tenth))) := by
    unfold scaledStat levelFactor
    rw [hsub]
    rfl
  rw [hstat]
  generalize (ieeeMul (ieee754.ofInt base)
    (ieeeAdd f64One (ieeeMul (ieee754.ofInt (level - 1)) f64Tenth))) = y at *
  -- the exact value
  have hE : (base : ℚ) * (1 + ((level - 1 : Int) : ℚ) / 10) =
      ((base * (level + 9) : Int) : ℚ) / 10 := by
    push_cast; ring
  rw [hE] at hlow hupp
  have hN0 : 0 ≤ base * (level + 9) := mul_nonneg hb (by omega)
  generalize base * (level + 9) = N at *
  have hNQ0 : (0 : ℚ) ≤ (N : ℚ) := by exact_mod_cast hN0
  have hNQ : (N : ℚ) ≤ 2 ^ 50 := by exact_mod_cast hN
  have hup6 : roundUp ^ 6 ≤ 1 + 7 / 2 ^ 53 := by unfold roundUp; norm_num
  have hdn5 : 1 - 5 / 2 ^ 53 ≤ roundDown ^ 5 := by unfold roundDown; norm_num
  have hY1 : 10 * y.toRat < (N : ℚ) + 1 := by
    have h1 : y.toRat ≤ (1 + 7 / 2 ^ 53) * ((N : ℚ) / 10) :=
      le_trans hupp (mul_le_mul_of_nonneg_right hup6 (by positivity))
    have h2 : (7 : ℚ) / 2 ^ 53 * (N : ℚ) ≤ 7 / 2 ^ 53 * 2 ^ 50 :=
      mul_le_mul_of_nonneg_left hNQ (by positivity)
    have h3 : (7 : ℚ) / 2 ^ 53 * 2 ^ 50 = 7 / 8 := by norm_num
    linarith
  have hY2 : (N : ℚ) - 1 < 10 * y.toRat := by
    have h1 : (1 - 5 / 2 ^ 53) * ((N : ℚ) / 10) ≤ y.toRat :=
      le_trans (mul_le_mul_of_nonneg_right hdn5 (by positivity)) hlow
    have h2 : (5 : ℚ) / 2 ^ 53 * (N : ℚ) ≤ 5 / 2 ^ 53 * 2 ^ 50 :=
      mul_le_mul_of_nonneg_left hNQ (by positivity)
    have h3 : (5 : ℚ) / 2 ^ 53 * 2 ^ 50 = 5 / 8 := by norm_num
    linarith
  have hlt63 : y.toRat < 2 ^ 63 := by
    have : (N : ℚ) + 1 ≤ 2 ^ 50 + 1 := by linarith
    have h63 : (2 : ℚ) ^ 50 + 1 < 10 * 2 ^ 63 := by norm_num
    linarith
  obtain ⟨hfl, hfu⟩ := ieeeToInt_floor y hy0 hlt63
  have h10t : 10 * ieeeToInt y < N + 1 := by
    have : (10 : ℚ) * ((ieeeToInt y : Int) : ℚ) < (N : ℚ) + 1 := by linarith
    exact_mod_cast this
  have h10u : N - 1 < 10 * ieeeToInt y + 10 := by
    have : (N : ℚ) - 1 < 10 * ((ieeeToInt y : Int) : ℚ) + 10 := by linarith
    exact_mod_cast this
  refine ⟨by omega, by omega, ?_⟩
  intro hmod
  omega

/-- The stat of the specification is the integer quotient of
base * (level + 9) by 10, rounded down. -/
theorem exactScaledStat_eq (base level : Int) :
    exactScaledStat base level = base * (level + 9) / 10 := by
  unfold exactScaledStat
  have h : (base : ℚ) * (1 + (1 / 10) * ((level : ℚ) - 1)) =
      ((base * (level + 9) : Int) : ℚ) / ((10 : ℕ) : ℚ) := by
    push_cast; ring
  rw [h, Rat.floor_intCast_div_natCast]
  rfl

/-- C12: the code misses the value the claim and its own comment ("10%
increase per level") give. For a level 5 hero whose type has BaseHP 45,
CalculateStats stores HP 62, while floor(45 * (1 + 0.1 * 4)) =
floor(45 * 14 / 10) is 63: in float64 the level factor 1.0 + 4 * 0.1 is just
below 1.4, the product just below 63, and the conversion to `int` truncates.
Likewise BaseATK 85 at level 5 gives ATK 118 where floor(85 * 1.4) is 119. -/
theorem calculateStats_truncation_below_floor :
    (CalculateStats ieee754
      { sampleHero 5 400 0 0 with
        HeroType := some { sampleHeroType with BaseHP := 45, BaseATK := 85 } }).HP = 62 ∧
    exactScaledStat 45 5 = 63 ∧
    (CalculateStats ieee754
      { sampleHero 5 400 0 0 with
        HeroType := some { sampleHeroType with BaseHP := 45, BaseATK := 85 } }).HP ≠
      exactScaledStat 45 5 ∧
    (CalculateStats ieee754
      { sampleHero 5 400 0 0 with
        HeroType := some { sampleHeroType with BaseHP := 45, BaseATK := 85 } }).ATK = 118 ∧
    exactScaledStat 85 5 = 119 := by
  have he : exactScaledStat 45 5 = 63 := by
    rw [exactScaledStat_eq]; decide
  have he2 : exactScaledStat 85 5 = 119 := by
    rw [exactScaledStat_eq]; decide
  refine ⟨by decide, he, ?_, by decide, he2⟩
  rw [he]
  decide

/-- How far the truncation takes CalculateStats from the exact value: for a
hero with a hero type, a Level of at least 1 and non-negative base stats with
Base * (Level + 9) at most 2^50, the HP and ATK that CalculateStats stores,
in float64 arithmetic rounded to nearest after each operation, are
floor(Base * (Level + 9) / 10) or one less, and are that floor whenever
Base * (Level + 9) is no multiple of 10. -/
theorem calculateStats_near_exact (h : Hero) (ht : HeroType)
    (hty : h.HeroType = some ht) (hl : 1 ≤ h.Level) (hlr : h.Level < 2 ^ 63)
    (hhp : 0 ≤ ht.BaseHP) (hatk : 0 ≤ ht.BaseATK)
    (hhpN : ht.BaseHP * (h.Level + 9) ≤ 2 ^ 50)
    (hatkN : ht.BaseATK * (h.Level + 9) ≤ 2 ^ 50) :
    (exactScaledStat ht.BaseHP h.Level - 1 ≤ (CalculateStats ieee754 h).HP ∧
      (CalculateStats ieee754 h).HP ≤ exactScaledStat ht.BaseHP h.Level ∧
      (ht.BaseHP * (h.Level + 9) % 10 ≠ 0 →
        (CalculateStats ieee754 h).HP = exactScaledStat ht.BaseHP h.Level)) ∧
    (exactScaledStat ht.BaseATK h.Level - 1 ≤ (CalculateStats ieee754 h).ATK ∧
      (CalculateStats ieee754 h).ATK ≤ exactScaledStat ht.BaseATK h.Level ∧
      (ht.BaseATK * (h.Level + 9) % 10 ≠ 0 →
        (CalculateStats ieee754 h).ATK = exactScaledStat ht.BaseATK h.Level)) ∧
    exactScaledStat ht.BaseHP h.Level = ht.BaseHP * (h.Level + 9) / 10 ∧
    exactScaledStat ht.BaseATK h.Level = ht.BaseATK * (h.Level + 9) / 10 := by
  obtain ⟨hHP, hATK⟩ := calculateStats_stats ieee754 h ht hty
  rw [hHP, hATK, exactScaledStat_eq, exactScaledStat_eq]
  exact ⟨scaledStat_ieee_near _ _ hhp hl hlr hhpN,
    scaledStat_ieee_near _ _ hatk hl hlr hatkN, rfl, rfl⟩

theorem calculateStats_near_exact_witness :
    (sampleHero 5 400 0 0).HeroType = some sampleHeroType ∧
    (CalculateStats ieee754 (sampleHero 5 400 0 0)).HP = 140 ∧
    exactScaledStat 100 5 = 100 * (5 + 9) / 10 ∧
    exactScaledStat 100 5 - 1 ≤ (CalculateStats ieee754 (sampleHero 5 400 0 0)).HP ∧
    (CalculateStats ieee754 (sampleHero 5 400 0 0)).HP ≤ exactScaledStat 100 5 :=
  have h := calculateStats_near_exact (sampleHero 5 400 0 0) sampleHeroType rfl
    (by decide) (by decide) (by decide) (by decide) (by decide) (by decide)
  ⟨rfl, by decide, h.2.2.1, h.1.1, h.1.2.1⟩

/-! ## Theorems: JSON -/

/-- White space is skipped up to the first character that is none. -/
theorem skipWs_cons (c : Char) (cs : List Char)
    (h : ¬ (c = ' ' ∨ c = Char.ofNat 9 ∨ c = Char.ofNat 10 ∨ c = Char.ofNat 13)) :
    skipWs (c :: cs) = c :: cs := by
  simp only [skipWs, h, if_false]

/-- Inside a string the decoder reads back the character the encoder wrote. -/
theorem unquoteFrom_escapeChar (c : Char) (acc tail : List Char) :
    unquoteFrom UnquoteState.plain acc (escapeChar c ++ tail) =
      unquoteFrom UnquoteState.plain (acc ++ [c]) tail := by
  by_cases hlow : c.toNat < 32
  · have hc : c = Char.ofNat c.toNat := (Char.ofNat_toNat c).symm
    generalize c.toNat = n at hc hlow
    subst hc
    interval_cases n <;> rfl
  by_cases h34 : c = Char.ofNat 34
  · subst h34; rfl
  by_cases h92 : c = Char.ofNat 92
  · subst h92; rfl
  by_cases h60 : c = Char.ofNat 60
  · subst h60; rfl
  by_cases h62 : c = Char.ofNat 62
  · subst h62; rfl
  by_cases h38 : c = Char.ofNat 38
  · subst h38; rfl
  by_cases h8232 : c = Char.ofNat 8232
  · subst h8232; rfl
  by_cases h8233 : c = Char.ofNat 8233
  · subst h8233; rfl
  have h8 : c ≠ Char.ofNat 8 := by
    intro h; subst h; exact hlow (by decide)
  have h12 : c ≠ Char.ofNat 12 := by
    intro h; subst h; exact hlow (by decide)
  have h10 : c ≠ Char.ofNat 10 := by
    intro h; subst h; exact hlow (by decide)
  have h13 : c ≠ Char.ofNat 13 := by
    intro h; subst h; exact hlow (by decide)
  have h9 : c ≠ Char.ofNat 9 := by
    intro h; subst h; exact hlow (by decide)
  have hesc : escapeChar c = [c] := by
    simp [escapeChar, chQuote, chBackslash, hlow, h34, h92, h60, h62, h38, h8232, h8233,
      h8, h12, h10, h13, h9]
  rw [hesc]
  simp [unquoteFrom, chQuote, chBackslash, hlow, h34, h92]

/-- Inside a string the decoder reads back the characters the encoder wrote,
up to the closing quote. -/
theorem unquoteFrom_escapeChars (s acc rest : List Char) :
    unquoteFrom UnquoteState.plain acc (escapeChars s ++ chQuote :: rest) =
      some (acc ++ s, rest) := by
  induction s generalizing acc with
  | nil => simp [escapeChars, unquoteFrom]
  | cons c cs ih =>
    simp only [escapeChars, List.append_assoc]
    rw [unquoteFrom_escapeChar, ih]
    simp

/-- The decoder reads back the string the encoder wrote. -/
theorem parseString_encodeString (s : String) (rest : List Char) :
    parseString (encodeString s ++ rest) = some (s, rest) := by
  unfold parseString encodeString
  simp only [List.cons_append, List.append_assoc, List.singleton_append, if_true]
  rw [unquoteFrom_escapeChars]
  simp

/-- A decimal digit as the encoder writes it is read as a digit of its value. -/
theorem digit_char (n : Nat) (h : n < 10) :
    isDigit (Char.ofNat (48 + n)) = true ∧ (Char.ofNat (48 + n)).toNat - 48 = n ∧
    Char.ofNat (48 + n) ≠ chMinus ∧ (Char.ofNat (48 + n) = '0' → n = 0) := by
  interval_cases n <;> decide

/-- The decoder reads the digits the encoder wrote as the number they write. -/
theorem scanDigits_natDigits (fuel n acc : Nat) (rest : List Char) (h : n < fuel) :
    scanDigits acc (natDigits fuel n ++ rest) =
      scanDigits (acc * 10 ^ (natDigits fuel n).length + n) rest := by
  induction fuel generalizing n acc rest with
  | zero => omega
  | succ fuel ih =>
    unfold natDigits
    by_cases h10 : n < 10
    · obtain ⟨hd, hv, _, _⟩ := digit_char n h10
      simp only [h10, if_true, List.singleton_append, List.length_singleton, pow_one]
      rw [scanDigits]
      simp only [hd, if_true, hv]
    · simp only [h10, if_false, List.append_assoc, List.singleton_append, List.length_append,
        List.length_singleton]
      rw [ih (n / 10) acc _ (by omega)]
      obtain ⟨hd, hv, _, _⟩ := digit_char (n % 10) (Nat.mod_lt _ (by decide))
      rw [scanDigits]
      simp only [hd, if_true, hv]
      congr 1
      rw [pow_succ]
      have := Nat.div_add_mod n 10
      generalize 10 ^ (natDigits fuel (n / 10)).length = P
      have h1 : (acc * P + n / 10) * 10 + n % 10 = acc * P * 10 + (10 * (n / 10) + n % 10) := by
        ring
      rw [h1, this]
      ring

/-- The digits the encoder writes start with a digit, and with the digit zero
only for the number zero, written with that one digit. -/
theorem natDigits_head (fuel n : Nat) (h : n < fuel) :
    ∃ d ds, natDigits fuel n = d :: ds ∧ isDigit d = true ∧ d ≠ chMinus ∧
      (d = '0' → n = 0 ∧ ds = []) := by
  induction fuel generalizing n with
  | zero => omega
  | succ fuel ih =>
    unfold natDigits
    by_cases h10 : n < 10
    · obtain ⟨hd, _, hm, h0⟩ := digit_char n h10
      exact ⟨_, [], by simp [h10], hd, hm, fun hz => ⟨h0 hz, rfl⟩⟩
    · obtain ⟨d, ds, heq, hd, hm, h0⟩ := ih (n / 10) (by omega)
      refine ⟨d, ds ++ [Char.ofNat (48 + n % 10)], by simp [h10, heq], hd, hm, ?_⟩
      intro hz
      have := (h0 hz).1
      omega

/-- Where a number ends the decoder reads no further digit. -/
theorem scanDigits_numberEnds (acc : Nat) (rest : List Char) (h : numberEnds rest) :
    scanDigits acc rest = (acc, rest) ∧ numberGoesOn rest = false ∧
    startsWithDigit rest = false := by
  cases rest with
  | nil => simp [scanDigits, numberGoesOn, startsWithDigit]
  | cons c cs =>
    obtain ⟨h1, h2⟩ := h
    simp [scanDigits, numberGoesOn, startsWithDigit, h1, h2]

/-- The decoder reads back the `int` the encoder wrote. -/
theorem parseInt_encodeInt (i : Int) (rest : List Char) (hr : InIntRange i)
    (hend : numberEnds rest) :
    parseInt (encodeInt i ++ rest) = some (i, rest) := by
  obtain ⟨d, ds, heq, hd, hm, h0⟩ := natDigits_head (i.natAbs + 1) i.natAbs (by omega)
  obtain ⟨hscan, hgo, hlead⟩ := scanDigits_numberEnds i.natAbs rest hend
  have hsd : scanDigits 0 (d :: (ds ++ rest)) = (i.natAbs, rest) := by
    have := scanDigits_natDigits (i.natAbs + 1) i.natAbs 0 rest (by omega)
    rw [heq] at this
    simp only [List.cons_append, zero_mul, zero_add] at this
    rw [this, hscan]
  have hzero : ¬ (d = '0' ∧ startsWithDigit (ds ++ rest) = true) := by
    rintro ⟨hz, hdig⟩
    obtain ⟨_, hds⟩ := h0 hz
    rw [hds, List.nil_append, hlead] at hdig
    exact absurd hdig (by decide)
  unfold InIntRange at hr
  unfold encodeInt
  by_cases hneg : i < 0
  · rw [if_pos hneg, heq]
    simp only [List.cons_append, parseInt, if_true, hd, hzero, hsd, hgo, if_false]
    have hv : -((i.natAbs : Nat) : Int) = i := by omega
    rw [hv, if_pos hr]
    simp
  · rw [if_neg hneg, heq]
    simp only [List.cons_append, parseInt, hm, if_false, hd, hzero, hsd, hgo]
    have hv : ((i.natAbs : Nat) : Int) = i := by omega
    rw [hv, if_pos hr]
    simp

/-- No white space is skipped before a string. -/
theorem skipWs_encodeString (s : String) (rest : List Char) :
    skipWs (encodeString s ++ rest) = encodeString s ++ rest := by
  unfold encodeString
  exact skipWs_cons _ _ (by decide)

/-- No white space is skipped before a number. -/
theorem skipWs_encodeInt (i : Int) (rest : List Char) :
    skipWs (encodeInt i ++ rest) = encodeInt i ++ rest := by
  obtain ⟨d, ds, heq, hd, _, _⟩ := natDigits_head (i.natAbs + 1) i.natAbs (by omega)
  have hdws : ¬ (d = ' ' ∨ d = Char.ofNat 9 ∨ d = Char.ofNat 10 ∨ d = Char.ofNat 13) := by
    rintro (h | h | h | h) <;> (subst h; exact absurd hd (by decide))
  unfold encodeInt
  by_cases hneg : i < 0
  · rw [if_pos hneg]
    exact skipWs_cons _ _ (by decide)
  · rw [if_neg hneg, heq]
    exact skipWs_cons _ _ hdws

/-- A key that the map does not hold is stored as a new entry, at the end. -/
theorem mapInsert_new (m : List (String × Int)) (k : String) (v : Int)
    (h : k ∉ m.map Prod.fst) : mapInsert m k v = m ++ [(k, v)] := by
  unfold mapInsert
  have hany : m.any (fun e => decide (e.1 = k)) = false := by
    rw [List.any_eq_false]
    intro e he hek
    apply h
    simp only [decide_eq_true_eq] at hek
    rw [← hek]
    exact List.mem_map_of_mem Prod.fst he
  rw [hany]
  simp

/-- A number ends before what the encoder writes after an entry. -/
theorem numberEnds_entriesTail (es : List (String × Int)) (rest : List Char) :
    numberEnds (encodeEntriesTail es ++ chRBrace :: rest) := by
  cases es with
  | nil => simp only [encodeEntriesTail, List.nil_append, numberEnds]; decide
  | cons e es => simp only [encodeEntriesTail, List.cons_append, numberEnds]; decide

/-- The decoder reads back the entries the encoder wrote for a map whose keys
are distinct and whose values are in the range of `int`. -/
theorem parseEntries_encode (es : List (String × Int)) :
    ∀ (fuel : Nat) (acc : List (String × Int)) (e : String × Int) (rest : List Char),
      es.length < fuel → ((acc ++ e :: es).map Prod.fst).Nodup →
      (∀ x ∈ e :: es, InIntRange x.2) →
      parseEntries fuel acc (encodeEntry e ++ (encodeEntriesTail es ++ chRBrace :: rest)) =
        some (acc ++ e :: es, rest) := by
  induction es with
  | nil =>
    intro fuel acc e rest hfuel hnd hrange
    obtain ⟨f, rfl⟩ : ∃ f, fuel = f + 1 := ⟨fuel - 1, by omega⟩
    have hk : e.1 ∉ acc.map Prod.fst := by
      simp only [List.map_append, List.map_cons, List.map_nil] at hnd
      have := (List.nodup_append.mp hnd).2.2
      intro hmem
      exact this hmem (List.mem_cons_self _ _)
    unfold parseEntries encodeEntry
    simp only [encodeEntriesTail, List.nil_append, List.append_assoc, List.cons_append]
    rw [skipWs_encodeString, parseString_encodeString]
    simp only []
    rw [skipWs_cons _ _ (by decide)]
    simp only [if_true]
    rw [skipWs_encodeInt, parseInt_encodeInt _ _ (hrange e (List.mem_cons_self _ _))
      (by simp only [numberEnds]; decide)]
    simp only []
    rw [skipWs_cons _ _ (by decide)]
    dsimp only
    rw [if_neg (by decide), if_pos rfl, mapInsert_new _ _ _ hk]
  | cons e2 es ih =>
    intro fuel acc e rest hfuel hnd hrange
    obtain ⟨f, rfl⟩ : ∃ f, fuel = f + 1 := ⟨fuel - 1, by omega⟩
    have hk : e.1 ∉ acc.map Prod.fst := by
      simp only [List.map_append, List.map_cons] at hnd
      have := (List.nodup_append.mp hnd).2.2
      intro hmem
      exact this hmem (List.mem_cons_self _ _)
    unfold parseEntries encodeEntry
    simp only [encodeEntriesTail, List.append_assoc, List.cons_append]
    rw [skipWs_encodeString, parseString_encodeString]
    simp only []
    rw [skipWs_cons _ _ (by decide)]
    simp only [if_true]
    rw [skipWs_encodeInt, parseInt_encodeInt _ _ (hrange e (List.mem_cons_self _ _))
      (by simp only [numberEnds]; decide)]
    simp only []
    rw [skipWs_cons _ _ (by decide)]
    dsimp only
    rw [if_pos rfl, mapInsert_new _ _ _ hk]
    have hlen : es.length < f := by simp only [List.length_cons] at hfuel; omega
    have hnd2 : (((acc ++ [e]) ++ e2 :: es).map Prod.fst).Nodup := by
      simpa [List.append_assoc] using hnd
    have := ih f (acc ++ [e]) e2 rest hlen hnd2
      (fun x hx => hrange x (List.mem_cons_of_mem _ hx))
    rw [Prod.mk.eta, this]
    simp

/-- The text of the entries after the first has a character at least for each. -/
theorem length_encodeEntriesTail (es : List (String × Int)) :
    es.length ≤ (encodeEntriesTail es).length := by
  induction es with
  | nil => simp [encodeEntriesTail]
  | cons e es ih =>
    simp only [encodeEntriesTail, List.length_cons, List.length_append]
    omega

/-- The order the encoder writes the entries in keeps them all: their keys
stay distinct and their values in range. -/
theorem sortedEntries_perm (m : List (String × Int)) : (sortedEntries m).Perm m :=
  List.perm_insertionSort _ m

/-- The decoder reads back the map the encoder wrote, in the order it was
written in; a `nil` map is read back as `nil`. -/
theorem parseMapValue_encodeMap (m : Option (List (String × Int))) (rest : List Char)
    (hnd : ∀ l, m = some l → (l.map Prod.fst).Nodup)
    (hrange : ∀ l, m = some l → ∀ x ∈ l, InIntRange x.2) :
    parseMapValue none (encodeMap m ++ rest) = some (m.map sortedEntries, rest) := by
  cases m with
  | none => rfl
  | some l =>
    have hperm := sortedEntries_perm l
    have hnd2 : ((sortedEntries l).map Prod.fst).Nodup :=
      ((hperm.map Prod.fst).nodup_iff).mpr (hnd l rfl)
    have hrange2 : ∀ x ∈ sortedEntries l, InIntRange x.2 :=
      fun x hx => hrange l rfl x (hperm.mem_iff.mp hx)
    simp only [encodeMap, Option.map_some']
    generalize sortedEntries l = sl at hnd2 hrange2
    cases sl with
    | nil =>
      simp only [parseMapValue, List.cons_append, List.nil_append, if_true]
      rw [skipWs_cons _ _ (by decide)]
      simp
    | cons e es =>
      have key := parseEntries_encode es
        (encodeEntry e ++ (encodeEntriesTail es ++ chRBrace :: rest)).length [] e rest
        (by
          have := length_encodeEntriesTail es
          simp only [List.length_append, List.length_cons]
          omega)
        (by simpa using hnd2) hrange2
      have hsk := skipWs_encodeString e.1
        (chColon :: encodeInt e.2 ++ (encodeEntriesTail es ++ chRBrace :: rest))
      simp only [encodeEntry, encodeString, List.cons_append, List.append_assoc,
        List.nil_append] at key hsk
      simp only [parseMapValue, encodeEntry, encodeString, List.cons_append,
        List.append_assoc, List.nil_append, if_true, hsk, Option.getD_none]
      rw [if_neg (by decide), key]

/-- The text of the strings after the first has a character at least for each. -/
theorem length_encodeItemsTail (ss : List String) :
    ss.length ≤ (encodeItemsTail ss).length := by
  induction ss with
  | nil => simp [encodeItemsTail]
  | cons s ss ih =>
    simp only [encodeItemsTail, List.length_cons, List.length_append]
    omega

/-- The decoder reads back the strings the encoder wrote for a slice. -/
theorem parseElements_encode (ss : List String) :
    ∀ (fuel : Nat) (acc : List String) (s : String) (rest : List Char),
      ss.length < fuel →
      parseElements fuel acc (encodeString s ++ (encodeItemsTail ss ++ chRBracket :: rest)) =
        some (acc ++ s :: ss, rest) := by
  induction ss with
  | nil =>
    intro fuel acc s rest hfuel
    obtain ⟨f, rfl⟩ : ∃ f, fuel = f + 1 := ⟨fuel - 1, by omega⟩
    unfold parseElements
    simp only [encodeItemsTail, List.nil_append]
    rw [skipWs_encodeString, parseString_encodeString]
    dsimp only
    rw [skipWs_cons _ _ (by decide)]
    dsimp only
    rw [if_neg (by decide), if_pos rfl]
  | cons s2 ss ih =>
    intro fuel acc s rest hfuel
    obtain ⟨f, rfl⟩ : ∃ f, fuel = f + 1 := ⟨fuel - 1, by omega⟩
    unfold parseElements
    simp only [encodeItemsTail, List.append_assoc, List.cons_append]
    rw [skipWs_encodeString, parseString_encodeString]
    dsimp only
    rw [skipWs_cons _ _ (by decide)]
    dsimp only
    rw [if_pos rfl]
    have hlen : ss.length < f := by simp only [List.length_cons] at hfuel; omega
    rw [ih f (acc ++ [s]) s2 rest hlen]
    simp

/-- The decoder reads back the slice the encoder wrote; a `nil` slice is read
back as `nil`, an empty one as empty. -/
theorem parseItemsValue_encodeItems (l : Option (List String)) (rest : List Char) :
    parseItemsValue (encodeItems l ++ rest) = some (l, rest) := by
  cases l with
  | none => rfl
  | some ss =>
    cases ss with
    | nil =>
      simp only [encodeItems, parseItemsValue, List.cons_append, List.nil_append, if_true]
      rw [skipWs_cons _ _ (by decide)]
      simp
    | cons s ss =>
      have key := parseElements_encode ss
        (encodeString s ++ (encodeItemsTail ss ++ chRBracket :: rest)).length [] s rest
        (by
          have := length_encodeItemsTail ss
          simp only [List.length_append, List.length_cons]
          omega)
      have hsk := skipWs_encodeString s (encodeItemsTail ss ++ chRBracket :: rest)
      simp only [encodeString, List.cons_append, List.append_assoc,
        List.nil_append] at key hsk
      simp only [encodeItems, parseItemsValue, encodeString, List.cons_append,
        List.append_assoc, List.nil_append, if_true, hsk]
      rw [if_neg (by decide), key]

/-- One member of the object: after the key and the colon the decoder reads
the value of the field, then goes on after a comma and stops after the
closing brace. -/
theorem parseMembers_member (f : Nat) (r r1 : Rewards) (k : String)
    (value tail : List Char) (d : Char)
    (hd : ¬ (d = ' ' ∨ d = Char.ofNat 9 ∨ d = Char.ofNat 10 ∨ d = Char.ofNat 13))
    (hws : skipWs (value ++ d :: tail) = value ++ d :: tail)
    (hfield : parseField r k (value ++ d :: tail) = some (r1, d :: tail)) :
    parseMembers (f + 1) r (encodeString k ++ chColon :: (value ++ d :: tail)) =
      if d = chComma then parseMembers f r1 tail
      else if d = chRBrace then some (r1, tail) else none := by
  conv_lhs => rw [parseMembers]
  rw [skipWs_encodeString, parseString_encodeString]
  dsimp only
  rw [skipWs_cons _ _ (by decide)]
  dsimp only
  rw [if_pos rfl, hws, hfield]
  dsimp only
  rw [skipWs_cons _ _ hd]

/-- No white space is skipped before a map. -/
theorem skipWs_encodeMap (m : Option (List (String × Int))) (rest : List Char) :
    skipWs (encodeMap m ++ rest) = encodeMap m ++ rest := by
  cases m with
  | none => exact skipWs_cons _ _ (by decide)
  | some l =>
    simp only [encodeMap]
    cases sortedEntries l with
    | nil => exact skipWs_cons _ _ (by decide)
    | cons e es => exact skipWs_cons _ _ (by decide)

/-- No white space is skipped before a slice. -/
theorem skipWs_encodeItems (l : Option (List String)) (rest : List Char) :
    skipWs (encodeItems l ++ rest) = encodeItems l ++ rest := by
  cases l with
  | none => exact skipWs_cons _ _ (by decide)
  | some ss =>
    cases ss with
    | nil => exact skipWs_cons _ _ (by decide)
    | cons s ss => exact skipWs_cons _ _ (by decide)

/-- A document that is an object whose members the decoder reads to the end
is decoded to what the members give. -/
theorem jsonUnmarshal_of_members (ds : List Char) (r : Rewards)
    (h : parseMembers (chQuote :: ds).length ⟨0, none, none⟩ (chQuote :: ds) = some (r, [])) :
    jsonUnmarshalRewards (String.mk (chLBrace :: chQuote :: ds)) = some r := by
  unfold jsonUnmarshalRewards
  dsimp only
  rw [skipWs_cons _ _ (by decide)]
  dsimp only
  rw [if_pos rfl, skipWs_cons _ _ (by decide)]
  dsimp only
  rw [if_neg (by decide), h]
  simp [skipWs]

/-- The decoder reads back the rewards the encoder wrote: the same gold, the
same items, and the entries of the experience map in the order they were
written in. The values are in the range of `int` and the keys of the map are
distinct. -/
theorem jsonUnmarshal_marshal (r : Rewards) (hgold : InIntRange r.Gold)
    (hnd : ∀ l, r.Experience = some l → (l.map Prod.fst).Nodup)
    (hrange : ∀ l, r.Experience = some l → ∀ x ∈ l, InIntRange x.2) :
    jsonUnmarshalRewards (jsonMarshalRewards r) =
      some ⟨r.Gold, r.Experience.map sortedEntries, r.Items⟩ := by
  have h3 : ∀ f, parseMembers (f + 1) ⟨r.Gold, r.Experience.map sortedEntries, none⟩
      (encodeString "items" ++ chColon :: (encodeItems r.Items ++ chRBrace :: [])) =
      some (⟨r.Gold, r.Experience.map sortedEntries, r.Items⟩, []) := by
    intro f
    rw [parseMembers_member f _ ⟨r.Gold, r.Experience.map sortedEntries, r.Items⟩
      "items" _ [] chRBrace (by decide) (skipWs_encodeItems _ _)
      (by
        unfold parseField
        rw [if_neg (by decide), if_neg (by decide), if_pos rfl, parseItemsValue_encodeItems])]
    rw [if_neg (by decide), if_pos rfl]
  have h2 : ∀ f, parseMembers (f + 2) ⟨r.Gold, none, none⟩
      (encodeString "experience" ++ chColon :: (encodeMap r.Experience ++ chComma ::
        (encodeString "items" ++ chColon :: (encodeItems r.Items ++ chRBrace :: [])))) =
      some (⟨r.Gold, r.Experience.map sortedEntries, r.Items⟩, []) := by
    intro f
    rw [parseMembers_member (f + 1) _ ⟨r.Gold, r.Experience.map sortedEntries, none⟩
      "experience" _ _ chComma (by decide) (skipWs_encodeMap _ _)
      (by
        unfold parseField
        rw [if_neg (by decide), if_pos rfl, parseMapValue_encodeMap _ _ hnd hrange])]
    rw [if_pos rfl, h3]
  have h1 : ∀ f, parseMembers (f + 3) ⟨0, none, none⟩
      (encodeString "gold" ++ chColon :: (encodeInt r.Gold ++ chComma ::
        (encodeString "experience" ++ chColon :: (encodeMap r.Experience ++ chComma ::
          (encodeString "items" ++ chColon :: (encodeItems r.Items ++ chRBrace :: [])))))) =
      some (⟨r.Gold, r.Experience.map sortedEntries, r.Items⟩, []) := by
    intro f
    rw [parseMembers_member (f + 2) _ ⟨r.Gold, none, none⟩
      "gold" _ _ chComma (by decide) (skipWs_encodeInt _ _)
      (by
        unfold parseField
        rw [if_pos rfl, parseInt_encodeInt _ _ hgold (by simp only [numberEnds]; decide)])]
    rw [if_pos rfl, h2]
  have hshape : jsonMarshalRewards r =
      String.mk (chLBrace :: chQuote :: (escapeChars "gold".data ++ chQuote :: chColon ::
        (encodeInt r.Gold ++ chComma ::
        (encodeString "experience" ++ chColon :: (encodeMap r.Experience ++ chComma ::
          (encodeString "items" ++ chColon :: (encodeItems r.Items ++ chRBrace :: []))))))) := by
    simp only [jsonMarshalRewards, encodeString, List.append_assoc, List.cons_append,
      List.singleton_append, List.nil_append]
  rw [hshape]
  apply jsonUnmarshal_of_members
  have h1n : ∀ n, 3 ≤ n → parseMembers n ⟨0, none, none⟩
      (encodeString "gold" ++ chColon :: (encodeInt r.Gold ++ chComma ::
        (encodeString "experience" ++ chColon :: (encodeMap r.Experience ++ chComma ::
          (encodeString "items" ++ chColon :: (encodeItems r.Items ++ chRBrace :: [])))))) =
      some (⟨r.Gold, r.Experience.map sortedEntries, r.Items⟩, []) := by
    intro n hn
    obtain ⟨f, rfl⟩ : ∃ f, n = f + 3 := ⟨n - 3, by omega⟩
    exact h1 f
  simp only [encodeString, List.append_assoc, List.cons_append,
      List.singleton_append, List.nil_append] at h1n ⊢
  apply h1n
  simp only [List.length_cons, List.length_append]
  omega

/-- Two lists of entries with distinct keys that hold the same entries give
every key the same value. -/
theorem lookup_perm (l1 l2 : List (String × Int)) (h : l1.Perm l2)
    (hnd : (l1.map Prod.fst).Nodup) (k : String) : l1.lookup k = l2.lookup k := by
  induction h with
  | nil => rfl
  | cons x _ ih =>
    simp only [List.map_cons, List.nodup_cons] at hnd
    obtain ⟨a, b⟩ := x
    simp only [List.lookup_cons]
    rw [ih hnd.2]
  | swap x y l =>
    simp only [List.map_cons, List.nodup_cons, List.mem_cons, not_or] at hnd
    obtain ⟨a, b⟩ := x
    obtain ⟨c, d⟩ := y
    simp only [List.lookup_cons]
    cases hka : (k == a) <;> cases hkc : (k == c) <;> try rfl
    have h1 : k = a := by simpa using hka
    have h2 : k = c := by simpa using hkc
    exact absurd (h2.symm.trans h1) hnd.1.1
  | trans hp1 _ ih1 ih2 =>
    rw [ih1 hnd, ih2 (((hp1.map Prod.fst).nodup_iff).mp hnd)]

/-- What `json.Marshal` writes for a `Rewards` is not the empty string. -/
theorem jsonMarshalRewards_ne_empty (r : Rewards) : jsonMarshalRewards r ≠ "" := by
  intro h
  have := congrArg String.data h
  simp [jsonMarshalRewards] at this

/-- C18: rewards round-trip through their stored JSON form. For a battle
result with non-nil Rewards, SetRewardsJSON returns no error, ParseRewardsJSON
after it returns no error, and the Rewards it leaves have the same Gold, the
same items in the same order (a nil slice staying nil and an empty one
empty), and an experience map that is nil exactly when the map was, holds the
same entries, and gives every hero id the same experience. The integers are
in the range of `int` and the keys of the map are distinct, as those of a Go
map are. -/
theorem rewards_round_trip (br : BattleResult) (r : Rewards) (hr : br.Rewards = some r)
    (hgold : InIntRange r.Gold)
    (hkeys : ∀ l, r.Experience = some l → (l.map Prod.fst).Nodup)
    (hvals : ∀ l, r.Experience = some l → ∀ x ∈ l, InIntRange x.2) :
    (SetRewardsJSON br).1 = none ∧
    (ParseRewardsJSON (SetRewardsJSON br).2).1 = none ∧
    ∃ r2, (ParseRewardsJSON (SetRewardsJSON br).2).2.Rewards = some r2 ∧
      r2.Gold = r.Gold ∧
      r2.Items = r.Items ∧
      (r2.Experience = none ↔ r.Experience = none) ∧
      (∀ l, r.Experience = some l → ∃ l2, r2.Experience = some l2 ∧ l2.Perm l) ∧
      (∀ heroID, experienceOf r2.Experience heroID = experienceOf r.Experience heroID) := by
  have hset : SetRewardsJSON br = (none, { br with RewardsJSON := jsonMarshalRewards r }) := by
    simp [SetRewardsJSON, hr]
  have hparse : ParseRewardsJSON { br with RewardsJSON := jsonMarshalRewards r } =
      (none, { br with RewardsJSON := jsonMarshalRewards r,
                       Rewards := some ⟨r.Gold, r.Experience.map sortedEntries, r.Items⟩ }) := by
    unfold ParseRewardsJSON
    dsimp only
    rw [if_neg (jsonMarshalRewards_ne_empty r), jsonUnmarshal_marshal r hgold hkeys hvals]
  rw [hset]
  dsimp only
  rw [hparse]
  refine ⟨rfl, rfl, ⟨r.Gold, r.Experience.map sortedEntries, r.Items⟩, rfl, rfl, rfl, ?_, ?_, ?_⟩
  · cases r.Experience <;> simp
  · intro l hl
    rw [hl]
    exact ⟨sortedEntries l, rfl, sortedEntries_perm l⟩
  · intro heroID
    cases hE : r.Experience with
    | none => rfl
    | some l =>
      have hperm := sortedEntries_perm l
      have hnd2 : ((sortedEntries l).map Prod.fst).Nodup :=
        ((hperm.map Prod.fst).nodup_iff).mpr (hkeys l hE)
      simp only [experienceOf, Option.map_some', Option.getD_some]
      exact lookup_perm _ _ hperm hnd2 heroID

theorem rewards_round_trip_witness :
    (sampleBattleResult (some sampleRewards)).Rewards = some sampleRewards ∧
    (SetRewardsJSON (sampleBattleResult (some sampleRewards))).2.RewardsJSON =
      "\x7b\"gold\":150,\"experience\":\x7b\"h1\":-5,\"h2\":30\x7d,\"items\":[\"sword\",\"a\\u003cb\"]\x7d" ∧
    (ParseRewardsJSON (SetRewardsJSON (sampleBattleResult (some sampleRewards))).2).2.Rewards =
      some { sampleRewards with Experience := some [("h1", -5), ("h2", 30)] } ∧
    (SetRewardsJSON (sampleBattleResult (some sampleRewards))).1 = none ∧
    (ParseRewardsJSON (SetRewardsJSON (sampleBattleResult (some sampleRewards))).2).1 = none :=
  have h := rewards_round_trip (sampleBattleResult (some sampleRewards)) sampleRewards rfl
    (by decide) (by decide) (by decide)
  ⟨rfl, by decide, by decide, h.1, h.2.1⟩

/-! ## Theorems: team positions -/

/-- C22: GetPositionHeroID(p) after SetPositionHeroID(p, h) returns h for
every position p in 1..5 and every hero id h, and GetPositionHeroID returns
the empty string for every position outside 1..5, on every team (also on one
that SetPositionHeroID has just written). -/
theorem getPosition_round_trip (now : Time) (t : Team) :
    (∀ (p : Int) (h : String), 1 ≤ p → p ≤ 5 →
      GetPositionHeroID p (SetPositionHeroID now p h t) = h) ∧
    (∀ p : Int, (p < 1 ∨ 5 < p) → GetPositionHeroID p t = "") ∧
    (∀ (p q : Int) (h : String), (q < 1 ∨ 5 < q) →
      GetPositionHeroID q (SetPositionHeroID now p h t) = "") := by
  have hout : ∀ (u : Team) (p : Int), (p < 1 ∨ 5 < p) → GetPositionHeroID p u = "" := by
    intro u p hp
    unfold GetPositionHeroID
    have h1 : p ≠ 1 := by omega
    have h2 : p ≠ 2 := by omega
    have h3 : p ≠ 3 := by omega
    have h4 : p ≠ 4 := by omega
    have h5 : p ≠ 5 := by omega
    simp only [h1, h2, h3, h4, h5, if_false]
  refine ⟨?_, hout t, fun p q h hq => hout _ q hq⟩
  intro p h h1 h5
  rw [getPosition_setPosition]
  have hmem : p ∈ ([1, 2, 3, 4, 5] : List Int) := by
    simp only [List.mem_cons, List.mem_singleton, List.not_mem_nil, or_false]
    omega
  rw [if_pos ⟨rfl, hmem⟩]

/-- C23: SetPositionHeroID(p, h) writes no position other than p: each of
the five positions other than p keeps its hero id, so for p outside 1..5 all
five are unchanged; ID, UserID, CreatedAt and Heroes are unchanged, and
UpdatedAt is the instant of the call. -/
theorem setPosition_frame (now : Time) (p : Int) (h : String) (t : Team) :
    (p ≠ 1 → (SetPositionHeroID now p h t).Position1 = t.Position1) ∧
    (p ≠ 2 → (SetPositionHeroID now p h t).Position2 = t.Position2) ∧
    (p ≠ 3 → (SetPositionHeroID now p h t).Position3 = t.Position3) ∧
    (p ≠ 4 → (SetPositionHeroID now p h t).Position4 = t.Position4) ∧
    (p ≠ 5 → (SetPositionHeroID now p h t).Position5 = t.Position5) ∧
    (∀ q : Int, q ≠ p →
      GetPositionHeroID q (SetPositionHeroID now p h t) = GetPositionHeroID q t) ∧
    ((p < 1 ∨ 5 < p) → SetPositionHeroID now p h t = { t with UpdatedAt := now }) ∧
    (SetPositionHeroID now p h t).ID = t.ID ∧
    (SetPositionHeroID now p h t).UserID = t.UserID ∧
    (SetPositionHeroID now p h t).CreatedAt = t.CreatedAt ∧
    (SetPositionHeroID now p h t).Heroes = t.Heroes ∧
    (SetPositionHeroID now p h t).UpdatedAt = now := by
  refine ⟨?_, ?_, ?_, ?_, ?_, ?_, ?_, ?_, ?_, ?_, ?_, ?_⟩
  · intro hp; unfold SetPositionHeroID; simp only [hp, if_false]; split_ifs <;> rfl
  · intro hp; unfold SetPositionHeroID; simp only [hp, if_false]; split_ifs <;> rfl
  · intro hp; unfold SetPositionHeroID; simp only [hp, if_false]; split_ifs <;> rfl
  · intro hp; unfold SetPositionHeroID; simp only [hp, if_false]; split_ifs <;> rfl
  · intro hp; unfold SetPositionHeroID; simp only [hp, if_false]; split_ifs <;> rfl
  · intro q hq
    rw [getPosition_setPosition, if_neg (fun hc => hq hc.1)]
  · intro hp
    have h1 : p ≠ 1 := by omega
    have h2 : p ≠ 2 := by omega
    have h3 : p ≠ 3 := by omega
    have h4 : p ≠ 4 := by omega
    have h5 : p ≠ 5 := by omega
    unfold SetPositionHeroID
    simp only [h1, h2, h3, h4, h5, if_false]
  · unfold SetPositionHeroID; split_ifs <;> rfl
  · unfold SetPositionHeroID; split_ifs <;> rfl
  · unfold SetPositionHeroID; split_ifs <;> rfl
  · unfold SetPositionHeroID; split_ifs <;> rfl
  · unfold SetPositionHeroID; split_ifs <;> rfl

/-- The map GetAllPositions returns, entry by entry: the positions 1..5 with
their hero ids, the empty ones left out. -/
theorem getAllPositions_eq_filter (t : Team) :
    GetAllPositions t =
      (([1, 2, 3, 4, 5] : List Int).map (fun p => (p, GetPositionHeroID p t))).filter
        (fun e => decide (e.2 ≠ "")) := by
  unfold GetAllPositions GetPositionHeroID
  by_cases h1 : t.Position1 = "" <;> by_cases h2 : t.Position2 = "" <;>
    by_cases h3 : t.Position3 = "" <;> by_cases h4 : t.Position4 = "" <;>
    by_cases h5 : t.Position5 = "" <;> simp [h1, h2, h3, h4, h5, List.filter]

/-- C25: GetHeroIDs returns the hero ids of the positions 1, 2, 3, 4, 5 in
that order with the empty ones left out, and the map GetAllPositions returns
has an entry (p, v) exactly when p is one of 1..5 and v is the hero id at
position p and is not empty; no key comes twice. -/
theorem getHeroIDs_getAllPositions (t : Team) :
    GetHeroIDs t =
      (([1, 2, 3, 4, 5] : List Int).map (fun p => GetPositionHeroID p t)).filter
        (fun v => decide (v ≠ "")) ∧
    (∀ (p : Int) (v : String), (p, v) ∈ GetAllPositions t ↔
      (1 ≤ p ∧ p ≤ 5 ∧ GetPositionHeroID p t = v ∧ v ≠ "")) ∧
    ((GetAllPositions t).map Prod.fst).Nodup ∧
    GetAllPositions t =
      (([1, 2, 3, 4, 5] : List Int).map (fun p => (p, GetPositionHeroID p t))).filter
        (fun e => decide (e.2 ≠ "")) := by
  have hall := getAllPositions_eq_filter t
  refine ⟨?_, ?_, ?_, hall⟩
  · unfold GetHeroIDs GetPositionHeroID
    by_cases h1 : t.Position1 = "" <;> by_cases h2 : t.Position2 = "" <;>
      by_cases h3 : t.Position3 = "" <;> by_cases h4 : t.Position4 = "" <;>
      by_cases h5 : t.Position5 = "" <;> simp [h1, h2, h3, h4, h5, List.filter]
  · intro p v
    rw [hall]
    simp only [List.mem_filter, List.mem_map, List.mem_cons, List.mem_singleton,
      List.not_mem_nil, or_false, decide_eq_true_eq]
    constructor
    · rintro ⟨⟨q, hq, heq⟩, hv⟩
      have hp : q = p := congrArg Prod.fst heq
      have hv2 : GetPositionHeroID q t = v := congrArg Prod.snd heq
      subst hp
      exact ⟨by omega, by omega, hv2, hv⟩
    · rintro ⟨h1, h5, hv, hne⟩
      exact ⟨⟨p, by omega, by rw [hv]⟩, hne⟩
  · rw [hall]
    apply List.Nodup.sublist (List.Sublist.map _ (List.filter_sublist _))
    have hkeys : (([1, 2, 3, 4, 5] : List Int).map (fun p => (p, GetPositionHeroID p t))).map
        Prod.fst = [1, 2, 3, 4, 5] := rfl
    rw [hkeys]
    decide

/-- The keys that SetAllPositions reads are the decimal digits of the
positions 1..5. -/
theorem positionOfKey_eq_some (k : String) (p : Int) :
    positionOfKey k = some p ↔ (1 ≤ p ∧ p ≤ 5 ∧ k = digitKey p) := by
  constructor
  · intro h
    unfold positionOfKey at h
    split_ifs at h with h1 h2 h3 h4 h5 <;>
      (have hp := Option.some.inj h
       subst hp
       subst k
       exact ⟨by decide, by decide, by decide⟩)
  · rintro ⟨h1, h5, hk⟩
    have hp : p = 1 ∨ p = 2 ∨ p = 3 ∨ p = 4 ∨ p = 5 := by omega
    rcases hp with hp | hp | hp | hp | hp <;> subst hp <;> subst hk <;> decide

/-- An entry whose key is none of "1".."5" leaves the team as it is. -/
theorem setPositionFromEntry_other_key (now : Time) (t : Team) (entry : String × String)
    (h : positionOfKey entry.1 = none) : setPositionFromEntry now t entry = t := by
  unfold setPositionFromEntry
  rw [h]

/-- The loop of SetAllPositions does the same on the map without the entries
whose key is none of "1".."5". -/
theorem foldl_filter_keys (now : Time) (positions : List (String × String)) (t : Team) :
    (positions.filter (fun e => (positionOfKey e.1).isSome)).foldl
        (setPositionFromEntry now) t =
      positions.foldl (setPositionFromEntry now) t := by
  induction positions generalizing t with
  | nil => rfl
  | cons head rest ih =>
    cases hk : positionOfKey head.1 with
    | none =>
      rw [List.filter_cons_of_neg (by simp [hk]), List.foldl_cons,
        setPositionFromEntry_other_key now t head hk]
      exact ih t
    | some pos =>
      rw [List.filter_cons_of_pos (by simp [hk]), List.foldl_cons, List.foldl_cons]
      exact ih _

/-- After the loop of SetAllPositions a position whose key has no hero id in
the map, other than the empty string and "null", holds what it held before
the loop. -/
theorem getPosition_foldl_unassigned (now : Time) (i : Int)
    (positions : List (String × String)) (t : Team)
    (h : ∀ v : String, (digitKey i, v) ∈ positions → v = "" ∨ v = "null") :
    GetPositionHeroID i (positions.foldl (setPositionFromEntry now) t) =
      GetPositionHeroID i t := by
  rcases getPosition_foldl now i positions t with h0 | ⟨entry, hmem, hk, h1, h2, _⟩
  · exact h0
  · have hkey := ((positionOfKey_eq_some entry.1 i).mp hk).2.2
    have hmem2 : (digitKey i, entry.2) ∈ positions := by
      rw [← hkey]; exact hmem
    rcases h entry.2 hmem2 with hv | hv
    · exact absurd hv h1
    · exact absurd hv h2

/-- After the loop of SetAllPositions over a map, a position 1..5 whose key
has in the map a hero id that is neither empty nor "null" holds that hero
id. -/
theorem getPosition_foldl_assigned (now : Time) (i : Int) (v : String)
    (positions : List (String × String)) (t : Team)
    (hkeys : (positions.map Prod.fst).Nodup) (h1 : 1 ≤ i) (h5 : i ≤ 5)
    (hmem : (digitKey i, v) ∈ positions) (hv1 : v ≠ "") (hv2 : v ≠ "null") :
    GetPositionHeroID i (positions.foldl (setPositionFromEntry now) t) = v := by
  induction positions generalizing t with
  | nil => exact absurd hmem (List.not_mem_nil _)
  | cons head rest ih =>
    simp only [List.map_cons, List.nodup_cons] at hkeys
    rw [List.foldl_cons]
    rcases List.mem_cons.mp hmem with hhead | hrest
    · have hfree : ∀ w : String, (digitKey i, w) ∈ rest → w = "" ∨ w = "null" := by
        intro w hw
        exfalso
        apply hkeys.1
        rw [← hhead]
        exact List.mem_map.mpr ⟨(digitKey i, w), hw, rfl⟩
      rw [getPosition_foldl_unassigned now i rest _ hfree]
      have hk : positionOfKey head.1 = some i := by
        rw [← hhead]
        exact (positionOfKey_eq_some (digitKey i) i).mpr ⟨h1, h5, rfl⟩
      unfold setPositionFromEntry
      rw [hk]
      dsimp only
      rw [← hhead]
      dsimp only
      rw [if_pos ⟨hv1, hv2⟩, getPosition_setPosition]
      have hi : i ∈ ([1, 2, 3, 4, 5] : List Int) := by
        simp only [List.mem_cons, List.mem_singleton, List.not_mem_nil, or_false]
        omega
      rw [if_pos ⟨rfl, hi⟩]
    · exact ih _ hkeys.2 hrest

/-- C24: SetAllPositions replaces the whole assignment. After
SetAllPositions(m), for a map m (its keys distinct), a position p in 1..5
holds the value of m under the decimal digit of p when m has that key with a
value that is neither the empty string nor "null", and holds the empty
string otherwise, as does every position outside 1..5; the entries of m
whose key is none of "1".."5" can be left out without changing the team; and
the five positions are the same for any previous team and any order in which
the entries of m are visited. -/
theorem setAllPositions_spec (now : Time) (positions : List (String × String)) (t : Team)
    (hkeys : (positions.map Prod.fst).Nodup) :
    (∀ (p : Int) (v : String), 1 ≤ p → p ≤ 5 → (digitKey p, v) ∈ positions →
      v ≠ "" → v ≠ "null" → GetPositionHeroID p (SetAllPositions now positions t) = v) ∧
    (∀ p : Int, (∀ v : String, (digitKey p, v) ∈ positions → v = "" ∨ v = "null") →
      GetPositionHeroID p (SetAllPositions now positions t) = "") ∧
    (∀ k : String, positionOfKey k = none ↔ k ∉ ["1", "2", "3", "4", "5"]) ∧
    SetAllPositions now (positions.filter (fun e => (positionOfKey e.1).isSome)) t =
      SetAllPositions now positions t ∧
    (∀ (now2 : Time) (positions2 : List (String × String)) (t2 : Team),
      positions2.Perm positions → ∀ p : Int,
      GetPositionHeroID p (SetAllPositions now2 positions2 t2) =
        GetPositionHeroID p (SetAllPositions now positions t)) := by
  have hassigned : ∀ (now1 : Time) (l : List (String × String)) (u : Team),
      (l.map Prod.fst).Nodup → ∀ (p : Int) (v : String), 1 ≤ p → p ≤ 5 →
      (digitKey p, v) ∈ l → v ≠ "" → v ≠ "null" →
      GetPositionHeroID p (SetAllPositions now1 l u) = v := by
    intro now1 l u hl p v h1 h5 hmem hv1 hv2
    unfold SetAllPositions
    exact getPosition_foldl_assigned now1 p v l _ hl h1 h5 hmem hv1 hv2
  have hfree : ∀ (now1 : Time) (l : List (String × String)) (u : Team) (p : Int),
      (∀ v : String, (digitKey p, v) ∈ l → v = "" ∨ v = "null") →
      GetPositionHeroID p (SetAllPositions now1 l u) = "" := by
    intro now1 l u p h
    unfold SetAllPositions
    rw [getPosition_foldl_unassigned now1 p l _ h, getPosition_cleared]
  refine ⟨hassigned now positions t hkeys, hfree now positions t, ?_, ?_, ?_⟩
  · intro k
    unfold positionOfKey
    simp only [List.mem_cons, List.mem_singleton, List.not_mem_nil, or_false, not_or]
    split_ifs with h1 h2 h3 h4 h5 <;> simp [*]
  · unfold SetAllPositions
    exact foldl_filter_keys now positions _
  · intro now2 positions2 t2 hperm p
    have hkeys2 : (positions2.map Prod.fst).Nodup :=
      ((hperm.map Prod.fst).nodup_iff).mpr hkeys
    by_cases hp : 1 ≤ p ∧ p ≤ 5 ∧
        ∃ v : String, (digitKey p, v) ∈ positions ∧ v ≠ "" ∧ v ≠ "null"
    · obtain ⟨h1, h5, v, hmem, hv1, hv2⟩ := hp
      rw [hassigned now positions t hkeys p v h1 h5 hmem hv1 hv2,
        hassigned now2 positions2 t2 hkeys2 p v h1 h5 (hperm.mem_iff.mpr hmem) hv1 hv2]
    · by_cases hin : 1 ≤ p ∧ p ≤ 5
      · have hnone : ∀ v : String, (digitKey p, v) ∈ positions → v = "" ∨ v = "null" := by
          intro v hmem
          by_contra hc
          rw [not_or] at hc
          exact hp ⟨hin.1, hin.2, v, hmem, hc.1, hc.2⟩
        rw [hfree now positions t p hnone,
          hfree now2 positions2 t2 p (fun v hmem => hnone v (hperm.mem_iff.mp hmem))]
      · have hout : ∀ u : Team, GetPositionHeroID p u = "" := by
          intro u
          unfold GetPositionHeroID
          have e1 : p ≠ 1 := by omega
          have e2 : p ≠ 2 := by omega
          have e3 : p ≠ 3 := by omega
          have e4 : p ≠ 4 := by omega
          have e5 : p ≠ 5 := by omega
          simp only [e1, e2, e3, e4, e5, if_false]
        rw [hout, hout]

theorem setAllPositions_spec_witness :
    GetPositionHeroID 2
        (SetAllPositions 2000 [("2", "h1"), ("1", "h2"), ("9", "h7"), ("3", "null")]
          (sampleTeam "h4" "h5" "h6" "" "")) = "h1" ∧
    GetPositionHeroID 3
        (SetAllPositions 2000 [("2", "h1"), ("1", "h2"), ("9", "h7"), ("3", "null")]
          (sampleTeam "h4" "h5" "h6" "" "")) = "" :=
  ⟨(setAllPositions_spec 2000 [("2", "h1"), ("1", "h2"), ("9", "h7"), ("3", "null")]
      (sampleTeam "h4" "h5" "h6" "" "") (by decide)).1 2 "h1" (by decide) (by decide)
      (by decide) (by decide) (by decide),
    (setAllPositions_spec 2000 [("2", "h1"), ("1", "h2"), ("9", "h7"), ("3", "null")]
      (sampleTeam "h4" "h5" "h6" "" "") (by decide)).2.1 3
      (by
        intro v hmem
        have hk : digitKey 3 = "3" := by decide
        rw [hk] at hmem
        simp at hmem
        exact Or.inr hmem)⟩

/-- C26: CountHeroes equals the length of GetHeroIDs and the number of
entries of the map GetAllPositions returns, lies between 0 and 5, and is 0
exactly when all five positions are empty. -/
theorem countHeroes_spec (t : Team) :
    CountHeroes t = ((GetHeroIDs t).length : Int) ∧
    CountHeroes t = ((GetAllPositions t).length : Int) ∧
    0 ≤ CountHeroes t ∧ CountHeroes t ≤ 5 ∧
    (CountHeroes t = 0 ↔
      t.Position1 = "" ∧ t.Position2 = "" ∧ t.Position3 = "" ∧ t.Position4 = "" ∧
        t.Position5 = "") := by
  unfold CountHeroes GetHeroIDs GetAllPositions
  by_cases h1 : t.Position1 = "" <;> by_cases h2 : t.Position2 = "" <;>
    by_cases h3 : t.Position3 = "" <;> by_cases h4 : t.Position4 = "" <;>
    by_cases h5 : t.Position5 = "" <;> simp [h1, h2, h3, h4, h5]

/-- Storing under a key that the map does not have yet adds the entry at the
end. -/
theorem storePosition_new (m : List (String × HeroPosition)) (k : String) (v : HeroPosition)
    (h : k ∉ m.map Prod.fst) : storePosition m k v = m ++ [(k, v)] := by
  unfold storePosition
  have hany : m.any (fun e => decide (e.1 = k)) = false := by
    rw [List.any_eq_false]
    intro e he
    simp only [decide_eq_true_eq]
    intro hk
    exact h (List.mem_map.mpr ⟨e, he, hk⟩)
  rw [hany]
  simp

/-- The loop of ToTeamResponse over entries whose keys are new and distinct
adds one entry for each, in the order it visits them. -/
theorem foldl_storeHeroID (l : List (Int × String)) (acc : List (String × HeroPosition))
    (h : (acc.map Prod.fst ++ l.map (fun e => positionKey e.1)).Nodup) :
    l.foldl storeHeroID acc =
      acc ++ l.map (fun e => (positionKey e.1,
        ({ HeroID := e.2, HeroTypeID := "", Name := "", Level := 0 } : HeroPosition))) := by
  induction l generalizing acc with
  | nil => simp
  | cons e rest ih =>
    rw [List.foldl_cons]
    have hk : positionKey e.1 ∉ acc.map Prod.fst := by
      intro hmem
      rw [List.map_cons, List.nodup_append] at h
      exact h.2.2 hmem (List.mem_cons_self _ _)
    unfold storeHeroID at ih ⊢
    rw [storePosition_new _ _ _ hk, ih]
    · simp
    · rw [List.map_cons] at h
      simp only [List.map_append, List.map_cons, List.map_nil, List.append_assoc,
        List.singleton_append]
      exact h

/-- A list that holds the same entries as one whose images are distinct has
distinct images too. -/
theorem nodup_map_of_perm {α β : Type} (f : α → β) (l1 l2 : List α) (h : l1.Perm l2)
    (hn : (l2.map f).Nodup) : (l1.map f).Nodup :=
  ((h.map f).nodup_iff).mpr hn

/-- The entries of the response for a team whose Heroes map is nil do not
depend on the order in which the loop visits the map that GetAllPositions
returns. -/
theorem toTeamResponse_any_order (t : Team) (order : List (Int × String))
    (h : order.Perm (GetAllPositions t)) :
    (order.foldl storeHeroID []).Perm ((GetAllPositions t).foldl storeHeroID []) := by
  have hkeys : ((GetAllPositions t).map (fun e => positionKey e.1)).Nodup := by
    have hall := getAllPositions_eq_filter t
    have hsub : ((GetAllPositions t).map (fun e => positionKey e.1)).Sublist
        ((List.map (fun p => (p, GetPositionHeroID p t)) ([1, 2, 3, 4, 5] : List Int)).map
          (fun e => positionKey e.1)) := by
      rw [hall]
      exact List.Sublist.map _ (List.filter_sublist _)
    have k1 : positionKey 1 = "1" := by decide
    have k2 : positionKey 2 = "2" := by decide
    have k3 : positionKey 3 = "3" := by decide
    have k4 : positionKey 4 = "4" := by decide
    have k5 : positionKey 5 = "5" := by decide
    have hlist : (List.map (fun p => (p, GetPositionHeroID p t)) ([1, 2, 3, 4, 5] : List Int)).map
        (fun e => positionKey e.1) = ["1", "2", "3", "4", "5"] := by
      simp only [List.map_cons, List.map_nil, k1, k2, k3, k4, k5]
    rw [hlist] at hsub
    exact List.Nodup.sublist hsub (by decide)
  have hkeys2 : (order.map (fun e => positionKey e.1)).Nodup :=
    nodup_map_of_perm _ order (GetAllPositions t) h hkeys
  have e1 : order.foldl storeHeroID [] =
      [] ++ order.map (fun e => (positionKey e.1,
        ({ HeroID := e.2, HeroTypeID := "", Name := "", Level := 0 } : HeroPosition))) :=
    foldl_storeHeroID order [] (by rw [List.map_nil, List.nil_append]; exact hkeys2)
  have e2 : (GetAllPositions t).foldl storeHeroID [] =
      [] ++ (GetAllPositions t).map (fun e => (positionKey e.1,
        ({ HeroID := e.2, HeroTypeID := "", Name := "", Level := 0 } : HeroPosition))) :=
    foldl_storeHeroID (GetAllPositions t) []
      (by rw [List.map_nil, List.nil_append]; exact hkeys)
  rw [e1, e2, List.nil_append, List.nil_append]
  exact List.Perm.map _ h

/-- C27: the code misses the claim, and its own comment "If heroes not
loaded, just set IDs", for the empty map that NewTeam creates. The team
NewTeam("team1", "u1") with hero "h1" set at position 1 has no hero loaded;
its Heroes map is empty and not nil, ToTeamResponse takes the branch of the
loaded heroes, ranges over the empty map, and the response has no position
at all, where the claim gives the entry "1" for hero "h1"; the same team
with Heroes nil is answered with that entry. -/
theorem toTeamResponse_newTeam_no_positions :
    (SetPositionHeroID 2000 1 "h1" (NewTeam 1000 "team1" "u1")).Heroes = some [] ∧
    GetPositionHeroID 1 (SetPositionHeroID 2000 1 "h1" (NewTeam 1000 "team1" "u1")) = "h1" ∧
    (ToTeamResponse (SetPositionHeroID 2000 1 "h1" (NewTeam 1000 "team1" "u1"))).Positions
      = [] ∧
    (ToTeamResponse { SetPositionHeroID 2000 1 "h1" (NewTeam 1000 "team1" "u1") with
        Heroes := none }).Positions =
      [("1", { HeroID := "h1", HeroTypeID := "", Name := "", Level := 0 })] := by
  decide

/-- The branch of ToTeamResponse for heroes that are not loaded: for every
team whose Heroes map is nil, the response has exactly one entry for each
position 1..5 that is not empty, under the decimal digit of the position,
holding the hero id of the position (and zero values in its other fields),
whatever the order in which the loop visits the map that GetAllPositions
returns. The TeamID is the team's ID. -/
theorem toTeamResponse_nil_heroes (t : Team) :
    (ToTeamResponse t).TeamID = t.ID ∧
    (t.Heroes = none →
      (ToTeamResponse t).Positions =
        ((([1, 2, 3, 4, 5] : List Int).filter
          (fun p => decide (GetPositionHeroID p t ≠ ""))).map
          (fun p => (digitKey p,
            ({ HeroID := GetPositionHeroID p t, HeroTypeID := "", Name := "",
               Level := 0 } : HeroPosition))))) ∧
    (t.Heroes = none → ∀ order : List (Int × String), order.Perm (GetAllPositions t) →
      (order.foldl storeHeroID []).Perm (ToTeamResponse t).Positions) := by
  have k1 : positionKey 1 = "1" := by decide
  have k2 : positionKey 2 = "2" := by decide
  have k3 : positionKey 3 = "3" := by decide
  have k4 : positionKey 4 = "4" := by decide
  have k5 : positionKey 5 = "5" := by decide
  have d1 : digitKey 1 = "1" := by decide
  have d2 : digitKey 2 = "2" := by decide
  have d3 : digitKey 3 = "3" := by decide
  have d4 : digitKey 4 = "4" := by decide
  have d5 : digitKey 5 = "5" := by decide
  refine ⟨rfl, ?_, ?_⟩
  swap
  · intro h order hperm
    have hpos : (ToTeamResponse t).Positions = (GetAllPositions t).foldl storeHeroID [] := by
      unfold ToTeamResponse
      rw [h]
    rw [hpos]
    exact toTeamResponse_any_order t order hperm
  intro h
  unfold ToTeamResponse
  rw [h]
  unfold GetAllPositions GetPositionHeroID
  by_cases h1 : t.Position1 = "" <;> by_cases h2 : t.Position2 = "" <;>
    by_cases h3 : t.Position3 = "" <;> by_cases h4 : t.Position4 = "" <;>
    by_cases h5 : t.Position5 = "" <;>
    simp [h1, h2, h3, h4, h5, List.filter, storeHeroID, storePosition,
      k1, k2, k3, k4, k5, d1, d2, d3, d4, d5]

/-! ## Theorems: free summons and pull counts -/

/-- C28: after UpdateFreeSummon executed at the instant t, CanClaimFreeSummon
is false at every instant of the same UTC day as t (the instants t' >= t of
that day among them) and true at every instant of a later UTC day; the UTC
day of an instant is its number of whole 24-hour days since the zero time,
the day that time.Truncate(24h) cuts out. -/
theorem free_summon_once_a_day (t : Time) (s : SummonSession) :
    (∀ t' : Time, t ≤ t' → t' / (24 * Hour) = t / (24 * Hour) →
      CanClaimFreeSummon t' (UpdateFreeSummon t s) = false) ∧
    (∀ t' : Time, t' / (24 * Hour) = t / (24 * Hour) →
      CanClaimFreeSummon t' (UpdateFreeSummon t s) = false) ∧
    (∀ t' : Time, t / (24 * Hour) < t' / (24 * Hour) →
      CanClaimFreeSummon t' (UpdateFreeSummon t s) = true) ∧
    (∀ t' : Time, t ≤ t' →
      (CanClaimFreeSummon t' (UpdateFreeSummon t s) = true ↔
        t / (24 * Hour) < t' / (24 * Hour))) := by
  have hcan : ∀ t' : Time, CanClaimFreeSummon t' (UpdateFreeSummon t s) = true ↔
      t / (24 * Hour) < t' / (24 * Hour) := by
    intro t'
    rw [← truncate_day_lt_iff]
    unfold CanClaimFreeSummon UpdateFreeSummon
    simp
  have hsame : ∀ t' : Time, t' / (24 * Hour) = t / (24 * Hour) →
      CanClaimFreeSummon t' (UpdateFreeSummon t s) = false := by
    intro t' hday
    cases hc : CanClaimFreeSummon t' (UpdateFreeSummon t s) with
    | false => rfl
    | true =>
      have hlt := (hcan t').mp hc
      rw [hday] at hlt
      exact absurd hlt (lt_irrefl _)
  exact ⟨fun t' _ hday => hsame t' hday, hsame, fun t' hlt => (hcan t').mpr hlt,
    fun t' _ => hcan t'⟩

/-- Go's sum and difference commute with adding one: `(a + 1) - b` and
`(a - b) + 1` are the same `int`. -/
theorem subInt_addInt_one (a b : Int) :
    subInt (addInt a 1) b = addInt (subInt a b) 1 := by
  unfold subInt addInt wrapInt
  omega

/-- A run of calls of IncrementPullCount writes only PullCount and UpdatedAt. -/
theorem runIncrements_frame (calls : List Time) (s : SummonSession) :
    (runIncrements calls s).LastLegendaryAt = s.LastLegendaryAt ∧
    (runIncrements calls s).HasGuarantee = s.HasGuarantee ∧
    (runIncrements calls s).LastFreeSummon = s.LastFreeSummon := by
  induction calls generalizing s with
  | nil => exact ⟨rfl, rfl, rfl⟩
  | cons now rest ih =>
    have h := ih (IncrementPullCount now s)
    exact h

/-- A run of calls of IncrementPullCount that does not reach the largest
`int` raises PullCount by the number of calls. -/
theorem runIncrements_pullCount (calls : List Time) (s : SummonSession)
    (hlo : -2 ^ 63 ≤ s.PullCount) (hhi : s.PullCount + calls.length < 2 ^ 63) :
    (runIncrements calls s).PullCount = s.PullCount + calls.length := by
  induction calls generalizing s with
  | nil => simp [runIncrements]
  | cons now rest ih =>
    simp only [List.length_cons, Nat.cast_add, Nat.cast_one] at hhi
    have h1 : (IncrementPullCount now s).PullCount = s.PullCount + 1 :=
      addInt_of_inRange _ _ ⟨by omega, by omega⟩
    have h := ih (IncrementPullCount now s) (by rw [h1]; omega) (by rw [h1]; omega)
    simp only [List.length_cons, Nat.cast_add, Nat.cast_one]
    unfold runIncrements at h ⊢
    rw [List.foldl_cons, h, h1]
    omega

/-- C29: IncrementPullCount raises PullCount by exactly 1 (Go's `int`
addition, the mathematical successor below the largest `int`) and leaves
LastLegendaryAt, HasGuarantee and LastFreeSummon unchanged; the pity counter
that ToSummonRateInfo reports is 1 more after the call than before it; and
over a sequence of calls that does not reach the largest `int`, PullCount
grows by the number of calls, so it is never smaller after more calls. -/
theorem incrementPullCount_frame (now : Time) (s : SummonSession) :
    (IncrementPullCount now s).PullCount = addInt s.PullCount 1 ∧
    (InIntRange (s.PullCount + 1) → (IncrementPullCount now s).PullCount = s.PullCount + 1) ∧
    (IncrementPullCount now s).LastLegendaryAt = s.LastLegendaryAt ∧
    (IncrementPullCount now s).HasGuarantee = s.HasGuarantee ∧
    (IncrementPullCount now s).LastFreeSummon = s.LastFreeSummon ∧
    (∀ (fl : Float64Arith) (b : Banner) (featuredHeroes : List HeroType),
      (ToSummonRateInfo fl b (some (IncrementPullCount now s)) featuredHeroes).CurrentPity =
        addInt (ToSummonRateInfo fl b (some s) featuredHeroes).CurrentPity 1) ∧
    (∀ (fl : Float64Arith) (b : Banner) (featuredHeroes : List HeroType),
      InIntRange ((ToSummonRateInfo fl b (some s) featuredHeroes).CurrentPity + 1) →
      (ToSummonRateInfo fl b (some (IncrementPullCount now s)) featuredHeroes).CurrentPity =
        (ToSummonRateInfo fl b (some s) featuredHeroes).CurrentPity + 1) ∧
    (∀ calls : List Time, -2 ^ 63 ≤ s.PullCount → s.PullCount + calls.length < 2 ^ 63 →
      (runIncrements calls s).PullCount = s.PullCount + calls.length) ∧
    (∀ calls more : List Time, -2 ^ 63 ≤ s.PullCount →
      s.PullCount + (calls ++ more).length < 2 ^ 63 →
      (runIncrements calls s).PullCount ≤ (runIncrements (calls ++ more) s).PullCount) := by
  have hpity : ∀ (fl : Float64Arith) (b : Banner) (featuredHeroes : List HeroType),
      (ToSummonRateInfo fl b (some (IncrementPullCount now s)) featuredHeroes).CurrentPity =
        addInt (ToSummonRateInfo fl b (some s) featuredHeroes).CurrentPity 1 := by
    intro fl b featuredHeroes
    show currentPity (IncrementPullCount now s) = addInt (currentPity s) 1
    unfold currentPity IncrementPullCount
    by_cases hl : s.LastLegendaryAt > 0
    · simp only [hl, if_true]
      exact subInt_addInt_one _ _
    · simp only [hl, if_false]
  refine ⟨rfl, fun h => addInt_of_inRange _ _ h, rfl, rfl, rfl, hpity, ?_, ?_, ?_⟩
  · intro fl b featuredHeroes h
    rw [hpity, addInt_of_inRange _ _ h]
  · intro calls hlo hhi
    exact runIncrements_pullCount calls s hlo hhi
  · intro calls more hlo hhi
    rw [runIncrements_pullCount (calls ++ more) s hlo hhi]
    rw [List.length_append, Nat.cast_add] at hhi
    rw [runIncrements_pullCount calls s hlo (by omega), List.length_append, Nat.cast_add]
    omega

/-! ## Theorems: items -/

/-- C30: EquipToHero(h) returns ErrNotEquipment exactly when the item has no
Template or its Template.Type is not equipment, and returns nil otherwise;
when it returns the error the item, EquippedToHeroID included, is unchanged,
and when it returns nil EquippedToHeroID is h and every other field is as it
was. -/
theorem equipToHero_spec (heroID : String) (i : Item) :
    ((EquipToHero heroID i).1 = some ErrNotEquipment ↔
      (i.Template = none ∨
        ∃ template, i.Template = some template ∧ template.Type_ ≠ ItemTypeEquipment)) ∧
    ((EquipToHero heroID i).1 = none ↔
      ∃ template, i.Template = some template ∧ template.Type_ = ItemTypeEquipment) ∧
    ((EquipToHero heroID i).1 = some ErrNotEquipment ∨ (EquipToHero heroID i).1 = none) ∧
    ((EquipToHero heroID i).1 = some ErrNotEquipment →
      (EquipToHero heroID i).2 = i ∧
      (EquipToHero heroID i).2.EquippedToHeroID = i.EquippedToHeroID) ∧
    ((EquipToHero heroID i).1 = none →
      (EquipToHero heroID i).2.EquippedToHeroID = heroID ∧
      (EquipToHero heroID i).2 = { i with EquippedToHeroID := heroID }) := by
  unfold EquipToHero IsEquipment
  cases ht : i.Template with
  | none => simp
  | some template =>
    by_cases hty : template.Type_ = ItemTypeEquipment
    · simp [hty]
    · simp [hty]

/-! ## Theorems: mission creation, expiry and reachable states -/

/-- Adding 24 hours and truncating to 24 hours gives the first UTC midnight
strictly after the instant. -/
theorem first_midnight_after (t : Time) :
    IsFirstMidnightAfter t (Truncate (24 * Hour) (t + 24 * Hour)) ∧
    Truncate (24 * Hour) (t + 24 * Hour) = 24 * Hour * (t / (24 * Hour) + 1) := by
  have hd : (24 : Int) * Hour = 86400000000000 := by decide
  unfold IsFirstMidnightAfter IsMidnight
  rw [truncate_day, hd]
  have h : ∀ x : Int,
      (86400000000000 * ((x + 86400000000000) / 86400000000000) % 86400000000000 = 0 ∧
        x < 86400000000000 * ((x + 86400000000000) / 86400000000000) ∧
        ∀ e2 : Int, e2 % 86400000000000 = 0 → x < e2 →
          86400000000000 * ((x + 86400000000000) / 86400000000000) ≤ e2) ∧
      86400000000000 * ((x + 86400000000000) / 86400000000000) =
        86400000000000 * (x / 86400000000000 + 1) := by
    intro x
    refine ⟨⟨by omega, by omega, ?_⟩, by omega⟩
    intro e2 h1 h2
    omega
  exact h t

/-- Adding 7 days and truncating to 24 hours gives the midnight 6 days after
the one that adding 24 hours and truncating gives. -/
theorem weekly_expiry_eq (t : Time) :
    Truncate (24 * Hour) (t + 7 * 24 * Hour) =
      Truncate (24 * Hour) (t + 24 * Hour) + 6 * (24 * Hour) := by
  have hd : (24 : Int) * Hour = 86400000000000 := by decide
  have hw : (7 : Int) * 24 * Hour = 604800000000000 := by decide
  rw [truncate_day, truncate_day, hw, hd]
  have h : ∀ x : Int,
      86400000000000 * ((x + 604800000000000) / 86400000000000) =
        86400000000000 * ((x + 86400000000000) / 86400000000000) + 6 * 86400000000000 := by
    intro x; omega
  exact h t

/-- A mission of a daily or weekly template expires at a UTC midnight
strictly after the clock reading its expiry is computed from. -/
theorem newMission_expiry_later (now expiryNow : Time) (id userID missionTemplateID : String)
    (t : MissionTemplate) (h : t.Type_ = MissionTypeDaily ∨ t.Type_ = MissionTypeWeekly) :
    ∃ e, (NewMission now expiryNow id userID missionTemplateID (some t)).ExpiresAt = some e ∧
      IsMidnight e ∧ expiryNow < e := by
  have hday := (first_midnight_after expiryNow).1
  rcases h with h | h
  · refine ⟨Truncate (24 * Hour) (expiryNow + 24 * Hour), ?_, hday.1, hday.2.1⟩
    unfold NewMission
    simp only [h, if_true]
  · have hne : ¬ t.Type_ = MissionTypeDaily := by rw [h]; decide
    refine ⟨Truncate (24 * Hour) (expiryNow + 7 * 24 * Hour), ?_, ?_, ?_⟩
    · unfold NewMission
      simp only [h, if_true]
      rw [if_neg (by decide)]
    · rw [weekly_expiry_eq]
      have hm := hday.1
      unfold IsMidnight at hm ⊢
      have hd : (24 : Int) * Hour = 86400000000000 := by decide
      rw [hd] at hm ⊢
      have hx : ∀ x : Int, x % 86400000000000 = 0 →
          (x + 6 * 86400000000000) % 86400000000000 = 0 := by
        intro x hx; omega
      exact hx _ hm
    · rw [weekly_expiry_eq]
      have hlt := hday.2.1
      have hd : (24 : Int) * Hour = 86400000000000 := by decide
      rw [hd]
      have hx : ∀ x y : Int, x < y → x < y + 6 * 86400000000000 := by
        intro x y hxy; omega
      exact hx _ _ hlt

/-- C31: NewMission sets an expiry only for time-limited missions. ExpiresAt
is nil when the template is nil or its type is story or achievement (or any
type other than daily and weekly). For a daily template ExpiresAt is the
first UTC midnight strictly after the instant of creation, the clock reading
the expiry is computed from; for a weekly template it is the UTC midnight
exactly 6 days after that. In both cases ExpiresAt is strictly later than
that reading and than AssignedAt, the earlier reading of the clock, so
IsExpired is false at creation. When both readings of the clock fall in one
UTC day, the daily expiry is the first UTC midnight strictly after
AssignedAt too. -/
theorem newMission_expiry (now expiryNow : Time) (id userID missionTemplateID : String) :
    (NewMission now expiryNow id userID missionTemplateID none).ExpiresAt = none ∧
    (∀ t : MissionTemplate, t.Type_ = MissionTypeStory ∨ t.Type_ = MissionTypeAchievement →
      (NewMission now expiryNow id userID missionTemplateID (some t)).ExpiresAt = none) ∧
    (∀ t : MissionTemplate, t.Type_ ≠ MissionTypeDaily → t.Type_ ≠ MissionTypeWeekly →
      (NewMission now expiryNow id userID missionTemplateID (some t)).ExpiresAt = none) ∧
    (∀ t : MissionTemplate, t.Type_ = MissionTypeDaily →
      ∃ e, (NewMission now expiryNow id userID missionTemplateID (some t)).ExpiresAt = some e ∧
        IsFirstMidnightAfter expiryNow e) ∧
    (∀ t : MissionTemplate, t.Type_ = MissionTypeWeekly →
      ∃ e d, (NewMission now expiryNow id userID missionTemplateID (some t)).ExpiresAt =
          some e ∧
        IsFirstMidnightAfter expiryNow d ∧ e = d + 6 * (24 * Hour) ∧ IsMidnight e) ∧
    (∀ t : MissionTemplate, t.Type_ = MissionTypeDaily ∨ t.Type_ = MissionTypeWeekly →
      now ≤ expiryNow →
      ∃ e, (NewMission now expiryNow id userID missionTemplateID (some t)).ExpiresAt = some e ∧
        expiryNow < e ∧ now < e ∧
        (NewMission now expiryNow id userID missionTemplateID (some t)).AssignedAt < e) ∧
    (∀ template : Option MissionTemplate, now ≤ expiryNow →
      IsExpired now (NewMission now expiryNow id userID missionTemplateID template) = false ∧
      IsExpired expiryNow (NewMission now expiryNow id userID missionTemplateID template) =
        false) ∧
    (∀ t : MissionTemplate, t.Type_ = MissionTypeDaily →
      now / (24 * Hour) = expiryNow / (24 * Hour) →
      ∃ e, (NewMission now expiryNow id userID missionTemplateID (some t)).ExpiresAt = some e ∧
        IsFirstMidnightAfter now e) := by
  have hnil : ∀ t : MissionTemplate, t.Type_ ≠ MissionTypeDaily → t.Type_ ≠ MissionTypeWeekly →
      (NewMission now expiryNow id userID missionTemplateID (some t)).ExpiresAt = none := by
    intro t h1 h2
    unfold NewMission
    simp only [h1, h2, if_false]
  have hdaily : ∀ t : MissionTemplate, t.Type_ = MissionTypeDaily →
      (NewMission now expiryNow id userID missionTemplateID (some t)).ExpiresAt =
        some (Truncate (24 * Hour) (expiryNow + 24 * Hour)) := by
    intro t h
    unfold NewMission
    simp only [h, if_true]
  have hweekly : ∀ t : MissionTemplate, t.Type_ = MissionTypeWeekly →
      (NewMission now expiryNow id userID missionTemplateID (some t)).ExpiresAt =
        some (Truncate (24 * Hour) (expiryNow + 7 * 24 * Hour)) := by
    intro t h
    unfold NewMission
    simp only [h, if_true]
    rw [if_neg (by decide)]
  refine ⟨rfl, ?_, hnil, ?_, ?_, ?_, ?_, ?_⟩
  · rintro t (h | h)
    · exact hnil t (by rw [h]; decide) (by rw [h]; decide)
    · exact hnil t (by rw [h]; decide) (by rw [h]; decide)
  · intro t h
    exact ⟨_, hdaily t h, (first_midnight_after expiryNow).1⟩
  · intro t h
    refine ⟨_, Truncate (24 * Hour) (expiryNow + 24 * Hour), hweekly t h,
      (first_midnight_after expiryNow).1, weekly_expiry_eq expiryNow, ?_⟩
    obtain ⟨e, he, hm, _⟩ := newMission_expiry_later now expiryNow id userID
      missionTemplateID t (Or.inr h)
    rw [hweekly t h] at he
    rw [Option.some.inj he]
    exact hm
  · intro t h hle
    obtain ⟨e, he, _, hlt⟩ := newMission_expiry_later now expiryNow id userID
      missionTemplateID t h
    have hnow : now < e := lt_of_le_of_lt hle hlt
    have hassigned :
        (NewMission now expiryNow id userID missionTemplateID (some t)).AssignedAt = now := by
      unfold NewMission
      dsimp only
      split_ifs <;> rfl
    exact ⟨e, he, hlt, hnow, by rw [hassigned]; exact hnow⟩
  · intro template hle
    have hcases : (NewMission now expiryNow id userID missionTemplateID template).ExpiresAt =
        none ∨ ∃ e, (NewMission now expiryNow id userID missionTemplateID template).ExpiresAt =
          some e ∧ expiryNow < e := by
      cases template with
      | none => left; rfl
      | some t =>
        by_cases h1 : t.Type_ = MissionTypeDaily
        · obtain ⟨e, he, _, hlt⟩ := newMission_expiry_later now expiryNow id userID
            missionTemplateID t (Or.inl h1)
          exact Or.inr ⟨e, he, hlt⟩
        · by_cases h2 : t.Type_ = MissionTypeWeekly
          · obtain ⟨e, he, _, hlt⟩ := newMission_expiry_later now expiryNow id userID
              missionTemplateID t (Or.inr h2)
            exact Or.inr ⟨e, he, hlt⟩
          · exact Or.inl (hnil t h1 h2)
    unfold IsExpired
    rcases hcases with h | ⟨e, he, hlt⟩
    · rw [h]; exact ⟨rfl, rfl⟩
    · rw [he]
      have hnow : now < e := lt_of_le_of_lt hle hlt
      simp only [gt_iff_lt, decide_eq_false_iff_not, not_lt]
      exact ⟨le_of_lt hnow, le_of_lt hlt⟩
  · intro t h hday
    refine ⟨_, hdaily t h, ?_⟩
    have h1 := first_midnight_after now
    have h2 := first_midnight_after expiryNow
    rw [h2.2, ← hday, ← h1.2]
    exact h1.1

/-- Worked instance of NewMission: a mission created 100000 seconds after the
zero time (in the second UTC day) expires at the end of that day when daily,
and 6 days later when weekly. -/
theorem newMission_expiry_example :
    (NewMission 100000000000000 100000000000000 "m1" "u1" "t1"
      (some (sampleTemplateOfType MissionTypeDaily))).ExpiresAt = some 172800000000000 ∧
    (NewMission 100000000000000 100000000000000 "m1" "u1" "t1"
      (some (sampleTemplateOfType MissionTypeWeekly))).ExpiresAt = some 691200000000000 ∧
    (NewMission 100000000000000 100000000000000 "m1" "u1" "t1"
      (some (sampleTemplateOfType MissionTypeStory))).ExpiresAt = none ∧
    IsExpired 100000000000000 (NewMission 100000000000000 100000000000000 "m1" "u1" "t1"
      (some (sampleTemplateOfType MissionTypeDaily))) = false ∧
    IsExpired 172800000000001 (NewMission 100000000000000 100000000000000 "m1" "u1" "t1"
      (some (sampleTemplateOfType MissionTypeDaily))) = true := by
  decide

/-- NewMission with a template starts in the invariant. -/
theorem newMission_invariant (now expiryNow : Time) (id userID missionTemplateID : String)
    (t : MissionTemplate) :
    MissionInvariant t (NewMission now expiryNow id userID missionTemplateID (some t)) := by
  unfold MissionInvariant NewMission
  dsimp only
  split_ifs <;> exact ⟨rfl, Or.inl ⟨rfl, rfl, rfl⟩⟩

/-- UpdateProgress keeps the invariant. -/
theorem updateProgress_invariant (now : Time) (value : Int) (t : MissionTemplate)
    (m : Mission) (h : MissionInvariant t m) :
    MissionInvariant t (UpdateProgress now value m).2 := by
  obtain ⟨ht, hstate⟩ := h
  unfold UpdateProgress
  by_cases hs : m.Status = MissionStatusInProgress
  · rw [if_neg (not_not.mpr hs)]
    dsimp only
    rw [ht]
    dsimp only
    have hprog : m.CompletedAt = none ∧ m.ClaimedAt = none := by
      rcases hstate with ⟨_, h1, h2⟩ | ⟨h1, _⟩ | ⟨h1, _⟩
      · exact ⟨h1, h2⟩
      · rw [hs] at h1; exact absurd h1 (by decide)
      · rw [hs] at h1; exact absurd h1 (by decide)
    by_cases hv : addInt m.CurrentValue value ≥ t.TargetValue
    · rw [if_pos hv]
      exact ⟨rfl, Or.inr (Or.inl ⟨rfl, rfl, by simp⟩)⟩
    · rw [if_neg hv]
      exact ⟨rfl, Or.inl ⟨hs, hprog.1, hprog.2⟩⟩
  · rw [if_pos hs]
    exact ⟨ht, hstate⟩

/-- ClaimRewards keeps the invariant. -/
theorem claimRewards_invariant (now : Time) (t : MissionTemplate) (m : Mission)
    (h : MissionInvariant t m) : MissionInvariant t (ClaimRewards now m).2 := by
  obtain ⟨ht, hstate⟩ := h
  unfold ClaimRewards
  by_cases hs : m.Status = MissionStatusCompleted
  · rw [if_neg (not_not.mpr hs)]
    rcases hstate with ⟨h1, _⟩ | ⟨_, h2, h3⟩ | ⟨h1, _⟩
    · rw [hs] at h1; exact absurd h1 (by decide)
    · exact ⟨ht, Or.inr (Or.inr ⟨rfl, h2, h3, by simp⟩)⟩
    · rw [hs] at h1; exact absurd h1 (by decide)
  · rw [if_pos hs]
    exact ⟨ht, hstate⟩

/-- Every finite sequence of calls keeps the invariant. -/
theorem runCalls_invariant (calls : List (Time × MissionCall)) (t : MissionTemplate)
    (m : Mission) (h : MissionInvariant t m) : MissionInvariant t (runCalls calls m) := by
  induction calls generalizing m with
  | nil => exact h
  | cons head rest ih =>
    obtain ⟨now, c⟩ := head
    unfold runCalls
    apply ih
    cases c with
    | updateProgress value => exact updateProgress_invariant now value t m h
    | claimRewards => exact claimRewards_invariant now t m h

/-- C32: the invariant of the reachable states of a mission. For every
mission created by NewMission with a non-nil template and then driven by any
finite sequence of UpdateProgress and ClaimRewards calls: the template is
still the one given; the status is in_progress, completed or claimed;
whenever Status is completed or claimed, CurrentValue == Template.TargetValue
and CompletedAt is set; whenever Status is claimed, ClaimedAt is set; and
whenever Status is in_progress, CompletedAt and ClaimedAt are nil. -/
theorem mission_reachable_invariant (now expiryNow : Time)
    (id userID missionTemplateID : String) (template : MissionTemplate)
    (calls : List (Time × MissionCall)) :
    (runCalls calls
      (NewMission now expiryNow id userID missionTemplateID (some template))).Template =
        some template ∧
    ((runCalls calls
        (NewMission now expiryNow id userID missionTemplateID (some template))).Status =
          MissionStatusInProgress ∨
      (runCalls calls
        (NewMission now expiryNow id userID missionTemplateID (some template))).Status =
          MissionStatusCompleted ∨
      (runCalls calls
        (NewMission now expiryNow id userID missionTemplateID (some template))).Status =
          MissionStatusClaimed) ∧
    (((runCalls calls
        (NewMission now expiryNow id userID missionTemplateID (some template))).Status =
          MissionStatusCompleted ∨
      (runCalls calls
        (NewMission now expiryNow id userID missionTemplateID (some template))).Status =
          MissionStatusClaimed) →
      (runCalls calls
        (NewMission now expiryNow id userID missionTemplateID (some template))).CurrentValue =
          template.TargetValue ∧
      (runCalls calls
        (NewMission now expiryNow id userID missionTemplateID (some template))).CompletedAt ≠
          none) ∧
    ((runCalls calls
        (NewMission now expiryNow id userID missionTemplateID (some template))).Status =
          MissionStatusClaimed →
      (runCalls calls
        (NewMission now expiryNow id userID missionTemplateID (some template))).ClaimedAt ≠
          none) ∧
    ((runCalls calls
        (NewMission now expiryNow id userID missionTemplateID (some template))).Status =
          MissionStatusInProgress →
      (runCalls calls
        (NewMission now expiryNow id userID missionTemplateID (some template))).CompletedAt =
          none ∧
      (runCalls calls
        (NewMission now expiryNow id userID missionTemplateID (some template))).ClaimedAt =
          none) := by
  have hinv := runCalls_invariant calls template _
    (newMission_invariant now expiryNow id userID missionTemplateID template)
  generalize runCalls calls
    (NewMission now expiryNow id userID missionTemplateID (some template)) = m at hinv ⊢
  obtain ⟨ht, hstate⟩ := hinv
  refine ⟨ht, ?_, ?_, ?_, ?_⟩
  · rcases hstate with ⟨h, _⟩ | ⟨h, _⟩ | ⟨h, _⟩
    · exact Or.inl h
    · exact Or.inr (Or.inl h)
    · exact Or.inr (Or.inr h)
  · intro hs
    rcases hstate with ⟨h, _⟩ | ⟨_, h2, h3⟩ | ⟨_, h2, h3, _⟩
    · rcases hs with hs | hs
      · rw [h] at hs; exact absurd hs (by decide)
      · rw [h] at hs; exact absurd hs (by decide)
    · exact ⟨h2, h3⟩
    · exact ⟨h2, h3⟩
  · intro hs
    rcases hstate with ⟨h, _⟩ | ⟨h, _⟩ | ⟨_, _, _, h4⟩
    · rw [h] at hs; exact absurd hs (by decide)
    · rw [h] at hs; exact absurd hs (by decide)
    · exact h4
  · intro hs
    rcases hstate with ⟨_, h2, h3⟩ | ⟨h, _⟩ | ⟨h, _⟩
    · exact ⟨h2, h3⟩
    · rw [h] at hs; exact absurd hs (by decide)
    · rw [h] at hs; exact absurd hs (by decide)

/-- Worked instance of C32: a daily mission asking for 3 wins, after progress
of 2, progress of 5, a claim and a further progress call, is claimed at the
target value 3 with both instants set. -/
theorem mission_reachable_example :
    (runCalls [(2000, MissionCall.updateProgress 2), (3000, MissionCall.updateProgress 5),
        (4000, MissionCall.claimRewards), (5000, MissionCall.updateProgress 1)]
      (NewMission 1000 1000 "m1" "u1" "t1" (some sampleTemplate))).Status =
        MissionStatusClaimed ∧
    (runCalls [(2000, MissionCall.updateProgress 2), (3000, MissionCall.updateProgress 5),
        (4000, MissionCall.claimRewards), (5000, MissionCall.updateProgress 1)]
      (NewMission 1000 1000 "m1" "u1" "t1" (some sampleTemplate))).CurrentValue = 3 ∧
    (runCalls [(2000, MissionCall.updateProgress 2), (3000, MissionCall.updateProgress 5),
        (4000, MissionCall.claimRewards), (5000, MissionCall.updateProgress 1)]
      (NewMission 1000 1000 "m1" "u1" "t1" (some sampleTemplate))).CompletedAt = some 3000 ∧
    (runCalls [(2000, MissionCall.updateProgress 2), (3000, MissionCall.updateProgress 5),
        (4000, MissionCall.claimRewards), (5000, MissionCall.updateProgress 1)]
      (NewMission 1000 1000 "m1" "u1" "t1" (some sampleTemplate))).ClaimedAt = some 4000 := by
  decide

/-! ## Theorems: stages -/

/-- C33: GetEnemyIDs returns the enemy ids of the slots Enemy1..Enemy5 in
this order with the empty ones left out, so at most 5 ids and none of them
empty, and leaves the stage as it was. -/
theorem getEnemyIDs_spec (s : Stage) :
    (GetEnemyIDs s).1 =
      [s.Enemy1, s.Enemy2, s.Enemy3, s.Enemy4, s.Enemy5].filter
        (fun id => decide (id ≠ "")) ∧
    (GetEnemyIDs s).1.length ≤ 5 ∧
    (∀ id ∈ (GetEnemyIDs s).1, id ≠ "") ∧
    (∀ id : String, id ∈ (GetEnemyIDs s).1 ↔
      id ≠ "" ∧ (id = s.Enemy1 ∨ id = s.Enemy2 ∨ id = s.Enemy3 ∨ id = s.Enemy4 ∨
        id = s.Enemy5)) ∧
    (GetEnemyIDs s).2 = s := by
  have hids : (GetEnemyIDs s).1 =
      [s.Enemy1, s.Enemy2, s.Enemy3, s.Enemy4, s.Enemy5].filter
        (fun id => decide (id ≠ "")) := by
    unfold GetEnemyIDs
    by_cases h1 : s.Enemy1 = "" <;> by_cases h2 : s.Enemy2 = "" <;>
      by_cases h3 : s.Enemy3 = "" <;> by_cases h4 : s.Enemy4 = "" <;>
      by_cases h5 : s.Enemy5 = "" <;> simp [h1, h2, h3, h4, h5, List.filter]
  refine ⟨hids, ?_, ?_, ?_, rfl⟩
  · rw [hids]
    exact le_trans (List.length_filter_le _ _) (by simp)
  · intro id hmem
    rw [hids, List.mem_filter] at hmem
    simpa using hmem.2
  · intro id
    rw [hids, List.mem_filter]
    simp only [List.mem_cons, List.mem_singleton, List.not_mem_nil, or_false,
      decide_eq_true_eq]
    tauto

/-- Worked instance of C33: the stage with enemies in the slots 1, 3 and 4. -/
theorem getEnemyIDs_example :
    (GetEnemyIDs (sampleStage "goblin" "" "orc" "goblin" "")).1 = ["goblin", "orc", "goblin"] ∧
    (GetEnemyIDs (sampleStage "" "" "" "" "")).1 = [] := by
  decide

end Oden
